import Mathlib

/-!
# Verification of the Local-Log-Analyzer parsing/analysis core

A shallow embedding of the log-parsing and analysis core of the repository
(`backend/app/services/file_processor.py`, `backend/app/services/log_analyzer.py`,
`backend/app/services/pattern_detector.py`) together with theorems checking the
natural-language specification against it.

Modelling conventions:
* Python strings are modelled as `List Char` internally (`String` at the API
  boundary); the ASCII behaviour of `str.strip`, `str.upper`, and the regex
  classes `\w`, `\d`, `\s` is modelled, matching the log inputs the code handles.
* `datetime` values are records of civil fields (`PyDateTime`); epoch arithmetic
  is exact over `ℚ`, with the container timezone taken as UTC.
* Library black boxes whose results the control flow merely branches on
  (`csv.Sniffer`/`csv.DictReader`, the five syslog line regexes, `json.loads`
  where stated) are explicit function parameters; theorems quantify over them.
* Raising an exception is modelled by `Except`/`Option` result types.
-/

namespace LogAnalyzer

/-! ## Character classes and basic Python string operations -/

/-- Python whitespace, for `str.strip` and the regex class `\s` (ASCII part). -/
def isPyWs (c : Char) : Bool :=
  c = ' ' || c = '\t' || c = '\n' || c = '\r' || c = Char.ofNat 11 || c = Char.ofNat 12

/-- The regex word class `\w` (ASCII part): letters, digits, underscore. -/
def isWordC (c : Char) : Bool := c.isAlphanum || c = '_'

def isDigitC (c : Char) : Bool := c.isDigit

/-- Lower-case hexadecimal digit, as in the UUID regexes (`[0-9a-f]`). -/
def isHexL (c : Char) : Bool := c.isDigit || (('a' ≤ c) && (c ≤ 'f'))

/-- `str.strip()` on a character list: drop trailing, then leading whitespace. -/
def pyStripL (cs : List Char) : List Char :=
  ((cs.reverse.dropWhile isPyWs).reverse).dropWhile isPyWs

/-- `str.strip()` on a `String`. -/
def pyStrip (s : String) : String := String.mk (pyStripL s.data)

/-- `str.split("\n")` on a character list. -/
def splitLines : List Char → List (List Char)
  | [] => [[]]
  | c :: cs =>
    if c = '\n' then [] :: splitLines cs
    else
      match splitLines cs with
      | [] => [[c]]
      | l :: ls => (c :: l) :: ls

/-- A line is blank when it strips to nothing, i.e. is all whitespace. -/
def isBlankL (cs : List Char) : Bool := cs.all isPyWs

/-- Number of non-blank lines in a list of lines. -/
def countNB (lss : List (List Char)) : Nat := lss.countP (fun l => !(isBlankL l))

/-- Number of non-blank lines of a source text (split on newline, unstripped). -/
def nonBlankCount (content : String) : Nat := countNB (splitLines content.data)

def digitVal (c : Char) : Nat := c.toNat - 48

/-- `str.isdigit()` (ASCII part): non-empty and all decimal digits. -/
def isDigitStr (cs : List Char) : Bool := !cs.isEmpty && cs.all isDigitC

def natOfDigits (cs : List Char) : Nat := cs.foldl (fun a c => a * 10 + digitVal c) 0

/-- Substring containment, for `re.search` of a literal pattern. -/
def containsSubstr (pat : List Char) : List Char → Bool
  | [] => pat.isPrefixOf []
  | c :: cs => pat.isPrefixOf (c :: cs) || containsSubstr pat cs

/-! ## The `datetime` model -/

/-- A Python `datetime`: civil fields plus an optional fixed timezone offset in
minutes (present only for `%z`-parsed values, which the analysed inputs never
produce). -/
structure PyDateTime where
  year : Int
  month : Nat
  day : Nat
  hour : Nat
  minute : Nat
  second : Nat
  usec : Nat
  tzMin : Option Int
deriving DecidableEq, Repr

def isLeap (y : Int) : Bool := (y % 4 == 0 && y % 100 != 0) || y % 400 == 0

def daysInMonth (y : Int) (m : Nat) : Nat :=
  if m = 2 then (if isLeap y then 29 else 28)
  else if m = 4 || m = 6 || m = 9 || m = 11 then 30 else 31

/-- Days since 1970-01-01 of a civil date (standard era-based algorithm). -/
def daysFromCivil (y : Int) (m d : Nat) : Int :=
  let yJ : Int := if m ≤ 2 then y - 1 else y
  let era : Int := Int.ediv yJ 400
  let yoe : Int := yJ - era * 400
  let mp : Nat := (m + 9) % 12
  let doy : Int := Int.ofNat ((153 * mp + 2) / 5 + d) - 1
  let doe : Int := yoe * 365 + Int.ediv yoe 4 - Int.ediv yoe 100 + doy
  era * 146097 + doe - 719468

/-- Civil date from days since 1970-01-01 (inverse of `daysFromCivil`). -/
def civilFromDays (z0 : Int) : Int × Nat × Nat :=
  let z : Int := z0 + 719468
  let era : Int := Int.ediv z 146097
  let doe : Nat := (z - era * 146097).toNat
  let yoe : Nat := (doe - doe / 1460 + doe / 36524 - doe / 146096) / 365
  let doy : Nat := doe - (365 * yoe + yoe / 4 - yoe / 100)
  let mp : Nat := (5 * doy + 2) / 153
  let d : Nat := doy - (153 * mp + 2) / 5 + 1
  let m : Nat := if mp < 10 then mp + 3 else mp - 9
  (Int.ofNat yoe + era * 400 + (if m ≤ 2 then 1 else 0), m, d)

/-- Exact epoch value of a naive `datetime`, in integer microseconds. -/
def epochUs (dt : PyDateTime) : Int :=
  (daysFromCivil dt.year dt.month dt.day * 86400
      + Int.ofNat (dt.hour * 3600 + dt.minute * 60 + dt.second)) * 1000000
    + Int.ofNat dt.usec

/-- Field-lexicographic comparison, as Python compares naive datetimes. -/
def dtCmp (a b : PyDateTime) : Ordering :=
  (compare a.year b.year).then ((compare a.month b.month).then
    ((compare a.day b.day).then ((compare a.hour b.hour).then
      ((compare a.minute b.minute).then ((compare a.second b.second).then
        (compare a.usec b.usec))))))

def dtLeB (a b : PyDateTime) : Bool := dtCmp a b ≠ Ordering.gt

def dtLtB (a b : PyDateTime) : Bool := dtCmp a b = Ordering.lt

/-! ### Exact rational arithmetic

Python float values and derived statistics are modelled as exact rationals.
`ℚ` itself normalizes through `Nat.gcd`, which the kernel cannot evaluate, so
an unnormalized pair type `PyQ` is used in the executable definitions, with
`PyQ.toRat` bridging to `ℚ` in theorem statements. -/

structure PyQ where
  n : Int
  d : Nat
deriving DecidableEq, Repr

def PyQ.ofInt (i : Int) : PyQ := ⟨i, 1⟩

def PyQ.ofNat (m : Nat) : PyQ := ⟨Int.ofNat m, 1⟩

def PyQ.add (a b : PyQ) : PyQ := ⟨a.n * b.d + b.n * a.d, a.d * b.d⟩

def PyQ.mul (a b : PyQ) : PyQ := ⟨a.n * b.n, a.d * b.d⟩

/-- Division (never applied to a zero divisor by the embedded code). -/
def PyQ.div (a b : PyQ) : PyQ :=
  if 0 ≤ b.n then ⟨a.n * b.d, a.d * b.n.toNat⟩ else ⟨-(a.n * b.d), a.d * (-b.n).toNat⟩

def PyQ.ltB (a b : PyQ) : Bool := a.n * b.d < b.n * a.d

def PyQ.leB (a b : PyQ) : Bool := a.n * b.d ≤ b.n * a.d

def PyQ.floorI (q : PyQ) : Int := Int.fdiv q.n q.d

def PyQ.toRat (q : PyQ) : ℚ := (q.n : ℚ) / (q.d : ℚ)

/-- `datetime.min`/`datetime.max` as epoch seconds (years 1..9999). -/
def MINTSI : Int := -62135596800

def MAXTSI : Int := 253402300800

/-- `datetime.fromtimestamp` under a UTC container timezone: converts an epoch
second count to civil fields; raising (outside the representable range,
years 1..9999) is `none`. Fractional seconds floor to microseconds. -/
def fromtimestampQ (t : PyQ) : Option PyDateTime :=
  if PyQ.ltB t (PyQ.ofInt MINTSI) || PyQ.leB (PyQ.ofInt MAXTSI) t then none
  else
    let totUs : Int := PyQ.floorI (PyQ.mul t (PyQ.ofNat 1000000))
    let secs : Int := Int.ediv totUs 1000000
    let us : Nat := (totUs - secs * 1000000).toNat
    let days : Int := Int.ediv secs 86400
    let sod : Nat := (secs - days * 86400).toNat
    let ymd := civilFromDays days
    some ⟨ymd.1, ymd.2.1, ymd.2.2, sod / 3600, (sod % 3600) / 60, sod % 60, us, none⟩

/-! ## `datetime.strptime`, restricted to the format directives the code uses

CPython `_strptime` compiles each directive to a regex fragment; the fragments
for the directives appearing in `FileProcessor._extract_timestamp` are embedded
below with their exact alternation semantics (e.g. `%m` is `1[0-2]|0[1-9]|[1-9]`).
Matching is case-insensitive and whitespace in the format matches `\s+`. -/

/-- Exactly `n` digits (the `%Y` fragment is `\d\d\d\d`). -/
def parseNDigits : Nat → List Char → Option (Nat × List Char)
  | 0, cs => some (0, cs)
  | _ + 1, [] => none
  | n + 1, c :: cs =>
    if isDigitC c then (parseNDigits n cs).map (fun p => (digitVal c * 10 ^ n + p.1, p.2))
    else none

/-- `%m`: `1[0-2]|0[1-9]|[1-9]` (regex alternation, tried in order). -/
def parseMonth2 : List Char → Option (Nat × List Char)
  | [] => none
  | c :: cs =>
    if c = '1' then
      match cs with
      | c2 :: cs2 => if '0' ≤ c2 && c2 ≤ '2' then some (10 + digitVal c2, cs2) else some (1, cs)
      | [] => some (1, [])
    else if c = '0' then
      match cs with
      | c2 :: cs2 => if '1' ≤ c2 && c2 ≤ '9' then some (digitVal c2, cs2) else none
      | [] => none
    else if '1' ≤ c && c ≤ '9' then some (digitVal c, cs) else none

/-- `%d`: `3[01]|[12]\d|0[1-9]|[1-9]`. -/
def parseDay2 : List Char → Option (Nat × List Char)
  | [] => none
  | c :: cs =>
    if c = '3' then
      match cs with
      | c2 :: cs2 => if c2 = '0' || c2 = '1' then some (30 + digitVal c2, cs2) else some (3, cs)
      | [] => some (3, [])
    else if c = '1' || c = '2' then
      match cs with
      | c2 :: cs2 => if isDigitC c2 then some (digitVal c * 10 + digitVal c2, cs2) else some (digitVal c, cs)
      | [] => some (digitVal c, [])
    else if c = '0' then
      match cs with
      | c2 :: cs2 => if '1' ≤ c2 && c2 ≤ '9' then some (digitVal c2, cs2) else none
      | [] => none
    else if '1' ≤ c && c ≤ '9' then some (digitVal c, cs) else none

/-- `%H`: `2[0-3]|[0-1]\d|\d`. -/
def parseHour2 : List Char → Option (Nat × List Char)
  | [] => none
  | c :: cs =>
    if c = '2' then
      match cs with
      | c2 :: cs2 => if '0' ≤ c2 && c2 ≤ '3' then some (20 + digitVal c2, cs2) else some (2, cs)
      | [] => some (2, [])
    else if c = '0' || c = '1' then
      match cs with
      | c2 :: cs2 => if isDigitC c2 then some (digitVal c * 10 + digitVal c2, cs2) else some (digitVal c, cs)
      | [] => some (digitVal c, [])
    else if isDigitC c then some (digitVal c, cs) else none

/-- `%M`: `[0-5]\d|\d`. -/
def parseMin2 : List Char → Option (Nat × List Char)
  | [] => none
  | c :: cs =>
    if isDigitC c then
      match cs with
      | c2 :: cs2 =>
        if c ≤ '5' && isDigitC c2 then some (digitVal c * 10 + digitVal c2, cs2)
        else some (digitVal c, cs)
      | [] => some (digitVal c, [])
    else none

/-- `%S`: `6[0-1]|[0-5]\d|\d`. -/
def parseSec2 : List Char → Option (Nat × List Char)
  | [] => none
  | c :: cs =>
    if c = '6' then
      match cs with
      | c2 :: cs2 => if c2 = '0' || c2 = '1' then some (60 + digitVal c2, cs2) else some (6, cs)
      | [] => some (6, [])
    else if isDigitC c then
      match cs with
      | c2 :: cs2 =>
        if c ≤ '5' && isDigitC c2 then some (digitVal c * 10 + digitVal c2, cs2)
        else some (digitVal c, cs)
      | [] => some (digitVal c, [])
    else none

/-- `%f`: `[0-9]{1,6}` greedy, right-padded to microseconds. -/
def parseFrac (cs : List Char) : Option (Nat × List Char) :=
  let ds := (cs.takeWhile isDigitC).take 6
  if ds = [] then none
  else some ((ds.foldl (fun a c => a * 10 + digitVal c) 0) * 10 ^ (6 - ds.length), cs.drop ds.length)

def monthAbbrevs : List (List Char) :=
  [['j','a','n'], ['f','e','b'], ['m','a','r'], ['a','p','r'], ['m','a','y'], ['j','u','n'],
   ['j','u','l'], ['a','u','g'], ['s','e','p'], ['o','c','t'], ['n','o','v'], ['d','e','c']]

/-- `%b`: an abbreviated month name, case-insensitively. -/
def parseMonthName : List Char → Option (Nat × List Char)
  | a :: b :: c :: rest =>
    match monthAbbrevs.findIdx? (fun w => w = [a.toLower, b.toLower, c.toLower]) with
    | some i => some (i + 1, rest)
    | none => none
  | _ => none

/-- `%z`: `Z` or a `[+-]HH[:]MM` offset (in minutes). -/
def parseTz : List Char → Option (Int × List Char)
  | 'Z' :: rest => some (0, rest)
  | c :: h1 :: h2 :: rest =>
    if (c = '+' || c = '-') && isDigitC h1 && isDigitC h2 then
      let hh := digitVal h1 * 10 + digitVal h2
      let cont := fun (m1 m2 : Char) (rest2 : List Char) =>
        if isDigitC m1 && isDigitC m2 then
          let tot : Int := Int.ofNat (hh * 60 + (digitVal m1 * 10 + digitVal m2))
          some ((if c = '-' then -tot else tot), rest2)
        else none
      match rest with
      | ':' :: m1 :: m2 :: rest2 => cont m1 m2 rest2
      | m1 :: m2 :: rest2 => cont m1 m2 rest2
      | _ => none
    else none
  | _ => none

inductive FmtTok where
  | Y | Mo | D | H | Mi | S | F | Z | B | lit (c : Char)
deriving DecidableEq, Repr

structure StpAcc where
  yv : Option Nat
  mov : Option Nat
  dv : Option Nat
  hv : Option Nat
  miv : Option Nat
  sv : Option Nat
  usv : Option Nat
  tzv : Option Int
deriving Repr

def StpAcc.init : StpAcc := ⟨none, none, none, none, none, none, none, none⟩

def stpTok (t : FmtTok) (a : StpAcc) (cs : List Char) : Option (StpAcc × List Char) :=
  match t with
  | .Y => (parseNDigits 4 cs).map (fun p => (⟨some p.1, a.mov, a.dv, a.hv, a.miv, a.sv, a.usv, a.tzv⟩, p.2))
  | .Mo => (parseMonth2 cs).map (fun p => (⟨a.yv, some p.1, a.dv, a.hv, a.miv, a.sv, a.usv, a.tzv⟩, p.2))
  | .D => (parseDay2 cs).map (fun p => (⟨a.yv, a.mov, some p.1, a.hv, a.miv, a.sv, a.usv, a.tzv⟩, p.2))
  | .H => (parseHour2 cs).map (fun p => (⟨a.yv, a.mov, a.dv, some p.1, a.miv, a.sv, a.usv, a.tzv⟩, p.2))
  | .Mi => (parseMin2 cs).map (fun p => (⟨a.yv, a.mov, a.dv, a.hv, some p.1, a.sv, a.usv, a.tzv⟩, p.2))
  | .S => (parseSec2 cs).map (fun p => (⟨a.yv, a.mov, a.dv, a.hv, a.miv, some p.1, a.usv, a.tzv⟩, p.2))
  | .F => (parseFrac cs).map (fun p => (⟨a.yv, a.mov, a.dv, a.hv, a.miv, a.sv, some p.1, a.tzv⟩, p.2))
  | .Z => (parseTz cs).map (fun p => (⟨a.yv, a.mov, a.dv, a.hv, a.miv, a.sv, a.usv, some p.1⟩, p.2))
  | .B => (parseMonthName cs).map (fun p => (⟨a.yv, some p.1, a.dv, a.hv, a.miv, a.sv, a.usv, a.tzv⟩, p.2))
  | .lit c =>
    if c = ' ' then
      match cs with
      | c2 :: rest => if isPyWs c2 then some (a, (c2 :: rest).dropWhile isPyWs) else none
      | [] => none
    else
      match cs with
      | c2 :: rest => if c2.toLower = c.toLower then some (a, rest) else none
      | [] => none

def runStpToks : List FmtTok → StpAcc → List Char → Option StpAcc
  | [], a, cs => if cs = [] then some a else none
  | t :: ts, a, cs =>
    match stpTok t a cs with
    | some p => runStpToks ts p.1 p.2
    | none => none

/-- The `datetime(...)` constructor validation applied by `strptime` (with its
defaults: year 1900, month/day 1, midnight). -/
def buildDT (a : StpAcc) : Option PyDateTime :=
  let y : Int := Int.ofNat (a.yv.getD 1900)
  let mo := a.mov.getD 1
  let d := a.dv.getD 1
  let h := a.hv.getD 0
  let mi := a.miv.getD 0
  let s := a.sv.getD 0
  if 1 ≤ mo && mo ≤ 12 && 1 ≤ d && d ≤ daysInMonth y mo && h ≤ 23 && mi ≤ 59 && s ≤ 59 then
    some ⟨y, mo, d, h, mi, s, a.usv.getD 0, a.tzv⟩
  else none

def runStrptime (toks : List FmtTok) (cs : List Char) : Option PyDateTime :=
  (runStpToks toks StpAcc.init cs).bind buildDT

/-! ## `FileProcessor._extract_timestamp` -/

def fmtIsoFracZ : List FmtTok :=
  [.Y, .lit '-', .Mo, .lit '-', .D, .lit 'T', .H, .lit ':', .Mi, .lit ':', .S, .lit '.', .F, .lit 'Z']

def fmtIsoZ : List FmtTok :=
  [.Y, .lit '-', .Mo, .lit '-', .D, .lit 'T', .H, .lit ':', .Mi, .lit ':', .S, .lit 'Z']

def fmtIsoFrac : List FmtTok :=
  [.Y, .lit '-', .Mo, .lit '-', .D, .lit 'T', .H, .lit ':', .Mi, .lit ':', .S, .lit '.', .F]

def fmtIso : List FmtTok :=
  [.Y, .lit '-', .Mo, .lit '-', .D, .lit 'T', .H, .lit ':', .Mi, .lit ':', .S]

def fmtIsoTz : List FmtTok :=
  [.Y, .lit '-', .Mo, .lit '-', .D, .lit 'T', .H, .lit ':', .Mi, .lit ':', .S, .Z]

def fmtStdFrac : List FmtTok :=
  [.Y, .lit '-', .Mo, .lit '-', .D, .lit ' ', .H, .lit ':', .Mi, .lit ':', .S, .lit '.', .F]

def fmtStd : List FmtTok :=
  [.Y, .lit '-', .Mo, .lit '-', .D, .lit ' ', .H, .lit ':', .Mi, .lit ':', .S]

def fmtSyslog : List FmtTok :=
  [.B, .lit ' ', .D, .lit ' ', .H, .lit ':', .Mi, .lit ':', .S]

def fmtYSyslog : List FmtTok :=
  [.Y, .lit ' ', .B, .lit ' ', .D, .lit ' ', .H, .lit ':', .Mi, .lit ':', .S]

def fmtUS : List FmtTok :=
  [.Mo, .lit '/', .D, .lit '/', .Y, .lit ' ', .H, .lit ':', .Mi, .lit ':', .S]

def fmtEU : List FmtTok :=
  [.D, .lit '/', .Mo, .lit '/', .Y, .lit ' ', .H, .lit ':', .Mi, .lit ':', .S]

def fmtYSlash : List FmtTok :=
  [.Y, .lit '/', .Mo, .lit '/', .D, .lit ' ', .H, .lit ':', .Mi, .lit ':', .S]

/-- An entry of the `formats` list: a strptime template, or the special `'%s'`
entry that the loop handles by `float()` + `fromtimestamp`. -/
inductive TsFormat where
  | strp (toks : List FmtTok)
  | unixSeconds
deriving Repr

/-- The `formats` list of `_extract_timestamp`, in source order (`'%s'` last). -/
def timestampFormats : List TsFormat :=
  [.strp fmtIsoFracZ, .strp fmtIsoZ, .strp fmtIsoFrac, .strp fmtIso, .strp fmtIsoTz,
   .strp fmtStdFrac, .strp fmtStd, .strp fmtSyslog, .strp fmtYSyslog,
   .strp fmtUS, .strp fmtEU, .strp fmtYSlash, .unixSeconds]

def digitsAcc : List Char → Nat → Nat → Nat × Nat × List Char
  | c :: rest, v, n =>
    if isDigitC c then digitsAcc rest (v * 10 + digitVal c) (n + 1) else (v, n, c :: rest)
  | [], v, n => (v, n, [])

/-- The exponent suffix of a float literal (`[eE][+-]?digits`), applied to a
parsed mantissa; empty rest means no exponent. -/
def pyFloatExp (mant : PyQ) : List Char → Option PyQ
  | [] => some mant
  | e :: r =>
    if e = 'e' || e = 'E' then
      let esp : Bool × List Char :=
        match r with
        | '+' :: rr => (true, rr)
        | '-' :: rr => (false, rr)
        | _ => (true, r)
      let epart := digitsAcc esp.2 0 0
      if epart.2.1 = 0 ∨ epart.2.2 ≠ [] then none
      else some (PyQ.mul mant (if esp.1 then PyQ.ofNat (10 ^ epart.1) else ⟨1, 10 ^ epart.1⟩))
    else none

/-- Mantissa of a float literal: `digits [. digits]` with at least one digit,
then the optional exponent. -/
def pyFloatCore (sgn : Int) (cs : List Char) : Option PyQ :=
  let ipart := digitsAcc cs 0 0
  let fpart : Nat × Nat × List Char :=
    match ipart.2.2 with
    | '.' :: r => digitsAcc r 0 0
    | _ => (0, 0, ipart.2.2)
  if ipart.2.1 = 0 ∧ fpart.2.1 = 0 then none
  else
    pyFloatExp
      (PyQ.mul (PyQ.ofInt sgn)
        (PyQ.add (PyQ.ofNat ipart.1) (PyQ.div (PyQ.ofNat fpart.1) (PyQ.ofNat (10 ^ fpart.2.1)))))
      fpart.2.2

/-- Python `float(str)` on an (already stripped) string, as an exact rational;
`none` models `ValueError`. -/
def pyFloatQ : List Char → Option PyQ
  | '+' :: r => pyFloatCore 1 r
  | '-' :: r => pyFloatCore (-1) r
  | cs0 => pyFloatCore 1 cs0

/-- The format loop of `_extract_timestamp`: first success wins; the `'%s'`
entry converts via `float` and `fromtimestamp`, its exceptions continue. -/
def tryTsFormats : List TsFormat → List Char → Option PyDateTime
  | [], _ => none
  | .strp toks :: rest, cs =>
    match runStrptime toks cs with
    | some dt => some dt
    | none => tryTsFormats rest cs
  | .unixSeconds :: rest, cs =>
    match (pyFloatQ cs).bind fromtimestampQ with
    | some dt => some dt
    | none => tryTsFormats rest cs

/-- The pure-digit fallback of `_extract_timestamp` (reached only when every
format, including `'%s'`, failed). Note the `elif timestamp > 1e13` branch is
shadowed by the preceding `if timestamp > 1e10`. -/
def digitFallback (n : Nat) : Option PyDateTime :=
  if n > 10 ^ 10 then fromtimestampQ ⟨Int.ofNat n, 1000⟩
  else if n > 10 ^ 13 then fromtimestampQ ⟨Int.ofNat n, 1000000⟩
  else fromtimestampQ (PyQ.ofNat n)

/-- `FileProcessor._extract_timestamp` on a string input (the falsy guard on
the optional argument is handled by `extractTimestampOpt`). -/
def extractTimestamp (s : String) : Option PyDateTime :=
  if s = "" then none
  else
    let t := pyStripL s.data
    match tryTsFormats timestampFormats t with
    | some dt => some dt
    | none => if isDigitStr t then digitFallback (natOfDigits t) else none

/-- `_extract_timestamp` including the `if not timestamp_str: return None` guard
for an optional argument. -/
def extractTimestampOpt : Option String → Option PyDateTime
  | none => none
  | some s => extractTimestamp s

end LogAnalyzer

namespace LogAnalyzer

/-! ## Helper lemmas: pure-digit strings defeat every strptime format -/

theorem toLower_of_digit (c : Char) (h : isDigitC c = true) : c.toLower = c := by
  simp only [isDigitC, Char.isDigit, Bool.and_eq_true, decide_eq_true_eq] at h
  unfold Char.toLower
  rw [if_neg]
  intro hc
  have h2 : c.val.toNat ≤ (57 : UInt32).toNat := h.2
  have h3 : (57 : UInt32).toNat = 57 := by decide
  have h4 : c.toNat = c.val.toNat := rfl
  omega

theorem ws_of_digit (c : Char) (h : isDigitC c = true) : isPyWs c = false := by
  cases hx : isPyWs c
  · rfl
  · exfalso
    simp only [isPyWs, Bool.or_eq_true, decide_eq_true_eq] at hx
    rcases hx with ((((h1 | h1) | h1) | h1) | h1) | h1 <;> subst h1 <;>
      exact absurd h (by decide)

/-- All-digit character lists. -/
def AD (cs : List Char) : Prop := cs.all isDigitC = true

theorem AD_tail {c : Char} {cs : List Char} (h : AD (c :: cs)) : AD cs := by
  simp only [AD, List.all_cons, Bool.and_eq_true] at h
  exact h.2

theorem AD_head {c : Char} {cs : List Char} (h : AD (c :: cs)) : isDigitC c = true := by
  simp only [AD, List.all_cons, Bool.and_eq_true] at h
  exact h.1

theorem AD_nil : AD [] := rfl

theorem parseNDigits_AD (n : Nat) (cs : List Char) (h : AD cs) :
    ∀ p, parseNDigits n cs = some p → AD p.2 := by
  induction n generalizing cs with
  | zero =>
    intro p hp
    simp only [parseNDigits, Option.some.injEq] at hp
    rw [← hp]
    exact h
  | succ n ih =>
    intro p hp
    match cs with
    | [] => simp [parseNDigits] at hp
    | c :: cs2 =>
      simp only [parseNDigits] at hp
      by_cases hd : isDigitC c
      · rw [if_pos hd] at hp
        match hpn : parseNDigits n cs2 with
        | none => rw [hpn] at hp; simp at hp
        | some q =>
          rw [hpn] at hp
          simp only [Option.map_some', Option.some.injEq] at hp
          have := ih cs2 (AD_tail h) q hpn
          rw [← hp]
          exact this
      · rw [if_neg hd] at hp; simp at hp

theorem parseMonth2_AD (cs : List Char) (h : AD cs) :
    ∀ p, parseMonth2 cs = some p → AD p.2 := by
  intro p hp
  match cs with
  | [] => simp [parseMonth2] at hp
  | [c] =>
    simp only [parseMonth2] at hp
    split at hp
    · simp only [Option.some.injEq] at hp; rw [← hp]; exact AD_nil
    · split at hp
      · simp at hp
      · split at hp
        · simp only [Option.some.injEq] at hp; rw [← hp]; exact AD_nil
        · simp at hp
  | c :: c2 :: cs3 =>
    simp only [parseMonth2] at hp
    split at hp
    · split at hp <;>
        (simp only [Option.some.injEq] at hp; rw [← hp])
      · exact (AD_tail (AD_tail h))
      · exact (AD_tail h)
    · split at hp
      · split at hp
        · simp only [Option.some.injEq] at hp; rw [← hp]; exact (AD_tail (AD_tail h))
        · simp at hp
      · split at hp
        · simp only [Option.some.injEq] at hp; rw [← hp]; exact (AD_tail h)
        · simp at hp

theorem parseDay2_AD (cs : List Char) (h : AD cs) :
    ∀ p, parseDay2 cs = some p → AD p.2 := by
  intro p hp
  match cs with
  | [] => simp [parseDay2] at hp
  | [c] =>
    simp only [parseDay2] at hp
    split at hp
    · simp only [Option.some.injEq] at hp; rw [← hp]; exact AD_nil
    · split at hp
      · simp only [Option.some.injEq] at hp; rw [← hp]; exact AD_nil
      · split at hp
        · simp at hp
        · split at hp
          · simp only [Option.some.injEq] at hp; rw [← hp]; exact AD_nil
          · simp at hp
  | c :: c2 :: cs3 =>
    simp only [parseDay2] at hp
    split at hp
    · split at hp <;> (simp only [Option.some.injEq] at hp; rw [← hp])
      · exact (AD_tail (AD_tail h))
      · exact (AD_tail h)
    · split at hp
      · split at hp <;> (simp only [Option.some.injEq] at hp; rw [← hp])
        · exact (AD_tail (AD_tail h))
        · exact (AD_tail h)
      · split at hp
        · split at hp
          · simp only [Option.some.injEq] at hp; rw [← hp]; exact (AD_tail (AD_tail h))
          · simp at hp
        · split at hp
          · simp only [Option.some.injEq] at hp; rw [← hp]; exact (AD_tail h)
          · simp at hp

theorem stpTok_lit_nil (c : Char) (a : StpAcc) : stpTok (.lit c) a [] = none := by
  simp only [stpTok]
  split <;> rfl

theorem stpTok_litsp_digit_head (d : Char) (a : StpAcc) (r : List Char)
    (hd : isDigitC d = true) : stpTok (.lit ' ') a (d :: r) = none := by
  simp only [stpTok, if_pos]
  rw [ws_of_digit d hd]
  rfl

theorem stpTok_lit_digit_head (c d : Char) (a : StpAcc) (r : List Char)
    (hd : isDigitC d = true) (hc1 : isDigitC c.toLower = false) (hc2 : ¬(c = ' ')) :
    stpTok (.lit c) a (d :: r) = none := by
  simp only [stpTok]
  rw [if_neg hc2, if_neg]
  intro heq
  rw [toLower_of_digit d hd] at heq
  rw [← heq] at hc1
  rw [hd] at hc1
  exact Bool.true_eq_false.mp hc1

theorem stpTok_lit_fail (c : Char) (a : StpAcc) (r : List Char) (hr : AD r)
    (hc1 : isDigitC c.toLower = false) : stpTok (.lit c) a r = none := by
  match r with
  | [] => exact stpTok_lit_nil c a
  | d :: r2 =>
    by_cases hsp : c = ' '
    · subst hsp; exact stpTok_litsp_digit_head d a r2 (AD_head hr)
    · exact stpTok_lit_digit_head c d a r2 (AD_head hr) hc1 hsp

theorem runStpToks_digits_two (t1 : FmtTok) (c : Char) (rest : List FmtTok) (a : StpAcc)
    (cs : List Char)
    (hAD : ∀ p, stpTok t1 a cs = some p → AD p.2)
    (hc1 : isDigitC c.toLower = false) :
    runStpToks (t1 :: .lit c :: rest) a cs = none := by
  cases hp : stpTok t1 a cs with
  | none => simp only [runStpToks, hp]
  | some p =>
    simp only [runStpToks, hp]
    rw [stpTok_lit_fail c p.1 p.2 (hAD p hp) hc1]

theorem parseMonthName_digits (cs : List Char) (h : AD cs) : parseMonthName cs = none := by
  match cs with
  | [] => rfl
  | [a] => rfl
  | [a, b] => rfl
  | a :: b :: c :: rest =>
    have hda : isDigitC a = true := (AD_head h)
    simp only [parseMonthName]
    have hidx : monthAbbrevs.findIdx? (fun w => w = [a.toLower, b.toLower, c.toLower]) = none := by
      rw [List.findIdx?_eq_none_iff]
      intro w hw
      rw [toLower_of_digit a hda]
      simp only [monthAbbrevs, List.mem_cons, List.not_mem_nil, or_false] at hw
      rcases hw with h1|h1|h1|h1|h1|h1|h1|h1|h1|h1|h1|h1 <;> subst h1 <;>
        exact decide_eq_false (fun heq => by
          injection heq with h2 h3
          rw [← h2] at hda
          exact absurd hda (by decide))
    rw [hidx]

theorem stpTok_Y_AD (a : StpAcc) (cs : List Char) (h : AD cs) :
    ∀ p, stpTok .Y a cs = some p → AD p.2 := by
  intro p hp
  simp only [stpTok] at hp
  cases hq : parseNDigits 4 cs with
  | none => rw [hq] at hp; simp at hp
  | some q =>
    rw [hq] at hp
    simp only [Option.map_some', Option.some.injEq] at hp
    rw [← hp]
    exact parseNDigits_AD 4 cs h q hq

theorem stpTok_Mo_AD (a : StpAcc) (cs : List Char) (h : AD cs) :
    ∀ p, stpTok .Mo a cs = some p → AD p.2 := by
  intro p hp
  simp only [stpTok] at hp
  cases hq : parseMonth2 cs with
  | none => rw [hq] at hp; simp at hp
  | some q =>
    rw [hq] at hp
    simp only [Option.map_some', Option.some.injEq] at hp
    rw [← hp]
    exact parseMonth2_AD cs h q hq

theorem stpTok_D_AD (a : StpAcc) (cs : List Char) (h : AD cs) :
    ∀ p, stpTok .D a cs = some p → AD p.2 := by
  intro p hp
  simp only [stpTok] at hp
  cases hq : parseDay2 cs with
  | none => rw [hq] at hp; simp at hp
  | some q =>
    rw [hq] at hp
    simp only [Option.map_some', Option.some.injEq] at hp
    rw [← hp]
    exact parseDay2_AD cs h q hq

theorem runStpToks_digits_B (toks : List FmtTok) (a : StpAcc) (cs : List Char) (h : AD cs) :
    runStpToks (.B :: toks) a cs = none := by
  simp only [runStpToks, stpTok, parseMonthName_digits cs h, Option.map_none']

/-- Every strptime template in the `formats` list fails on a pure-digit string. -/
theorem runStrptime_digits (cs : List Char) (h : AD cs) :
    ∀ f ∈ [fmtIsoFracZ, fmtIsoZ, fmtIsoFrac, fmtIso, fmtIsoTz, fmtStdFrac, fmtStd,
           fmtSyslog, fmtYSyslog, fmtUS, fmtEU, fmtYSlash],
      runStrptime f cs = none := by
  intro f hf
  simp only [List.mem_cons, List.not_mem_nil, or_false] at hf
  have hY : ∀ c rest, isDigitC c.toLower = false →
      runStpToks (.Y :: .lit c :: rest) StpAcc.init cs = none := by
    intro c rest hc
    exact runStpToks_digits_two .Y c rest StpAcc.init cs (stpTok_Y_AD StpAcc.init cs h) hc
  rcases hf with h1|h1|h1|h1|h1|h1|h1|h1|h1|h1|h1|h1 <;> subst h1 <;>
    simp only [runStrptime, fmtIsoFracZ, fmtIsoZ, fmtIsoFrac, fmtIso, fmtIsoTz, fmtStdFrac,
      fmtStd, fmtSyslog, fmtYSyslog, fmtUS, fmtEU, fmtYSlash] <;>
    first
      | (rw [hY '-' _ (by decide)]; rfl)
      | (rw [hY ' ' _ (by decide)]; rfl)
      | (rw [hY '/' _ (by decide)]; rfl)
      | (rw [runStpToks_digits_B _ StpAcc.init cs h]; rfl)
      | (rw [runStpToks_digits_two .Mo '/' _ StpAcc.init cs (stpTok_Mo_AD StpAcc.init cs h) (by decide)]; rfl)
      | (rw [runStpToks_digits_two .D '/' _ StpAcc.init cs (stpTok_D_AD StpAcc.init cs h) (by decide)]; rfl)

theorem digitsAcc_digits (cs : List Char) (h : AD cs) : ∀ v n,
    digitsAcc cs v n = (cs.foldl (fun a c => a * 10 + digitVal c) v, n + cs.length, []) := by
  induction cs with
  | nil => intro v n; simp [digitsAcc]
  | cons c cs2 ih =>
    intro v n
    simp only [digitsAcc, (AD_head h), if_pos, List.foldl_cons, List.length_cons]
    rw [ih (AD_tail h)]
    have heq : n + 1 + cs2.length = n + (cs2.length + 1) := by omega
    rw [heq]

theorem pyFloatCore_digits (cs : List Char) (hne : cs ≠ []) (h : AD cs) :
    pyFloatCore 1 cs = some ⟨Int.ofNat (natOfDigits cs), 1⟩ := by
  simp only [pyFloatCore, digitsAcc_digits cs h 0 0]
  rw [if_neg]
  · simp only [pyFloatExp, PyQ.mul, PyQ.add, PyQ.div, PyQ.ofNat, PyQ.ofInt, natOfDigits]
    norm_num
  · intro hcon
    rcases hcon with ⟨h1, _⟩
    have hlen : cs.length ≠ 0 := fun hz => hne (List.eq_nil_of_length_eq_zero hz)
    omega

theorem pyFloatQ_digits (cs : List Char) (hne : cs ≠ []) (h : AD cs) :
    pyFloatQ cs = some ⟨Int.ofNat (natOfDigits cs), 1⟩ := by
  match cs with
  | c :: cs2 =>
    have hd : isDigitC c = true := (AD_head h)
    have hp : ¬(c = '+') := fun hc => by rw [hc] at hd; exact absurd hd (by decide)
    have hm : ¬(c = '-') := fun hc => by rw [hc] at hd; exact absurd hd (by decide)
    simp only [pyFloatQ]
    split
    · rename_i r heq; injection heq with h1 _; exact absurd h1 hp
    · rename_i r heq; injection heq with h1 _; exact absurd h1 hm
    · exact pyFloatCore_digits (c :: cs2) hne h

theorem tryTsFormats_digits (cs : List Char) (hne : cs ≠ []) (h : AD cs) :
    tryTsFormats timestampFormats cs = fromtimestampQ (PyQ.ofNat (natOfDigits cs)) := by
  have hs := runStrptime_digits cs h
  simp only [timestampFormats, tryTsFormats]
  rw [hs fmtIsoFracZ (by simp), hs fmtIsoZ (by simp), hs fmtIsoFrac (by simp),
      hs fmtIso (by simp), hs fmtIsoTz (by simp), hs fmtStdFrac (by simp),
      hs fmtStd (by simp), hs fmtSyslog (by simp), hs fmtYSyslog (by simp),
      hs fmtUS (by simp), hs fmtEU (by simp), hs fmtYSlash (by simp),
      pyFloatQ_digits cs hne h]
  simp only [Option.bind_some]
  show (match fromtimestampQ ⟨Int.ofNat (natOfDigits cs), 1⟩ with
    | some dt => some dt
    | none => none) = fromtimestampQ (PyQ.ofNat (natOfDigits cs))
  cases hft : fromtimestampQ ⟨Int.ofNat (natOfDigits cs), 1⟩ with
  | none => exact hft.symm
  | some dt => exact hft.symm

set_option maxRecDepth 8000

/-! ## Claim C4: `_extract_timestamp` -/

/-- C4 (corrected). The timestamp extractor maps `"2024-08-24T15:30:00Z"` to that
exact instant and `"1700000000"` to the Unix-seconds epoch instant; a string
matching no format and failing the digit check yields `none` (never an
exception). For pure-digit inputs, however, the `'%s'` format entry converts
via `float()` + `fromtimestamp` first, so the seconds interpretation is used
whenever it is representable; only out-of-range values reach the threshold
fallback, where every value above `1e10` is interpreted as milliseconds —
the `elif timestamp > 1e13` microseconds branch being unreachable. -/
theorem C4_amended :
    extractTimestamp "2024-08-24T15:30:00Z" = some ⟨2024, 8, 24, 15, 30, 0, 0, none⟩ ∧
    extractTimestamp "1700000000" = some ⟨2023, 11, 14, 22, 13, 20, 0, none⟩ ∧
    (∀ s : String, tryTsFormats timestampFormats (pyStripL s.data) = none →
      isDigitStr (pyStripL s.data) = false → extractTimestamp s = none) ∧
    (∀ s : String, s ≠ "" → isDigitStr (pyStripL s.data) = true →
      extractTimestamp s =
        (fromtimestampQ (PyQ.ofNat (natOfDigits (pyStripL s.data)))).elim
          (digitFallback (natOfDigits (pyStripL s.data))) some) ∧
    (∀ n : Nat, n > 10 ^ 13 → digitFallback n = fromtimestampQ ⟨Int.ofNat n, 1000⟩) := by
  refine ⟨by decide, by decide, ?_, ?_, ?_⟩
  · intro s h1 h2
    by_cases hs : s = ""
    · rw [hs]; rfl
    · simp only [extractTimestamp, if_neg hs, h1, h2]
      rfl
  · intro s hs hd
    have hne : pyStripL s.data ≠ [] := by
      intro hz
      rw [isDigitStr, hz] at hd
      exact absurd hd (by decide)
    have had : AD (pyStripL s.data) := by
      simp only [isDigitStr, Bool.and_eq_true] at hd
      exact hd.2
    simp only [extractTimestamp, if_neg hs, tryTsFormats_digits (pyStripL s.data) hne had, hd]
    cases hft : fromtimestampQ (PyQ.ofNat (natOfDigits (pyStripL s.data))) with
    | none => simp [hft]
    | some dt => simp [hft]
  · intro n hn
    have h10 : n > 10 ^ 10 := by
      have : (10 : Nat) ^ 10 < 10 ^ 13 := by norm_num
      omega
    rw [digitFallback, if_pos h10]

/-- C4, counterexample to the claim as stated: the pure-digit input
`"20000000000"` exceeds `1e10`, so the claim's threshold rule interprets it as
a Unix-milliseconds epoch (1970-08-20T11:33:20); the code instead returns the
seconds interpretation 2603-10-11T11:33:20, because the `'%s'` format entry
succeeds before the digit fallback is ever reached. -/
theorem C4_counterexample :
    extractTimestamp "20000000000" = some ⟨2603, 10, 11, 11, 33, 20, 0, none⟩ ∧
    fromtimestampQ ⟨20000000000, 1000⟩ = some ⟨1970, 8, 20, 11, 33, 20, 0, none⟩ ∧
    (⟨2603, 10, 11, 11, 33, 20, 0, none⟩ : PyDateTime) ≠ ⟨1970, 8, 20, 11, 33, 20, 0, none⟩ := by
  refine ⟨by decide, by decide, by decide⟩

/-- C4, witness: the universal clauses of `C4_amended` applied at concrete
inputs. -/
theorem C4_amended_witness :
    extractTimestamp "still not a date" = none ∧
    extractTimestamp "321" = some ⟨1970, 1, 1, 0, 5, 21, 0, none⟩ := by
  constructor
  · exact C4_amended.2.2.1 "still not a date" (by decide) (by decide)
  · have h := C4_amended.2.2.2.1 "321" (by decide) (by decide)
    rw [h]; decide

/-! ## `FileProcessor._extract_service` (C3)

Each regex of the `patterns` list is embedded as a leftmost-match scanner.
The quantifiers involved (`\w+`, `[^\]]+`, `\s*`, `\d+`) are greedy runs that
must be followed by a character outside their class, so the backtracking
regex semantics coincide with the deterministic maximal-run scan. -/

def pyLowerL (cs : List Char) : List Char := cs.map Char.toLower

/-- `_get_excluded_service_names`. -/
def excludedServiceNames : List String :=
  ["info", "error", "warn", "warning", "debug", "trace", "fatal", "critical",
   "log", "logs", "message", "msg", "text", "data", "main", "root", "system"]

def isExcludedService (cs : List Char) : Bool :=
  excludedServiceNames.contains (String.mk (pyLowerL cs))

/-- `(\w+)\[\d+\]:\s` at one position. -/
def tryPatPid (cs : List Char) : Option (List Char) :=
  let run := cs.takeWhile isWordC
  if run = [] then none
  else
    match cs.drop run.length with
    | '[' :: r1 =>
      let ds := r1.takeWhile isDigitC
      if ds = [] then none
      else
        match r1.drop ds.length with
        | ']' :: ':' :: w :: _ => if isPyWs w then some run else none
        | _ => none
    | _ => none

def findPatPid : List Char → Option (List Char)
  | [] => none
  | c :: cs =>
    match tryPatPid (c :: cs) with
    | some g => some g
    | none => findPatPid cs

/-- `\[([^\]]+)\]` at one position. -/
def tryPatBracket (cs : List Char) : Option (List Char) :=
  match cs with
  | '[' :: rest =>
    let content := rest.takeWhile (fun c => !(c = ']'))
    if content = [] then none
    else
      match rest.drop content.length with
      | ']' :: _ => some content
      | _ => none
  | _ => none

def findPatBracket : List Char → Option (List Char)
  | [] => none
  | c :: cs =>
    match tryPatBracket (c :: cs) with
    | some g => some g
    | none => findPatBracket cs

/-- `(\w+):\s` at one position. -/
def tryPatColonSp (cs : List Char) : Option (List Char) :=
  let run := cs.takeWhile isWordC
  if run = [] then none
  else
    match cs.drop run.length with
    | ':' :: w :: _ => if isPyWs w then some run else none
    | _ => none

def findPatColonSp : List Char → Option (List Char)
  | [] => none
  | c :: cs =>
    match tryPatColonSp (c :: cs) with
    | some g => some g
    | none => findPatColonSp cs

/-- `\b(\w+)\s*-\s` at one position (needs the previous character for `\b`). -/
def tryPatDash (prev : Option Char) (cs : List Char) : Option (List Char) :=
  let bOk : Bool := match prev with | none => true | some p => !(isWordC p)
  if !bOk then none
  else
    let run := cs.takeWhile isWordC
    if run = [] then none
    else
      let r1 := cs.drop run.length
      match r1.dropWhile isPyWs with
      | '-' :: w :: _ => if isPyWs w then some run else none
      | _ => none

def findPatDash : Option Char → List Char → Option (List Char)
  | _, [] => none
  | prev, c :: cs =>
    match tryPatDash prev (c :: cs) with
    | some g => some g
    | none => findPatDash (some c) cs

/-- `(\w+)\.\w+` at one position. -/
def tryPatDotted (cs : List Char) : Option (List Char) :=
  let run := cs.takeWhile isWordC
  if run = [] then none
  else
    match cs.drop run.length with
    | '.' :: w :: _ => if isWordC w then some run else none
    | _ => none

def findPatDotted : List Char → Option (List Char)
  | [] => none
  | c :: cs =>
    match tryPatDotted (c :: cs) with
    | some g => some g
    | none => findPatDotted cs

/-- `(\w+):$` at one position (`$` also matches before a final newline). -/
def tryPatColonEnd (cs : List Char) : Option (List Char) :=
  let run := cs.takeWhile isWordC
  if run = [] then none
  else
    match cs.drop run.length with
    | [':'] => some run
    | ':' :: ['\n'] => some run
    | _ => none

def findPatColonEnd : List Char → Option (List Char)
  | [] => none
  | c :: cs =>
    match tryPatColonEnd (c :: cs) with
    | some g => some g
    | none => findPatColonEnd cs

/-- `^(\w+)\s`: anchored at the start of the string. -/
def findPatStart (cs : List Char) : Option (List Char) :=
  let run := cs.takeWhile isWordC
  if run = [] then none
  else
    match cs.drop run.length with
    | w :: _ => if isPyWs w then some run else none
    | [] => none

/-- The `patterns` loop of `_extract_service`: first matching pattern whose
captured token is not stoplisted wins; a stoplisted capture moves on to the
next pattern. -/
def tryServicePatterns : List (List Char → Option (List Char)) → List Char → Option (List Char)
  | [], _ => none
  | p :: ps, s =>
    match p s with
    | some ex => if isExcludedService ex then tryServicePatterns ps s else some ex
    | none => tryServicePatterns ps s

def servicePatterns : List (List Char → Option (List Char)) :=
  [findPatPid, findPatBracket, findPatColonSp, findPatDash none, findPatDotted,
   findPatColonEnd, findPatStart]

/-- `FileProcessor._extract_service`. -/
def extractService : Option String → Option String
  | none => none
  | some s0 =>
    if s0 = "" then none
    else
      let service := pyStripL s0.data
      if !(['[', ']', ':', '-', ' '].any (fun c => service.contains c)) then
        if isExcludedService service then none else some (String.mk service)
      else
        match tryServicePatterns servicePatterns service with
        | some ex => some (String.mk ex)
        | none =>
          let cleaned := service.filter (fun c => isWordC c || c = '.' || c = '-')
          if cleaned ≠ [] && !(isExcludedService cleaned) then some (String.mk cleaned)
          else none

/-! ## Claim C3: the service-extraction stoplist -/

/-- C3, counterexample to the claim as stated: on `"[ERROR] something failed"`
every pattern capture (`ERROR` from `\[([^\]]+)\]`) is stoplisted, but the
final fallback `re.sub(r'[^\w.-]', '', service)` returns the concatenation
`"ERRORsomethingfailed"` — a non-absent substitute — rather than `None`. -/
theorem C3_counterexample :
    extractService (some "[ERROR] something failed") = some "ERRORsomethingfailed" := by
  decide

/-- C3 (corrected). A candidate that is already clean (contains none of
`[ ] : - space`) and case-insensitively matches the stoplist yields an absent
service; but when every pattern capture is stoplisted the extractor does not
return absent in general: it falls back to the input stripped of characters
other than `\w . -`, returning that whenever it is non-empty and not itself
stoplisted, as `"[ERROR] something failed" ↦ "ERRORsomethingfailed"` shows. -/
theorem C3_amended :
    (∀ s : String,
      (['[', ']', ':', '-', ' '].any (fun c => (pyStripL s.data).contains c)) = false →
      isExcludedService (pyStripL s.data) = true →
      extractService (some s) = none) ∧
    extractService (some "[ERROR] something failed") = some "ERRORsomethingfailed" := by
  constructor
  · intro s hclean hexc
    by_cases hs : s = ""
    · rw [hs]; rfl
    · simp only [extractService, if_neg hs, hclean, hexc]
      rfl
  · decide

/-- C3, witness: the stoplist clause of `C3_amended` applied at `"error"`. -/
theorem C3_amended_witness : extractService (some "error") = none :=
  C3_amended.1 "error" (by decide) (by decide)

/-! ## `re.sub` and the normalizer regexes

`re.sub` repeatedly finds the leftmost match from the current position,
substitutes, and resumes after the matched text (the `\b` context being the
last matched character of the original string). Each pattern used by the two
normalizers is embedded as a deterministic scanner: all its quantifiers are
greedy runs over character classes that must be followed by a character
outside the class, so backtracking never produces a different match. -/

def dqChar : Char := Char.ofNat 34

def sqChar : Char := Char.ofNat 39

def bsChar : Char := Char.ofNat 92

/-- `\b` before a word character, given the previous character. -/
def boundaryPrev : Option Char → Bool
  | none => true
  | some p => !(isWordC p)

/-- `\b` after a word character, given the following text. -/
def boundaryNext : List Char → Bool
  | [] => true
  | c :: _ => !(isWordC c)

/-- Consume exactly `n` characters satisfying `p`. -/
def pExactN (p : Char → Bool) : Nat → List Char → Option (List Char)
  | 0, cs => some cs
  | _ + 1, [] => none
  | n + 1, c :: cs => if p c then pExactN p n cs else none

def pChar (x : Char) : List Char → Option (List Char)
  | [] => none
  | c :: cs => if c = x then some cs else none

/-- The optional `(\.\d+)?` of the timestamp regex. -/
def pOptFrac (cs : List Char) : List Char :=
  match cs with
  | '.' :: rest =>
    let ds := rest.takeWhile isDigitC
    if ds = [] then cs else rest.drop ds.length
  | _ => cs

/-- The optional `(Z|[+-]\d{2}:?\d{2})?` of the timestamp regex. -/
def pOptTZ (cs : List Char) : List Char :=
  match cs with
  | 'Z' :: rest => rest
  | c :: d1 :: d2 :: rest =>
    if (c = '+' || c = '-') && isDigitC d1 && isDigitC d2 then
      match rest with
      | ':' :: e1 :: e2 :: r2 => if isDigitC e1 && isDigitC e2 then r2 else cs
      | e1 :: e2 :: r2 => if isDigitC e1 && isDigitC e2 then r2 else cs
      | _ => cs
    else cs
  | _ => cs

/-- `\d{4}-\d{2}-\d{2}[T\s]\d{2}:\d{2}:\d{2}(\.\d+)?(Z|[+-]\d{2}:?\d{2})?`. -/
def parseTSPat (cs : List Char) : Option (List Char) :=
  (pExactN isDigitC 4 cs).bind fun r1 =>
  (pChar '-' r1).bind fun r2 =>
  (pExactN isDigitC 2 r2).bind fun r3 =>
  (pChar '-' r3).bind fun r4 =>
  (pExactN isDigitC 2 r4).bind fun r5 =>
  (match r5 with
   | c :: rest => if c = 'T' || isPyWs c then some rest else none
   | [] => none).bind fun r6 =>
  (pExactN isDigitC 2 r6).bind fun r7 =>
  (pChar ':' r7).bind fun r8 =>
  (pExactN isDigitC 2 r8).bind fun r9 =>
  (pChar ':' r9).bind fun r10 =>
  (pExactN isDigitC 2 r10).bind fun r11 =>
  some (pOptTZ (pOptFrac r11))

/-- `\b[0-9a-f]{8}-[0-9a-f]{4}-[0-9a-f]{4}-[0-9a-f]{4}-[0-9a-f]{12}\b`. -/
def parseUUIDPat (prev : Option Char) (cs : List Char) : Option (List Char) :=
  if !(boundaryPrev prev) then none
  else
    (pExactN isHexL 8 cs).bind fun r1 =>
    (pChar '-' r1).bind fun r2 =>
    (pExactN isHexL 4 r2).bind fun r3 =>
    (pChar '-' r3).bind fun r4 =>
    (pExactN isHexL 4 r4).bind fun r5 =>
    (pChar '-' r5).bind fun r6 =>
    (pExactN isHexL 4 r6).bind fun r7 =>
    (pChar '-' r7).bind fun r8 =>
    (pExactN isHexL 12 r8).bind fun r9 =>
    if boundaryNext r9 then some r9 else none

/-- `\b\d{6,}\b`. -/
def parseD6Pat (prev : Option Char) (cs : List Char) : Option (List Char) :=
  if !(boundaryPrev prev) then none
  else
    let run := cs.takeWhile isDigitC
    let rest := cs.drop run.length
    if 6 ≤ run.length && boundaryNext rest then some rest else none

/-- One `\d{1,3}` group followed by a required `'.'`. -/
def pIpGroupDot (cs : List Char) : Option (List Char) :=
  let run := cs.takeWhile isDigitC
  if run.length = 0 || 3 < run.length then none
  else pChar '.' (cs.drop run.length)

/-- `\b\d{1,3}\.\d{1,3}\.\d{1,3}\.\d{1,3}\b`. -/
def parseIPPat (prev : Option Char) (cs : List Char) : Option (List Char) :=
  if !(boundaryPrev prev) then none
  else
    (pIpGroupDot cs).bind fun r1 =>
    (pIpGroupDot r1).bind fun r2 =>
    (pIpGroupDot r2).bind fun r3 =>
    let run := r3.takeWhile isDigitC
    let rest := r3.drop run.length
    if run.length = 0 || 3 < run.length then none
    else if boundaryNext rest then some rest else none

/-- The optional `s` of `https?`. -/
def pOptS : List Char → List Char
  | 's' :: rest => rest
  | cs => cs

/-- `https?://[^\s]+`. -/
def parseURLPat (cs : List Char) : Option (List Char) :=
  (pChar 'h' cs).bind fun r1 =>
  (pChar 't' r1).bind fun r2 =>
  (pChar 't' r2).bind fun r3 =>
  (pChar 'p' r3).bind fun r4 =>
  (pChar ':' (pOptS r4)).bind fun r6 =>
  (pChar '/' r6).bind fun r7 =>
  (pChar '/' r7).bind fun r8 =>
  let run := r8.takeWhile (fun c => !(isPyWs c))
  if run = [] then none else some (r8.drop run.length)

def isSlashC (c : Char) : Bool := c = '/' || c = bsChar

/-- `[/\\][^\s]*[/\\][^\s]*` (pattern detector): needs a second slash in the
same whitespace-free token; greedily consumes to the token end. -/
def parsePath2Pat (cs : List Char) : Option (List Char) :=
  match cs with
  | c :: rest =>
    if isSlashC c then
      let token := rest.takeWhile (fun x => !(isPyWs x))
      if token.any isSlashC then some (rest.drop token.length) else none
    else none
  | [] => none

/-- `[/\\][^\s]+` (log analyzer): a slash then the rest of the token. -/
def parsePath1Pat (cs : List Char) : Option (List Char) :=
  match cs with
  | c :: rest =>
    if isSlashC c then
      let token := rest.takeWhile (fun x => !(isPyWs x))
      if token = [] then none else some (rest.drop token.length)
    else none
  | [] => none

/-- `"[^"]*"` (and the single-quoted variant). -/
def parseQuotePat (q : Char) (cs : List Char) : Option (List Char) :=
  match cs with
  | c :: rest =>
    if c = q then
      let content := rest.takeWhile (fun x => !(x = q))
      match rest.drop content.length with
      | c2 :: r2 => if c2 = q then some r2 else none
      | [] => none
    else none
  | [] => none

/-- `\b\d+\b`. -/
def parseNumPat (prev : Option Char) (cs : List Char) : Option (List Char) :=
  if !(boundaryPrev prev) then none
  else
    let run := cs.takeWhile isDigitC
    let rest := cs.drop run.length
    if run ≠ [] && boundaryNext rest then some rest else none

/-- `\s+`. -/
def parseWsPat (cs : List Char) : Option (List Char) :=
  let run := cs.takeWhile isPyWs
  if run = [] then none else some (cs.drop run.length)

/-- Wrap a rest-returning scanner into a match-length function. -/
def lenOf (f : Option Char → List Char → Option (List Char)) :
    Option Char → List Char → Option Nat :=
  fun prev cs => (f prev cs).map (fun rest => cs.length - rest.length)

def tryTS : Option Char → List Char → Option Nat := lenOf (fun _ => parseTSPat)

def tryUUID : Option Char → List Char → Option Nat := lenOf parseUUIDPat

def tryD6 : Option Char → List Char → Option Nat := lenOf parseD6Pat

def tryIP : Option Char → List Char → Option Nat := lenOf parseIPPat

def tryURL : Option Char → List Char → Option Nat := lenOf (fun _ => parseURLPat)

def tryPATH2 : Option Char → List Char → Option Nat := lenOf (fun _ => parsePath2Pat)

def tryPATH1 : Option Char → List Char → Option Nat := lenOf (fun _ => parsePath1Pat)

def tryDQ : Option Char → List Char → Option Nat := lenOf (fun _ => parseQuotePat dqChar)

def trySQ : Option Char → List Char → Option Nat := lenOf (fun _ => parseQuotePat sqChar)

def tryNUM : Option Char → List Char → Option Nat := lenOf parseNumPat

def tryWS : Option Char → List Char → Option Nat := lenOf (fun _ => parseWsPat)

/-- The `re.sub` loop: at each position try the pattern; on a (non-empty)
match emit the replacement and resume after the matched text, tracking the
previous original character for `\b`. Structural recursion on a fuel that
bounds the input length (every step consumes at least one character). -/
def substAux (tryLen : Option Char → List Char → Option Nat) (repl : List Char) :
    Nat → Option Char → List Char → List Char
  | _, _, [] => []
  | 0, _, cs => cs
  | fuel + 1, prev, c :: cs =>
    match tryLen prev (c :: cs) with
    | some (n + 1) =>
      repl ++ substAux tryLen repl fuel (some (((c :: cs).take (n + 1)).getLastD c)) (cs.drop n)
    | _ => c :: substAux tryLen repl fuel (some c) cs

def subst (tryLen : Option Char → List Char → Option Nat) (repl : List Char)
    (cs : List Char) : List Char :=
  substAux tryLen repl cs.length none cs

/-- `LogAnalyzer._normalize_error_message`: the six substitutions, in source
order. -/
def normalizeErrorMessageL (cs : List Char) : List Char :=
  let s1 := subst tryTS "TIMESTAMP".data cs
  let s2 := subst tryUUID "UUID".data s1
  let s3 := subst tryD6 "ID".data s2
  let s4 := subst tryIP "IP_ADDRESS".data s3
  let s5 := subst tryPATH1 "FILE_PATH".data s4
  subst tryNUM "NUMBER".data s5

def normalizeErrorMessage (s : String) : String := String.mk (normalizeErrorMessageL s.data)

/-- `PatternDetector._normalize_message`: the ten substitutions then `strip`,
in source order. -/
def normalizeMessageL (cs : List Char) : List Char :=
  let s1 := subst tryTS "<TIMESTAMP>".data cs
  let s2 := subst tryUUID "<UUID>".data s1
  let s3 := subst tryD6 "<ID>".data s2
  let s4 := subst tryIP "<IP>".data s3
  let s5 := subst tryURL "<URL>".data s4
  let s6 := subst tryPATH2 "<PATH>".data s5
  let s7 := subst tryDQ (dqChar :: ("<STRING>".data ++ [dqChar])) s6
  let s8 := subst trySQ (sqChar :: ("<STRING>".data ++ [sqChar])) s7
  let s9 := subst tryNUM "<NUM>".data s8
  pyStripL (subst tryWS [' '] s9)

def normalizeMessage (s : String) : String := String.mk (normalizeMessageL s.data)

/-! ## Claim C8: idempotence of `PatternDetector._normalize_message` -/

/-- C8, counterexample: the double-quote substitution can merge two
whitespace-separated tokens into one, creating a token with two slashes that
the path regex only sees on the second application:
`/x"a b"/y ↦ /x"<STRING>"/y ↦ <PATH>`. -/
theorem C8_counterexample :
    normalizeMessage (normalizeMessage "/x\"a b\"/y") ≠ normalizeMessage "/x\"a b\"/y" := by
  decide

/-- Letters and spaces: a character class on which all ten substitutions are
inert except whitespace collapsing. -/
def isAlphaSp (c : Char) : Bool := c.isAlpha || c = ' '

def allAS (cs : List Char) : Prop := ∀ c ∈ cs, isAlphaSp c = true

theorem allAS_tail {c : Char} {cs : List Char} (h : allAS (c :: cs)) : allAS cs :=
  fun x hx => h x (List.mem_cons_of_mem c hx)

theorem allAS_head {c : Char} {cs : List Char} (h : allAS (c :: cs)) : isAlphaSp c = true :=
  h c (List.mem_cons_self c cs)

theorem as_ne_of (c x : Char) (h : isAlphaSp c = true) (hx : isAlphaSp x = false) : ¬(c = x) :=
  fun he => by rw [he, hx] at h; exact absurd h (by simp)

theorem as_not_digit (c : Char) (h : isAlphaSp c = true) : isDigitC c = false := by
  cases hx : isDigitC c
  · rfl
  · exfalso
    simp only [isAlphaSp, Bool.or_eq_true, decide_eq_true_eq] at h
    rcases h with ha | hsp
    · simp only [Char.isAlpha, Char.isUpper, Char.isLower, Bool.or_eq_true,
        Bool.and_eq_true, decide_eq_true_eq] at ha
      simp only [isDigitC, Char.isDigit, Bool.and_eq_true, decide_eq_true_eq] at hx
      have d1 : (48 : UInt32).toNat ≤ c.val.toNat := hx.1
      have d2 : c.val.toNat ≤ (57 : UInt32).toNat := hx.2
      have e1 : (48 : UInt32).toNat = 48 := by decide
      have e2 : (57 : UInt32).toNat = 57 := by decide
      rcases ha with ⟨h1, h2⟩ | ⟨h1, h2⟩
      · have f1 : (65 : UInt32).toNat ≤ c.val.toNat := h1
        have g1 : (65 : UInt32).toNat = 65 := by decide
        omega
      · have f1 : (97 : UInt32).toNat ≤ c.val.toNat := h1
        have g1 : (97 : UInt32).toNat = 97 := by decide
        omega
    · subst hsp; exact absurd hx (by decide)

theorem as_not_slash (c : Char) (h : isAlphaSp c = true) : isSlashC c = false := by
  cases hx : isSlashC c
  · rfl
  · exfalso
    simp only [isSlashC, Bool.or_eq_true, decide_eq_true_eq] at hx
    rcases hx with h1 | h1 <;> subst h1 <;> exact absurd h (by decide)

theorem as_not_ws_of_alpha (c : Char) (ha : c.isAlpha = true) : isPyWs c = false := by
  cases hx : isPyWs c
  · rfl
  · exfalso
    simp only [isPyWs, Bool.or_eq_true, decide_eq_true_eq] at hx
    rcases hx with ((((h1 | h1) | h1) | h1) | h1) | h1 <;> subst h1 <;> exact absurd ha (by decide)

theorem takeWhile_nil_as (p : Char → Bool) (cs : List Char)
    (h : ∀ c ∈ cs, p c = false) : cs.takeWhile p = [] := by
  cases cs with
  | nil => rfl
  | cons c cs2 =>
    simp only [List.takeWhile_cons, h c (List.mem_cons_self c cs2)]
    rfl

theorem pExactN_rest (p : Char → Bool) : ∀ (n : Nat) (cs r : List Char),
    pExactN p n cs = some r → r = cs.drop n := by
  intro n
  induction n with
  | zero => intro cs r h; simp only [pExactN, Option.some.injEq] at h; rw [← h]; rfl
  | succ n ih =>
    intro cs r h
    match cs with
    | [] => simp [pExactN] at h
    | c :: cs2 =>
      simp only [pExactN] at h
      by_cases hp : p c
      · rw [if_pos hp] at h
        rw [List.drop_succ_cons]
        exact ih cs2 r h
      · rw [if_neg hp] at h; simp at h

theorem allAS_drop (cs : List Char) (n : Nat) (h : allAS cs) : allAS (cs.drop n) :=
  fun c hc => h c (List.drop_subset n cs hc)

theorem pChar_as_none (x : Char) (hx : isAlphaSp x = false) (cs : List Char) (h : allAS cs) :
    pChar x cs = none := by
  cases cs with
  | nil => rfl
  | cons c cs2 =>
    simp only [pChar]
    rw [if_neg (as_ne_of c x (allAS_head h) hx)]

theorem parseTSPat_as (cs : List Char) (h : allAS cs) : parseTSPat cs = none := by
  cases cs with
  | nil => rfl
  | cons c cs2 =>
    simp only [parseTSPat, pExactN, as_not_digit c (allAS_head h), Bool.false_eq_true, if_false]
    rfl

theorem parseD6Pat_as (prev : Option Char) (cs : List Char) (h : allAS cs) :
    parseD6Pat prev cs = none := by
  simp only [parseD6Pat]
  cases hb : !(boundaryPrev prev)
  · rw [if_neg Bool.false_ne_true]
    rw [takeWhile_nil_as isDigitC cs (fun c hc => as_not_digit c (h c hc))]
    rfl
  · rw [if_pos rfl]

theorem parseNumPat_as (prev : Option Char) (cs : List Char) (h : allAS cs) :
    parseNumPat prev cs = none := by
  simp only [parseNumPat]
  cases hb : !(boundaryPrev prev)
  · rw [if_neg Bool.false_ne_true]
    rw [takeWhile_nil_as isDigitC cs (fun c hc => as_not_digit c (h c hc))]
    rfl
  · rw [if_pos rfl]

theorem parseIPPat_as (prev : Option Char) (cs : List Char) (h : allAS cs) :
    parseIPPat prev cs = none := by
  simp only [parseIPPat]
  cases hb : !(boundaryPrev prev)
  · rw [if_neg Bool.false_ne_true]
    simp only [pIpGroupDot,
      takeWhile_nil_as isDigitC cs (fun c hc => as_not_digit c (h c hc))]
    rfl
  · rw [if_pos rfl]

theorem parseUUIDPat_as (prev : Option Char) (cs : List Char) (h : allAS cs) :
    parseUUIDPat prev cs = none := by
  simp only [parseUUIDPat]
  cases hb : !(boundaryPrev prev)
  · rw [if_neg Bool.false_ne_true]
    cases h8 : pExactN isHexL 8 cs with
    | none => simp [h8]
    | some r =>
      have hr : allAS r := by rw [pExactN_rest isHexL 8 cs r h8]; exact allAS_drop cs 8 h
      simp [h8, pChar_as_none '-' (by decide) r hr]
  · rw [if_pos rfl]

theorem pChar_rest (x : Char) (cs r : List Char) (h : pChar x cs = some r) : cs = x :: r := by
  cases cs with
  | nil => simp [pChar] at h
  | cons c cs2 =>
    simp only [pChar] at h
    by_cases hc : c = x
    · rw [if_pos hc] at h
      simp only [Option.some.injEq] at h
      rw [hc, h]
    · rw [if_neg hc] at h; simp at h

theorem allAS_of_pChar (x : Char) (cs r : List Char) (h : pChar x cs = some r)
    (has : allAS cs) : allAS r := by
  rw [pChar_rest x cs r h] at has
  exact (allAS_tail has)

theorem allAS_pOptS (cs : List Char) (h : allAS cs) : allAS (pOptS cs) := by
  unfold pOptS
  split
  · rename_i rest
    exact (allAS_tail h)
  · exact h

theorem parseURLPat_as (cs : List Char) (h : allAS cs) : parseURLPat cs = none := by
  simp only [parseURLPat]
  cases h1 : pChar 'h' cs with
  | none => simp [h1]
  | some r1 =>
    have hr1 := allAS_of_pChar 'h' cs r1 h1 h
    cases h2 : pChar 't' r1 with
    | none => simp [h1, h2]
    | some r2 =>
      have hr2 := allAS_of_pChar 't' r1 r2 h2 hr1
      cases h3 : pChar 't' r2 with
      | none => simp [h1, h2, h3]
      | some r3 =>
        have hr3 := allAS_of_pChar 't' r2 r3 h3 hr2
        cases h4 : pChar 'p' r3 with
        | none => simp [h1, h2, h3, h4]
        | some r4 =>
          have hr4 := allAS_of_pChar 'p' r3 r4 h4 hr3
          have hr5 : allAS (pOptS r4) := allAS_pOptS r4 hr4
          simp [h1, h2, h3, h4, pChar_as_none ':' (by decide) (pOptS r4) hr5]

theorem parsePath2Pat_as (cs : List Char) (h : allAS cs) : parsePath2Pat cs = none := by
  cases cs with
  | nil => rfl
  | cons c cs2 =>
    simp only [parsePath2Pat, as_not_slash c (allAS_head h), Bool.false_eq_true, if_false]

theorem parsePath1Pat_as (cs : List Char) (h : allAS cs) : parsePath1Pat cs = none := by
  cases cs with
  | nil => rfl
  | cons c cs2 =>
    simp only [parsePath1Pat, as_not_slash c (allAS_head h), Bool.false_eq_true, if_false]

theorem parseQuotePat_as (q : Char) (hq : isAlphaSp q = false) (cs : List Char)
    (h : allAS cs) : parseQuotePat q cs = none := by
  cases cs with
  | nil => rfl
  | cons c cs2 =>
    simp only [parseQuotePat]
    rw [if_neg (as_ne_of c q (allAS_head h) hq)]

/-- `re.sub` is the identity when the pattern matches at no position. -/
theorem substAux_id (P : Char → Bool) (tryLen : Option Char → List Char → Option Nat)
    (repl : List Char)
    (hno : ∀ prev rest, (∀ c ∈ rest, P c = true) → tryLen prev rest = none) :
    ∀ (fuel : Nat) (cs : List Char) (prev : Option Char), (∀ c ∈ cs, P c = true) →
      substAux tryLen repl fuel prev cs = cs := by
  intro fuel
  induction fuel with
  | zero => intro cs prev h; cases cs <;> rfl
  | succ fuel ih =>
    intro cs prev h
    cases cs with
    | nil => rfl
    | cons c cs2 =>
      rw [substAux, hno prev (c :: cs2) h]
      rw [ih cs2 (some c) (fun x hx => h x (List.mem_cons_of_mem c hx))]

theorem subst_id (P : Char → Bool) (tryLen : Option Char → List Char → Option Nat)
    (repl : List Char)
    (hno : ∀ prev rest, (∀ c ∈ rest, P c = true) → tryLen prev rest = none)
    (cs : List Char) (h : ∀ c ∈ cs, P c = true) : subst tryLen repl cs = cs :=
  substAux_id P tryLen repl hno cs.length cs none h


theorem drop_takeWhile_len (p : Char → Bool) : ∀ l : List Char,
    l.drop (l.takeWhile p).length = l.dropWhile p := by
  intro l
  induction l with
  | nil => rfl
  | cons c l ih =>
    by_cases hp : p c <;> simp [List.takeWhile_cons, List.dropWhile_cons, hp, ih]

/-- Head (if any) is not whitespace. -/
def hnwB : List Char → Bool
  | [] => true
  | c :: _ => !(isPyWs c)

theorem hnwB_dropWhile (l : List Char) : hnwB (l.dropWhile isPyWs) = true := by
  induction l with
  | nil => rfl
  | cons c l ih =>
    rw [List.dropWhile_cons]
    cases hws : isPyWs c
    · simp only [Bool.false_eq_true, if_false, hnwB, hws, Bool.not_false]
    · simpa using ih

theorem dropWhile_eq_self_of_hnw (l : List Char) (h : hnwB l = true) :
    l.dropWhile isPyWs = l := by
  cases l with
  | nil => rfl
  | cons c l =>
    simp only [hnwB, Bool.not_eq_true'] at h
    rw [List.dropWhile_cons, h]
    rfl

/-- Each whitespace character is a single `' '` followed by non-whitespace. -/
def wsOkB : List Char → Bool
  | [] => true
  | c :: cs => (if isPyWs c then decide (c = ' ') && hnwB cs else true) && wsOkB cs

theorem wsOkB_tail {c : Char} {cs : List Char} (h : wsOkB (c :: cs) = true) :
    wsOkB cs = true := by
  simp only [wsOkB, Bool.and_eq_true] at h
  exact h.2

theorem tryWS_none_of_nonws (prev : Option Char) (c : Char) (cs : List Char)
    (h : isPyWs c = false) : tryWS prev (c :: cs) = none := by
  simp only [tryWS, lenOf, parseWsPat, List.takeWhile_cons, h, Bool.false_eq_true, if_false]
  rfl

theorem tryWS_run (prev : Option Char) (c : Char) (cs : List Char)
    (h : isPyWs c = true) :
    tryWS prev (c :: cs) = some ((cs.takeWhile isPyWs).length + 1) := by
  simp only [tryWS, lenOf, parseWsPat, List.takeWhile_cons, h, if_pos]
  have hle : (cs.takeWhile isPyWs).length ≤ cs.length := (List.takeWhile_sublist _).length_le
  rw [if_neg (by simp)]
  simp only [Option.map_some', Option.some.injEq, List.length_drop, List.length_cons]
  omega

theorem collapse_spec : ∀ (fuel : Nat) (cs : List Char) (prev : Option Char),
    cs.length ≤ fuel → allAS cs →
    allAS (substAux tryWS [' '] fuel prev cs)
    ∧ wsOkB (substAux tryWS [' '] fuel prev cs) = true
    ∧ (hnwB cs = true → hnwB (substAux tryWS [' '] fuel prev cs) = true) := by
  intro fuel
  induction fuel with
  | zero =>
    intro cs prev hf h
    have hnil : cs = [] := List.eq_nil_of_length_eq_zero (Nat.le_zero.mp hf)
    subst hnil
    exact ⟨h, rfl, fun _ => rfl⟩
  | succ fuel ih =>
    intro cs prev hf h
    cases cs with
    | nil => exact ⟨h, rfl, fun _ => rfl⟩
    | cons c cs2 =>
      by_cases hws : isPyWs c
      · have hrun := tryWS_run prev c cs2 hws
        rw [substAux, hrun]
        have hdrop : cs2.drop (cs2.takeWhile isPyWs).length = (c :: cs2).dropWhile isPyWs := by
          rw [drop_takeWhile_len isPyWs cs2, List.dropWhile_cons, if_pos hws]
        have hsub : allAS (cs2.drop (cs2.takeWhile isPyWs).length) :=
          fun x hx => (allAS_tail h) x (List.drop_subset _ cs2 hx)
        have hflen : (cs2.drop (cs2.takeWhile isPyWs).length).length ≤ fuel := by
          simp only [List.length_drop]
          have := List.length_cons c cs2 ▸ hf
          omega
        obtain ⟨ih1, ih2, ih3⟩ := ih (cs2.drop (cs2.takeWhile isPyWs).length) _ hflen hsub
        have hhnw : hnwB (substAux tryWS [' '] fuel
            (some (((c :: cs2).take ((cs2.takeWhile isPyWs).length + 1)).getLastD c))
            (cs2.drop (cs2.takeWhile isPyWs).length)) = true := by
          apply ih3
          rw [hdrop]
          exact hnwB_dropWhile (c :: cs2)
        refine ⟨?_, ?_, ?_⟩
        · intro x hx
          rcases List.mem_append.mp hx with hx1 | hx2
          · simp only [List.mem_singleton] at hx1
            rw [hx1]; decide
          · exact ih1 x hx2
        · simp only [List.cons_append, List.nil_append, wsOkB, Bool.and_eq_true]
          refine ⟨?_, ih2⟩
          rw [if_pos (by decide)]
          simp only [Bool.and_eq_true, decide_eq_true_eq]
          exact ⟨trivial, hhnw⟩
        · intro hcml
          simp only [hnwB, hws] at hcml
          exact absurd hcml (by decide)
      · have hnone := tryWS_none_of_nonws prev c cs2 (by simp [hws])
        rw [substAux, hnone]
        have hflen : cs2.length ≤ fuel := by
          have := List.length_cons c cs2 ▸ hf
          omega
        obtain ⟨ih1, ih2, ih3⟩ := ih cs2 (some c) hflen (allAS_tail h)
        refine ⟨?_, ?_, ?_⟩
        · intro x hx
          rcases List.mem_cons.mp hx with hx1 | hx2
          · rw [hx1]; exact (allAS_head h)
          · exact ih1 x hx2
        · simp only [wsOkB, hws, Bool.false_eq_true, if_false, Bool.true_and]
          exact ih2
        · intro _
          simp only [hnwB, hws]
          rfl

theorem wsOkB_append_left : ∀ l1 l2 : List Char, wsOkB (l1 ++ l2) = true → wsOkB l1 = true := by
  intro l1
  induction l1 with
  | nil => intro l2 _; rfl
  | cons c l1 ih =>
    intro l2 h
    simp only [List.cons_append, wsOkB, Bool.and_eq_true] at h ⊢
    rcases h with ⟨h1, h2⟩
    refine ⟨?_, ih l2 h2⟩
    by_cases hws : isPyWs c = true
    · rw [if_pos hws] at h1 ⊢
      simp only [Bool.and_eq_true, decide_eq_true_eq] at h1 ⊢
      refine ⟨h1.1, ?_⟩
      cases l1 with
      | nil => rfl
      | cons d l1t => exact h1.2
    · rw [if_neg hws]

theorem wsOkB_dropWhile (l : List Char) (h : wsOkB l = true) :
    wsOkB (l.dropWhile isPyWs) = true := by
  induction l with
  | nil => rfl
  | cons c l ih =>
    rw [List.dropWhile_cons]
    by_cases hws : isPyWs c = true
    · rw [if_pos hws]
      exact ih (wsOkB_tail h)
    · rw [if_neg hws]
      exact h

theorem substWs_id : ∀ (fuel : Nat) (cs : List Char) (prev : Option Char),
    cs.length ≤ fuel → wsOkB cs = true →
    substAux tryWS [' '] fuel prev cs = cs := by
  intro fuel
  induction fuel with
  | zero =>
    intro cs prev hf _
    have hnil : cs = [] := List.eq_nil_of_length_eq_zero (Nat.le_zero.mp hf)
    subst hnil; rfl
  | succ fuel ih =>
    intro cs prev hf h
    cases cs with
    | nil => rfl
    | cons c cs2 =>
      have hflen : cs2.length ≤ fuel := by
        have := List.length_cons c cs2 ▸ hf
        omega
      by_cases hws : isPyWs c = true
      · have hcl : wsOkB (c :: cs2) = true := h
        simp only [wsOkB, Bool.and_eq_true] at hcl
        rcases hcl with ⟨h1, h2⟩
        rw [if_pos hws] at h1
        simp only [Bool.and_eq_true, decide_eq_true_eq] at h1
        have hrun := tryWS_run prev c cs2 hws
        have htw : cs2.takeWhile isPyWs = [] := by
          cases cs2 with
          | nil => rfl
          | cons d cs3 =>
            simp only [hnwB, Bool.not_eq_true'] at h1
            rw [List.takeWhile_cons, h1.2]
            rfl
        rw [substAux, hrun, htw]
        simp only [List.length_nil, List.drop_zero]
        rw [ih cs2 _ hflen h2, h1.1]
        rfl
      · rw [substAux, tryWS_none_of_nonws prev c cs2 (by simpa using hws)]
        rw [ih cs2 (some c) hflen (wsOkB_tail h)]

theorem hnwB_iff (l : List Char) : hnwB l = true ↔ ∀ c, l.head? = some c → isPyWs c = false := by
  cases l with
  | nil => simp [hnwB]
  | cons c cs => simp [hnwB, Bool.not_eq_true']

theorem allAS_pyStripL (cs : List Char) (h : allAS cs) : allAS (pyStripL cs) := by
  intro x hx
  apply h
  unfold pyStripL at hx
  have h1 := (List.dropWhile_sublist isPyWs).subset hx
  rw [List.mem_reverse] at h1
  have h2 := (List.dropWhile_sublist isPyWs).subset h1
  rw [List.mem_reverse] at h2
  exact h2

theorem stripCollapse_fix (w : List Char) (hok : wsOkB w = true) :
    pyStripL (subst tryWS [' '] (pyStripL w)) = pyStripL w := by
  have hdecomp : (w.reverse.dropWhile isPyWs).reverse ++ (w.reverse.takeWhile isPyWs).reverse = w := by
    rw [← List.reverse_append, List.takeWhile_append_dropWhile, List.reverse_reverse]
  have hu : wsOkB ((w.reverse.dropWhile isPyWs).reverse) = true := by
    apply wsOkB_append_left _ ((w.reverse.takeWhile isPyWs).reverse)
    rw [hdecomp]
    exact hok
  have ht : wsOkB (pyStripL w) = true := wsOkB_dropWhile _ hu
  have htn : hnwB (pyStripL w) = true := hnwB_dropWhile _
  have htrev : hnwB (pyStripL w).reverse = true := by
    cases hte : pyStripL w with
    | nil => rfl
    | cons x xs =>
      rw [← hte]
      rw [hnwB_iff]
      intro c hc
      rw [← List.getLast?_eq_head?_reverse] at hc
      have happ : ((w.reverse.dropWhile isPyWs).reverse).takeWhile isPyWs ++ pyStripL w
          = (w.reverse.dropWhile isPyWs).reverse := List.takeWhile_append_dropWhile isPyWs _
      have hne : pyStripL w ≠ [] := by rw [hte]; exact List.cons_ne_nil x xs
      have hlast : ((w.reverse.dropWhile isPyWs).reverse).getLast? = (pyStripL w).getLast? := by
        rw [← happ]
        exact List.getLast?_append_of_ne_nil _ hne
      rw [← hlast] at hc
      rw [List.getLast?_eq_head?_reverse, List.reverse_reverse] at hc
      exact (hnwB_iff (w.reverse.dropWhile isPyWs)).mp (hnwB_dropWhile w.reverse) c hc
  have hfix : subst tryWS [' '] (pyStripL w) = pyStripL w :=
    substWs_id (pyStripL w).length (pyStripL w) none (le_refl _) ht
  rw [hfix]
  conv_lhs => rw [pyStripL]
  rw [dropWhile_eq_self_of_hnw _ htrev, List.reverse_reverse, dropWhile_eq_self_of_hnw _ htn]

set_option maxHeartbeats 2000000 in
theorem normMsgL_as (s : List Char) (h : allAS s) :
    normalizeMessageL s = pyStripL (subst tryWS [' '] s) := by
  have e1 := subst_id isAlphaSp tryTS "<TIMESTAMP>".data
    (fun prev rest hr => by simp [tryTS, lenOf, parseTSPat_as rest hr]) s h
  have e2 := subst_id isAlphaSp tryUUID "<UUID>".data
    (fun prev rest hr => by simp [tryUUID, lenOf, parseUUIDPat_as prev rest hr]) s h
  have e3 := subst_id isAlphaSp tryD6 "<ID>".data
    (fun prev rest hr => by simp [tryD6, lenOf, parseD6Pat_as prev rest hr]) s h
  have e4 := subst_id isAlphaSp tryIP "<IP>".data
    (fun prev rest hr => by simp [tryIP, lenOf, parseIPPat_as prev rest hr]) s h
  have e5 := subst_id isAlphaSp tryURL "<URL>".data
    (fun prev rest hr => by simp [tryURL, lenOf, parseURLPat_as rest hr]) s h
  have e6 := subst_id isAlphaSp tryPATH2 "<PATH>".data
    (fun prev rest hr => by simp [tryPATH2, lenOf, parsePath2Pat_as rest hr]) s h
  have e7 := subst_id isAlphaSp tryDQ (dqChar :: ("<STRING>".data ++ [dqChar]))
    (fun prev rest hr => by simp [tryDQ, lenOf, parseQuotePat_as dqChar (by decide) rest hr]) s h
  have e8 := subst_id isAlphaSp trySQ (sqChar :: ("<STRING>".data ++ [sqChar]))
    (fun prev rest hr => by simp [trySQ, lenOf, parseQuotePat_as sqChar (by decide) rest hr]) s h
  have e9 := subst_id isAlphaSp tryNUM "<NUM>".data
    (fun prev rest hr => by simp [tryNUM, lenOf, parseNumPat_as prev rest hr]) s h
  simp only [normalizeMessageL]
  rw [e1, e2, e3, e4, e5, e6, e7, e8, e9]


theorem strData_mk (l : List Char) : (String.mk l).data = l := rfl

/-- C8, amended: `_normalize_message` is not idempotent in general (see the
counterexample, where the double-quote substitution merges two tokens into a
string that a second pass rewrites further), but it is idempotent on every
message consisting only of ASCII letters and spaces. -/
theorem C8_amended (s : String) (h : ∀ c ∈ s.data, isAlphaSp c = true) :
    normalizeMessage (normalizeMessage s) = normalizeMessage s := by
  have h1 : allAS s.data := h
  have hcol := collapse_spec s.data.length s.data none (le_refl _) h1
  have hw : wsOkB (subst tryWS [' '] s.data) = true := hcol.2.1
  have haw : allAS (subst tryWS [' '] s.data) := hcol.1
  have hat : allAS (pyStripL (subst tryWS [' '] s.data)) := allAS_pyStripL _ haw
  have key : normalizeMessageL (normalizeMessageL s.data) = normalizeMessageL s.data := by
    rw [normMsgL_as s.data h1]
    rw [normMsgL_as _ hat]
    exact stripCollapse_fix (subst tryWS [' '] s.data) hw
  unfold normalizeMessage
  rw [strData_mk]
  exact congrArg String.mk key

theorem C8_amended_witness :
    (∀ c ∈ ("connection refused by host" : String).data, isAlphaSp c = true) ∧
      normalizeMessage (normalizeMessage "connection refused by host") =
        normalizeMessage "connection refused by host" :=
  ⟨by decide, C8_amended "connection refused by host" (by decide)⟩

/-! ## The parsing layer: schemas, `json.loads`, entry construction -/

/-- `LogLevel` from `app.models.schemas`. -/
inductive LogLevel where
  | error | warn | warning | info | debug | trace | fatal | critical
deriving DecidableEq, Repr

/-- `LogFormat` from `app.models.schemas`. -/
inductive LogFormat where
  | json | csv | syslog | plain_text | custom
deriving DecidableEq, Repr

/-- A decoded JSON value (`json.loads`); numbers keep their source lexeme,
which is exact for the integer/string cases the analysed code inspects. -/
inductive Json where
  | null
  | bool (b : Bool)
  | num (lit : List Char)
  | str (s : List Char)
  | arr (xs : List Json)
  | obj (kvs : List (List Char × Json))

/-- JSON insignificant whitespace (`json.decoder`). -/
def isJsonWs (c : Char) : Bool := c = ' ' || c = '\t' || c = '\n' || c = '\r'

def jSkipWs (cs : List Char) : List Char := cs.dropWhile isJsonWs

/-- Hex digit value for `\uXXXX` escapes. -/
def hexVal (c : Char) : Option Nat :=
  if c.isDigit then some (c.toNat - 48)
  else if 'a' ≤ c && c ≤ 'f' then some (c.toNat - 87)
  else if 'A' ≤ c && c ≤ 'F' then some (c.toNat - 55)
  else none

def hex4 (a b c d : Char) : Option Nat :=
  match hexVal a, hexVal b, hexVal c, hexVal d with
  | some x, some y, some z, some w => some (((x * 16 + y) * 16 + z) * 16 + w)
  | _, _, _, _ => none

/-- Scan a JSON string body after the opening quote (`json.decoder`, strict
mode: raw control characters rejected); `\u` surrogate pairs combine, and a
lone surrogate, unrepresentable in `Char`, decodes to `'\0'`. Returns the
decoded content and the rest after the closing quote. The fuel argument only
bounds the recursion; `jParseStr` supplies one unit per input character. -/
def jParseStrF : Nat → List Char → Option (List Char × List Char)
  | 0, _ => none
  | _ + 1, [] => none
  | fuel + 1, c :: cs =>
    if c = dqChar then some ([], cs)
    else if c = bsChar then
      match cs with
      | [] => none
      | e :: cs2 =>
        if e = 'u' then
          match cs2 with
          | x1 :: x2 :: x3 :: x4 :: cs3 =>
            match hex4 x1 x2 x3 x4 with
            | none => none
            | some n =>
              if 0xD800 ≤ n && n < 0xDC00 then
                match cs3 with
                | b1 :: b2 :: y1 :: y2 :: y3 :: y4 :: cs4 =>
                  if b1 = bsChar && b2 = 'u' then
                    match hex4 y1 y2 y3 y4 with
                    | some m =>
                      if 0xDC00 ≤ m && m < 0xE000 then
                        (jParseStrF fuel cs4).map (fun r =>
                          (Char.ofNat (0x10000 + (n - 0xD800) * 1024 + (m - 0xDC00)) :: r.1, r.2))
                      else (jParseStrF fuel cs3).map (fun r => (Char.ofNat n :: r.1, r.2))
                    | none => (jParseStrF fuel cs3).map (fun r => (Char.ofNat n :: r.1, r.2))
                  else (jParseStrF fuel cs3).map (fun r => (Char.ofNat n :: r.1, r.2))
                | _ => (jParseStrF fuel cs3).map (fun r => (Char.ofNat n :: r.1, r.2))
              else (jParseStrF fuel cs3).map (fun r => (Char.ofNat n :: r.1, r.2))
          | _ => none
        else
          let dec : Option Char :=
            if e = dqChar then some dqChar
            else if e = bsChar then some bsChar
            else if e = '/' then some '/'
            else if e = 'b' then some (Char.ofNat 8)
            else if e = 'f' then some (Char.ofNat 12)
            else if e = 'n' then some '\n'
            else if e = 'r' then some '\r'
            else if e = 't' then some '\t'
            else none
          match dec with
          | none => none
          | some ch => (jParseStrF fuel cs2).map (fun r => (ch :: r.1, r.2))
    else if c.toNat < 32 then none
    else (jParseStrF fuel cs).map (fun r => (c :: r.1, r.2))

def jParseStr (cs : List Char) : Option (List Char × List Char) :=
  jParseStrF cs.length cs

/-- Scan a JSON number lexeme, `-?(0|[1-9]\d*)(\.\d+)?([eE][-+]?\d+)?`
(`json.scanner.NUMBER_RE`); returns the lexeme and the rest. -/
def jParseNum (cs : List Char) : Option (List Char × List Char) :=
  let sr : List Char × List Char := match cs with
    | c :: t => if c = '-' then (['-'], t) else ([], cs)
    | [] => ([], cs)
  match sr.2 with
  | [] => none
  | c :: t =>
    if !(isDigitC c) then none
    else
      let ir : List Char × List Char :=
        if c = '0' then (['0'], t)
        else (c :: t.takeWhile isDigitC, t.dropWhile isDigitC)
      let fr : List Char × List Char := match ir.2 with
        | '.' :: u =>
          let ds := u.takeWhile isDigitC
          if ds = [] then ([], ir.2) else ('.' :: ds, u.dropWhile isDigitC)
        | _ => ([], ir.2)
      let er : List Char × List Char := match fr.2 with
        | e :: u =>
          if e = 'e' || e = 'E' then
            let su : List Char × List Char := match u with
              | s :: v => if s = '+' || s = '-' then ([s], v) else ([], u)
              | [] => ([], u)
            let ds := su.2.takeWhile isDigitC
            if ds = [] then ([], fr.2)
            else (e :: (su.1 ++ ds), su.2.dropWhile isDigitC)
          else ([], fr.2)
        | [] => ([], fr.2)
      some (sr.1 ++ ir.1 ++ fr.1 ++ er.1, er.2)

mutual
/-- `json.loads` value scanner, fuel-based (`jsonLoads` supplies ample fuel);
leading whitespace is skipped, as the CPython decoder does at each position
where a value, member or element may start. -/
def jParseVal : Nat → List Char → Option (Json × List Char)
  | 0, _ => none
  | fuel + 1, cs0 =>
    match jSkipWs cs0 with
    | [] => none
    | c :: cs =>
      if c = dqChar then (jParseStrF fuel cs).map (fun r => (Json.str r.1, r.2))
      else if c = '{' then jParseObj fuel (jSkipWs cs)
      else if c = '[' then jParseArr fuel (jSkipWs cs)
      else if c = 't' then
        if ['r', 'u', 'e'].isPrefixOf cs then some (Json.bool true, cs.drop 3) else none
      else if c = 'f' then
        if ['a', 'l', 's', 'e'].isPrefixOf cs then some (Json.bool false, cs.drop 4) else none
      else if c = 'n' then
        if ['u', 'l', 'l'].isPrefixOf cs then some (Json.null, cs.drop 3) else none
      else if c = 'N' then
        if ['a', 'N'].isPrefixOf cs then some (Json.num "NaN".data, cs.drop 2) else none
      else if c = 'I' then
        if "nfinity".data.isPrefixOf cs then some (Json.num "Infinity".data, cs.drop 7)
        else none
      else if c = '-' && "Infinity".data.isPrefixOf cs then
        some (Json.num "-Infinity".data, cs.drop 8)
      else (jParseNum (c :: cs)).map (fun r => (Json.num r.1, r.2))

/-- Object body after `{` (whitespace skipped). -/
def jParseObj : Nat → List Char → Option (Json × List Char)
  | 0, _ => none
  | fuel + 1, cs =>
    match cs with
    | [] => none
    | c :: cs2 =>
      if c = '}' then some (Json.obj [], cs2)
      else if c = dqChar then
        match jParseStr cs2 with
        | none => none
        | some (k, r1) =>
          match jSkipWs r1 with
          | ':' :: r2 =>
            match jParseVal fuel r2 with
            | none => none
            | some (v, r3) => jParseMembers fuel [(k, v)] (jSkipWs r3)
          | _ => none
      else none

/-- After one `"key": value` member: `}` or `, "key": value` again. -/
def jParseMembers : Nat → List (List Char × Json) → List Char → Option (Json × List Char)
  | 0, _, _ => none
  | fuel + 1, acc, cs =>
    match cs with
    | '}' :: r => some (Json.obj acc.reverse, r)
    | ',' :: r =>
      match jSkipWs r with
      | c :: r2 =>
        if c = dqChar then
          match jParseStr r2 with
          | none => none
          | some (k, r3) =>
            match jSkipWs r3 with
            | ':' :: r4 =>
              match jParseVal fuel r4 with
              | none => none
              | some (v, r5) => jParseMembers fuel ((k, v) :: acc) (jSkipWs r5)
            | _ => none
        else none
      | [] => none
    | _ => none

/-- Array body after `[` (whitespace skipped). -/
def jParseArr : Nat → List Char → Option (Json × List Char)
  | 0, _ => none
  | fuel + 1, cs =>
    match cs with
    | ']' :: r => some (Json.arr [], r)
    | _ =>
      match jParseVal fuel cs with
      | none => none
      | some (v, r) => jParseElems fuel [v] (jSkipWs r)

/-- After one array element: `]` or `, value` again. -/
def jParseElems : Nat → List Json → List Char → Option (Json × List Char)
  | 0, _, _ => none
  | fuel + 1, acc, cs =>
    match cs with
    | ']' :: r => some (Json.arr acc.reverse, r)
    | ',' :: r =>
      match jParseVal fuel r with
      | none => none
      | some (v, r2) => jParseElems fuel (v :: acc) (jSkipWs r2)
    | _ => none
end

/-- `json.loads`: decode one value and require only whitespace after it. -/
def jsonLoads (cs : List Char) : Option Json :=
  match jParseVal (2 * cs.length + 2) cs with
  | some (v, rest) => if jSkipWs rest = [] then some v else none
  | none => none

def Json.isObjB : Option Json → Bool
  | some (Json.obj _) => true
  | _ => false

/-- A JSON number lexeme denotes zero iff its mantissa digits are all `0`
(`NaN`/`Infinity` have no digits and are truthy). -/
def jZeroLit (l : List Char) : Bool :=
  let m := (l.takeWhile (fun c => !(c = 'e' || c = 'E'))).filter isDigitC
  !(m.isEmpty) && m.all (fun c => c = '0')

/-- Python truthiness of a decoded JSON value. -/
def jFalsy : Json → Bool
  | Json.null => true
  | Json.bool b => !b
  | Json.num l => jZeroLit l
  | Json.str s => s.isEmpty
  | Json.arr xs => xs.isEmpty
  | Json.obj kvs => kvs.isEmpty

/-- `dict.get` on decoded-object pairs: a later duplicate key wins, as in the
dict `json.loads` builds. -/
def jGet (kvs : List (List Char × Json)) (k : List Char) : Option Json :=
  (kvs.reverse.find? (fun p => p.1 = k)).map (fun p => p.2)

/-- `d.get(k1) or d.get(k2) or …`: the first present truthy value. All-falsy
chains collapse to `none`; the extractors given such a chain treat every falsy
value alike (their own `if not …` guard), so nothing is lost. -/
def jGetTruthy (kvs : List (List Char × Json)) : List (List Char) → Option Json
  | [] => none
  | k :: ks =>
    match jGet kvs k with
    | some v => if jFalsy v then jGetTruthy kvs ks else some v
    | none => jGetTruthy kvs ks

mutual
/-- Python `repr` of a decoded value (used by `str()` on containers). The
float lexeme and string-escape details are approximated by the source text;
no analysed property inspects this rendering. -/
def jsonRepr : Json → List Char
  | Json.null => "None".data
  | Json.bool true => "True".data
  | Json.bool false => "False".data
  | Json.num l => l
  | Json.str s => sqChar :: s ++ [sqChar]
  | Json.arr xs => '[' :: jsonReprList xs ++ [']']
  | Json.obj kvs => Char.ofNat 123 :: jsonReprObj kvs ++ [Char.ofNat 125]

def jsonReprList : List Json → List Char
  | [] => []
  | [x] => jsonRepr x
  | x :: y :: xs => jsonRepr x ++ ", ".data ++ jsonReprList (y :: xs)

def jsonReprObj : List (List Char × Json) → List Char
  | [] => []
  | [(k, v)] => sqChar :: k ++ [sqChar] ++ ": ".data ++ jsonRepr v
  | (k, v) :: p :: kvs =>
    sqChar :: k ++ [sqChar] ++ ": ".data ++ jsonRepr v ++ ", ".data ++ jsonReprObj (p :: kvs)
end

/-- `str()` of a decoded JSON value as the field extractors see it. -/
def jsonToStr : Json → List Char
  | Json.str s => s
  | v => jsonRepr v

/-! ## `_extract_log_level` -/

def pyUpperL (cs : List Char) : List Char := cs.map Char.toUpper

/-- `re.search(r'\bW\b', text)` for a literal word `W`: an occurrence with no
word character adjacent on either side. -/
def wordAt (w cs : List Char) : Bool :=
  w.isPrefixOf cs &&
    (match cs.drop w.length with
     | [] => true
     | c :: _ => !(isWordC c))

def searchWordAux (w : List Char) : Option Char → List Char → Bool
  | _, [] => false
  | prev, c :: cs =>
    ((match prev with | none => true | some p => !(isWordC p)) && wordAt w (c :: cs))
      || searchWordAux w (some c) cs

def searchWord (w cs : List Char) : Bool := searchWordAux w none cs

/-- `\b(?:W1|W2|…)\b`: a match exists iff some alternative occurs with
boundaries on both sides. -/
def searchAnyWord (ws : List (List Char)) (cs : List Char) : Bool :=
  ws.any (fun w => searchWord w cs)

/-- `\[(?:W1|W2|…)\]`: some bracketed alternative occurs literally. -/
def searchAnyBracket (ws : List (List Char)) (cs : List Char) : Bool :=
  ws.any (fun w => containsSubstr ('[' :: w ++ [']']) cs)

/-- One regex of the level tables: a word alternation with `\b` boundaries or
a bracketed alternation. -/
inductive LvlPat where
  | word (ws : List (List Char))
  | brak (ws : List (List Char))

def lvlPatMatch (cs : List Char) : LvlPat → Bool
  | .word ws => searchAnyWord ws cs
  | .brak ws => searchAnyBracket ws cs

/-- The `enhanced_patterns` table of `_extract_log_level`, in source order. -/
def enhancedLevelPatterns : List (LogLevel × List LvlPat) :=
  [(.fatal, [.word ["FATAL".data], .word ["CRITICAL".data], .word ["EMERGENCY".data]]),
   (.error, [.word ["ERROR".data], .word ["ERR".data], .word ["FAILED".data],
             .word ["FAILURE".data]]),
   (.warn, [.word ["WARN".data], .word ["WARNING".data], .word ["ALERT".data]]),
   (.info, [.word ["INFO".data], .word ["INFORMATION".data], .word ["NOTICE".data]]),
   (.debug, [.word ["DEBUG".data], .word ["TRACE".data], .word ["VERBOSE".data]])]

/-- `self.log_level_patterns` (`__init__`), in source order; the lower- and
mixed-case alternations are applied to upper-cased text exactly as the source
does. -/
def initLevelPatterns : List (LogLevel × List LvlPat) :=
  [(.error, [.word ["ERROR".data, "ERR".data, "ERRO".data],
             .word ["error".data, "err".data, "erro".data],
             .word ["Error".data, "Err".data, "Erro".data],
             .brak ["ERROR".data, "ERR".data, "ERRO".data],
             .brak ["error".data, "err".data, "erro".data]]),
   (.warn, [.word ["WARN".data, "WARNING".data, "WARN".data],
            .word ["warn".data, "warning".data],
            .word ["Warn".data, "Warning".data],
            .brak ["WARN".data, "WARNING".data],
            .brak ["warn".data, "warning".data]]),
   (.info, [.word ["INFO".data, "INFORMATION".data],
            .word ["info".data, "information".data],
            .word ["Info".data, "Information".data],
            .brak ["INFO".data, "INFORMATION".data],
            .brak ["info".data, "information".data]]),
   (.debug, [.word ["DEBUG".data, "DBG".data],
             .word ["debug".data, "dbg".data],
             .word ["Debug".data, "Dbg".data],
             .brak ["DEBUG".data, "DBG".data],
             .brak ["debug".data, "dbg".data]]),
   (.trace, [.word ["TRACE".data, "TRC".data],
             .word ["trace".data, "trc".data],
             .word ["Trace".data, "Trc".data],
             .brak ["TRACE".data, "TRC".data],
             .brak ["trace".data, "trc".data]]),
   (.fatal, [.word ["FATAL".data, "CRIT".data, "CRITICAL".data],
             .word ["fatal".data, "crit".data, "critical".data],
             .word ["Fatal".data, "Crit".data, "Critical".data],
             .brak ["FATAL".data, "CRIT".data, "CRITICAL".data],
             .brak ["fatal".data, "crit".data, "critical".data]])]

def firstLevel (cs : List Char) : List (LogLevel × List LvlPat) → Option LogLevel
  | [] => none
  | (lv, pats) :: rest =>
    if pats.any (lvlPatMatch cs) then some lv else firstLevel cs rest

/-- `FileProcessor._extract_log_level`. -/
def extractLogLevel (text : String) : Option LogLevel :=
  if text = "" then none
  else
    let u := pyUpperL text.data
    match firstLevel u enhancedLevelPatterns with
    | some lv => some lv
    | none => firstLevel u initLevelPatterns

/-! ## `LogEntry` construction -/

/-- A metadata value: decoded JSON, a string, or Python `None`. -/
inductive MetaVal where
  | js (j : Json)
  | s (v : List Char)
  | pnone

/-- `LogEntry` from `app.models.schemas` (the fields the parser populates). -/
structure LogEntry where
  timestamp : Option PyDateTime
  level : Option LogLevel
  service : Option String
  message : List Char
  raw_line : List Char
  line_number : Nat
  metadata : List (List Char × MetaVal)

/-- `FileProcessor._create_fallback_entry`; exception texts interpolated into
`reason` by the source are abstracted to the caller-supplied prefix. -/
def fallbackEntry (line : List Char) (ln : Nat) (reason : List Char) : LogEntry :=
  { timestamp := none, level := some .info, service := none,
    message := if line = [] then "(empty line)".data else line,
    raw_line := line, line_number := ln,
    metadata := [("parse_error".data, .s reason)] }

/-- `FileProcessor._create_log_entry_from_json` (pydantic coerces a non-string
`message` with `str()`). -/
def entryFromJson (kvs : List (List Char × Json)) (raw : List Char) (ln : Nat) : LogEntry :=
  { timestamp :=
      match jGetTruthy kvs ["timestamp".data, "time".data, "@timestamp".data] with
      | some v => extractTimestamp (String.mk (jsonToStr v))
      | none => none,
    level :=
      extractLogLevel (String.mk
        (match jGet kvs "level".data with
         | some v => jsonToStr v
         | none => match jGet kvs "severity".data with
           | some v => jsonToStr v
           | none => [])),
    service :=
      (match jGet kvs "service".data with
       | some v => some v
       | none => match jGet kvs "logger".data with
         | some v => some v
         | none => jGet kvs "component".data).bind
        (fun v => if jFalsy v then none
                  else extractService (some (String.mk (jsonToStr v)))),
    message :=
      match jGet kvs "message".data with
      | some v => jsonToStr v
      | none => match jGet kvs "msg".data with
        | some v => jsonToStr v
        | none => jsonRepr (Json.obj kvs),
    raw_line := raw, line_number := ln,
    metadata := kvs.map (fun p => (p.1, MetaVal.js p.2)) }

/-- The KEYS of `self.timestamp_patterns`: `_create_log_entry_from_text`
iterates the dict itself, so `re.search` receives these literal key names as
patterns rather than the regex values stored under them. -/
def timestampPatternKeys : List (List Char) :=
  ["iso8601_with_tz".data, "iso8601_simple".data, "syslog".data, "us_format".data,
   "european".data, "unix_timestamp".data, "apache_common".data]

def findTsKey (line : List Char) : List (List Char) → Option (List Char)
  | [] => none
  | k :: ks => if containsSubstr k line then some k else findTsKey line ks

/-- `FileProcessor._create_log_entry_from_text`. -/
def entryFromText (line : List Char) (ln : Nat) : LogEntry :=
  { timestamp :=
      match findTsKey line timestampPatternKeys with
      | some k => extractTimestamp (String.mk k)
      | none => none,
    level := extractLogLevel (String.mk line),
    service := extractService (some (String.mk line)),
    message := line, raw_line := line, line_number := ln, metadata := [] }

/-! ## Structured (`key=value`) entries -/

/-- One attempt of `(\w+)=(?:"([^"]*)"|'([^']*)'|([^\s]+))` anchored at the
head of `cs`: the regex backtracking collapses to "maximal word run, then
`=`, then one of the three value alternatives in order". Returns key, value
(after the `m1 or m2 or m3` falsy collapse) and the rest. -/
def kvAt (cs : List Char) : Option (List Char × List Char × List Char) :=
  let k := cs.takeWhile isWordC
  if k = [] then none
  else
    match cs.drop k.length with
    | '=' :: r =>
      match r with
      | [] => none
      | c :: r2 =>
        if c = dqChar then
          let m1 := r2.takeWhile (fun x => !(x = dqChar))
          match r2.drop m1.length with
          | _ :: r3 => some (k, m1, r3)
          | [] =>
            some (k, (c :: r2).takeWhile (fun x => !(isPyWs x)),
                  (c :: r2).dropWhile (fun x => !(isPyWs x)))
        else if c = sqChar then
          let m2 := r2.takeWhile (fun x => !(x = sqChar))
          match r2.drop m2.length with
          | _ :: r3 => some (k, m2, r3)
          | [] =>
            some (k, (c :: r2).takeWhile (fun x => !(isPyWs x)),
                  (c :: r2).dropWhile (fun x => !(isPyWs x)))
        else if isPyWs c then none
        else some (k, (c :: r2).takeWhile (fun x => !(isPyWs x)),
                   (c :: r2).dropWhile (fun x => !(isPyWs x)))
    | _ => none

/-- `re.findall` of the key=value pattern: leftmost, non-overlapping. -/
def kvFindAux : Nat → List Char → List (List Char × List Char) → List (List Char × List Char)
  | 0, _, acc => acc.reverse
  | _ + 1, [], acc => acc.reverse
  | fuel + 1, c :: cs, acc =>
    match kvAt (c :: cs) with
    | some (k, v, rest) => kvFindAux fuel rest ((k, v) :: acc)
    | none => kvFindAux fuel cs acc

/-- Python dict insertion: a repeated key updates in place, keeping its
original position. -/
def assocUpdate (d : List (List Char × List Char)) (k v : List Char) :
    List (List Char × List Char) :=
  match d with
  | [] => [(k, v)]
  | (k0, v0) :: rest =>
    if k0 = k then (k0, v) :: rest else (k0, v0) :: assocUpdate rest k v

/-- The `structured_data` dict of `_create_log_entry_from_structured`. -/
def structuredData (line : List Char) : List (List Char × List Char) :=
  (kvFindAux line.length line []).foldl (fun d p => assocUpdate d p.1 p.2) []

def sGet (d : List (List Char × List Char)) (k : List Char) : Option (List Char) :=
  (d.find? (fun p => p.1 = k)).map (fun p => p.2)

/-- `d.get(k1) or d.get(k2) or …` on string values: first present non-empty
value (an all-falsy chain collapses to `none`; the downstream extractors
treat `None` and `''` alike). -/
def sGetTruthy (d : List (List Char × List Char)) : List (List Char) → Option (List Char)
  | [] => none
  | k :: ks =>
    match sGet d k with
    | some v => if v = [] then sGetTruthy d ks else some v
    | none => sGetTruthy d ks

/-- `' '.join(f"{k}={v}" for k, v in d.items())`. -/
def joinKV : List (List Char × List Char) → List Char
  | [] => []
  | [(k, v)] => k ++ '=' :: v
  | (k, v) :: p :: rest => k ++ '=' :: v ++ ' ' :: joinKV (p :: rest)

/-- `FileProcessor._create_log_entry_from_structured`. -/
def entryFromStructured (line : List Char) (ln : Nat) : LogEntry :=
  let d := structuredData line
  if d = [] then entryFromText line ln
  else
    { timestamp :=
        extractTimestampOpt
          ((sGetTruthy d ["timestamp".data, "time".data, "ts".data]).map String.mk),
      level :=
        extractLogLevel (String.mk
          ((sGetTruthy d ["level".data, "severity".data, "loglevel".data]).getD [])),
      service :=
        extractService
          ((sGetTruthy d ["service".data, "component".data, "logger".data]).map String.mk),
      message := (sGetTruthy d ["message".data, "msg".data]).getD (joinKV d),
      raw_line := line, line_number := ln,
      metadata := d.map (fun p => (p.1, MetaVal.s p.2)) }

/-! ## Syslog entries -/

/-- The named groups of one of the five syslog regexes of `_parse_syslog_logs`;
the Python `re` engine applying those patterns is an oracle, `none` meaning no
pattern matched. -/
structure SyslogGroups where
  priority : Option (List Char)
  timestamp : Option (List Char)
  hostname : Option (List Char)
  tag : Option (List Char)
  service : Option (List Char)
  message : Option (List Char)

/-- `FileProcessor._create_log_entry_from_syslog_match`. -/
def entryFromSyslogMatch (g : SyslogGroups) (line : List Char) (ln : Nat) : LogEntry :=
  let msg := g.message.getD []
  { timestamp :=
      match g.timestamp with
      | some t => if t = [] then none else extractTimestamp (String.mk t)
      | none => none,
    level :=
      match g.priority with
      | some p =>
        if p = [] then extractLogLevel (String.mk msg)
        else
          let sev := natOfDigits p % 8
          if sev ≤ 3 then some .error
          else if sev = 4 then some .warn
          else if sev ≤ 6 then some .info
          else some .debug
      | none => extractLogLevel (String.mk msg),
    service :=
      extractService
        ((match g.service with
          | some v => if v = [] then g.tag else some v
          | none => g.tag).map String.mk),
    message := msg, raw_line := line, line_number := ln,
    metadata :=
      [("hostname".data, match g.hostname with | some h => MetaVal.s h | none => .pnone),
       ("priority".data, match g.priority with | some p => MetaVal.s p | none => .pnone)] }

/-! ## The four line-oriented parsers -/

/-- The shared loop `for line_num, line in enumerate(content.strip().split('\n'), 1)`
with `line = line.strip()` and blank lines skipped: one entry per surviving
line. -/
def parseLoop (mk : List Char → Nat → LogEntry) : List (List Char) → Nat → List LogEntry
  | [], _ => []
  | l :: rest, n =>
    if pyStripL l = [] then parseLoop mk rest (n + 1)
    else mk (pyStripL l) n :: parseLoop mk rest (n + 1)

/-- `FileProcessor._parse_plain_text_logs`. -/
def parsePlainTextLogs (content : String) : List LogEntry :=
  parseLoop entryFromText (splitLines (pyStripL content.data)) 1

/-- `FileProcessor._parse_structured_logs` (the `except` fallback to a text
entry cannot fire in the total model; the no-pairs fallback lives inside
`entryFromStructured`, as in the source's `_create_log_entry_from_structured`). -/
def parseStructuredLogs (content : String) : List LogEntry :=
  parseLoop entryFromStructured (splitLines (pyStripL content.data)) 1

/-- `FileProcessor._parse_syslog_logs` with the pattern engine as oracle `m`;
a match builds a syslog entry (its `except` arm, dead in the total model,
would also append exactly one fallback entry), no match falls back to a text
entry. -/
def parseSyslogLogs (m : List Char → Option SyslogGroups) (content : String) :
    List LogEntry :=
  parseLoop (fun line ln =>
      match m line with
      | some g => entryFromSyslogMatch g line ln
      | none => entryFromText line ln)
    (splitLines (pyStripL content.data)) 1

/-- `FileProcessor._parse_json_logs`. -/
def parseJsonLogs (content : String) : List LogEntry :=
  parseLoop (fun line ln =>
      match jsonLoads line with
      | some (Json.obj kvs) => entryFromJson kvs line ln
      | some _ => fallbackEntry line ln "Non-object JSON".data
      | none => fallbackEntry line ln "JSON decode error".data)
    (splitLines (pyStripL content.data)) 1

/-! ## Format detection (`_detect_log_format` and its scorers) -/

def pyMin (a b : PyQ) : PyQ := if PyQ.ltB b a then b else a

/-- `_score_json_format`. -/
def scoreJsonFormat (lines : List (List Char)) : PyQ :=
  if lines = [] then ⟨0, 1⟩
  else
    let nb := lines.filter (fun l => pyStripL l ≠ [])
    if nb.length = 0 then ⟨0, 1⟩
    else ⟨Int.ofNat (nb.filter (fun l => Json.isObjB (jsonLoads l))).length, nb.length⟩

/-- `str.isalpha` (ASCII approximation). -/
def isAlphaStr (cs : List Char) : Bool := !cs.isEmpty && cs.all Char.isAlpha

/-- `_score_csv_format`; the `csv.Sniffer().sniff` of the first ten joined
lines plus `csv.reader` over the first five is the oracle `csvO` (given the
sniffing sample and the lines to read; `none` = `csv.Error` or any other
exception, caught to a zero score). -/
def scoreCsvFormat (csvO : List (List Char) → List (List Char) → Option (List (List (List Char))))
    (lines : List (List Char)) : PyQ :=
  if lines.length < 2 then ⟨0, 1⟩
  else
    match csvO (lines.take 10) (lines.take 5) with
    | none => ⟨0, 1⟩
    | some rows =>
      if rows.length < 2 then ⟨0, 1⟩
      else
        match rows with
        | [] => ⟨0, 1⟩
        | r0 :: rtail =>
          if r0.length < 2 then ⟨0, 1⟩
          else
            let consistent := (rtail.filter (fun r => r.length = r0.length)).length
            let bonus : PyQ :=
              if r0.all (fun col => isAlphaStr (col.filter (fun c => !(c = '_' || c = ' '))))
              then ⟨1, 5⟩ else ⟨0, 1⟩
            pyMin ⟨1, 1⟩ (PyQ.add ⟨Int.ofNat consistent, rtail.length⟩ bonus)

/-- `\d{2}:\d{2}:\d{2}` at the head (the rest of the line is free). -/
def hhmmss : List Char → Bool
  | a :: b :: c :: d :: e :: f :: g :: h :: _ =>
    isDigitC a && isDigitC b && c = ':' && isDigitC d && isDigitC e && f = ':' &&
      isDigitC g && isDigitC h
  | _ => false

def wsThen (p : List Char → Bool) (r : List Char) : Bool :=
  !((r.takeWhile isPyWs).isEmpty) && p (r.dropWhile isPyWs)

/-- `^\w{3}\s+\d{1,2}\s+\d{2}:\d{2}:\d{2}` (syslog timestamp cue). -/
def syslogCue1 : List Char → Bool
  | a :: b :: c :: rest =>
    isWordC a && isWordC b && isWordC c &&
      wsThen (fun r1 =>
        match r1 with
        | d1 :: r2 =>
          isDigitC d1 &&
            ((match r2 with
              | d2 :: r3 => isDigitC d2 && wsThen hhmmss r3
              | [] => false)
             || wsThen hhmmss r2)
        | [] => false) rest
  | _ => false

/-- `^<\d+>` (priority cue). -/
def syslogCue2 : List Char → Bool
  | '<' :: r =>
    !((r.takeWhile isDigitC).isEmpty) &&
      (match r.dropWhile isDigitC with | '>' :: _ => true | _ => false)
  | _ => false

/-- `^\d{4}-\d{2}-\d{2}T\d{2}:\d{2}:\d{2}` (ISO cue). -/
def syslogCue3 : List Char → Bool
  | y1 :: y2 :: y3 :: y4 :: a :: m1 :: m2 :: b :: d1 :: d2 :: t :: rest =>
    isDigitC y1 && isDigitC y2 && isDigitC y3 && isDigitC y4 && a = '-' &&
      isDigitC m1 && isDigitC m2 && b = '-' && isDigitC d1 && isDigitC d2 &&
      t = 'T' && hhmmss rest
  | _ => false

/-- `_score_syslog_format`. -/
def scoreSyslogFormat (lines : List (List Char)) : PyQ :=
  if lines = [] then ⟨0, 1⟩
  else
    ⟨Int.ofNat ((lines.take 20).filter
        (fun l => syslogCue1 l || syslogCue2 l || syslogCue3 l)).length,
     min lines.length 20⟩

/-- `\w+=\w+` anywhere in the line. -/
def cueKvEq : List Char → Bool
  | [] => false
  | c :: rest =>
    (isWordC c && (match rest with | '=' :: d :: _ => isWordC d | _ => false))
      || cueKvEq rest

/-- `\w+:\s*\w+` anywhere in the line. -/
def cueKvColon : List Char → Bool
  | [] => false
  | c :: rest =>
    (isWordC c &&
      (match rest with
       | ':' :: r2 => (match r2.dropWhile isPyWs with | d :: _ => isWordC d | [] => false)
       | _ => false))
      || cueKvColon rest

/-- `\[\w+\]` anywhere in the line. -/
def cueBracket : List Char → Bool
  | [] => false
  | c :: rest =>
    (c = '[' && !((rest.takeWhile isWordC).isEmpty) &&
      (match rest.dropWhile isWordC with | ']' :: _ => true | _ => false))
      || cueBracket rest

/-- `\d{4}-\d{2}-\d{2}[\sT]\d{2}:\d{2}:\d{2}` at the head. -/
def tsAtHead : List Char → Bool
  | y1 :: y2 :: y3 :: y4 :: a :: m1 :: m2 :: b :: d1 :: d2 :: t :: rest =>
    isDigitC y1 && isDigitC y2 && isDigitC y3 && isDigitC y4 && a = '-' &&
      isDigitC m1 && isDigitC m2 && b = '-' && isDigitC d1 && isDigitC d2 &&
      (isPyWs t || t = 'T') && hhmmss rest
  | _ => false

/-- The timestamp cue of `_score_structured_format`, searched anywhere. -/
def cueTs : List Char → Bool
  | [] => false
  | c :: rest => tsAtHead (c :: rest) || cueTs rest

/-- `sum(1 for pattern in structured_patterns if re.search(pattern, line))`. -/
def structLineScore (l : List Char) : Nat :=
  (if cueKvEq l then 1 else 0) + (if cueKvColon l then 1 else 0) +
    (if cueBracket l then 1 else 0) + (if cueTs l then 1 else 0)

/-- `structured_score += min(line_score / len(structured_patterns), 1.0)`. -/
def structStep (acc : PyQ) (l : List Char) : PyQ :=
  PyQ.add acc (pyMin ⟨Int.ofNat (structLineScore l), 4⟩ ⟨1, 1⟩)

/-- `_score_structured_format`. -/
def scoreStructuredFormat (lines : List (List Char)) : PyQ :=
  if lines = [] then ⟨0, 1⟩
  else
    PyQ.div ((lines.take 20).foldl structStep ⟨0, 1⟩)
      ⟨Int.ofNat (min lines.length 20), 1⟩

/-- `os.path.splitext(filename)[1].lower()`: the extension from the last dot,
leading dots of the basename not counting. -/
def splitExtLower (fname : List Char) : List Char :=
  let r := fname.reverse
  let tailRev := r.takeWhile (fun c => !(c = '.'))
  if tailRev.length = r.length then []
  else if (r.drop (tailRev.length + 1)).any (fun c => !(c = '.')) then
    pyLowerL ('.' :: tailRev.reverse)
  else []

/-- `FileProcessor._format_from_extension`. -/
def formatFromExtension (fname : List Char) : LogFormat :=
  let ext := splitExtLower fname
  if ext = ".json".data then .json
  else if ext = ".csv".data then .csv
  else if ext = ".syslog".data then .syslog
  else if ext = ".log".data then .plain_text
  else if ext = ".txt".data then .plain_text
  else .plain_text

/-- `[line.strip() for line in content.split('\n') if line.strip()]`. -/
def detectLines (content : List Char) : List (List Char) :=
  ((splitLines content).map pyStripL).filter (fun l => l ≠ [])

/-- The score dict of `_detect_log_format`, in insertion order. -/
def formatScores (csvO : List (List Char) → List (List Char) → Option (List (List (List Char))))
    (sample : List (List Char)) : List (LogFormat × PyQ) :=
  [(.json, scoreJsonFormat sample), (.csv, scoreCsvFormat csvO sample),
   (.syslog, scoreSyslogFormat sample), (.custom, scoreStructuredFormat sample),
   (.plain_text, ⟨1, 10⟩)]

/-- `max(scores, key=scores.get)`: the first key attaining the maximum, in
dict order. -/
def bestScore : List (LogFormat × PyQ) → LogFormat × PyQ
  | [] => (.plain_text, ⟨0, 1⟩)
  | p :: rest => rest.foldl (fun b q => if PyQ.ltB b.2 q.2 then q else b) p

/-- `lines[:min(100, len(lines))]`. -/
def detectSample (content : List Char) : List (List Char) :=
  (detectLines content).take (min 100 (detectLines content).length)

/-- `FileProcessor._detect_log_format`. -/
def detectLogFormat
    (csvO : List (List Char) → List (List Char) → Option (List (List (List Char))))
    (content fname : List Char) : LogFormat × PyQ :=
  if (detectLines content).length < 3 then (formatFromExtension fname, ⟨1, 2⟩)
  else
    let best := bestScore (formatScores csvO (detectSample content))
    if best.1 = .json && PyQ.ltB best.2 ⟨7, 10⟩ then (.plain_text, ⟨1, 2⟩)
    else if best.1 = .csv && PyQ.ltB best.2 ⟨4, 5⟩ then (.plain_text, ⟨1, 2⟩)
    else if best.1 = .syslog && PyQ.ltB best.2 ⟨3, 5⟩ then (.plain_text, ⟨1, 2⟩)
    else best

/-! ## `process_content` and `process_file` -/

/-- `FileProcessor.process_content`; `_parse_csv_logs` (built on
`csv.Sniffer`/`csv.DictReader`, exercised by no analysed claim) and the
syslog regex engine are supplied as oracles. -/
def processContent (parseCsv : String → List LogEntry)
    (syslogM : List Char → Option SyslogGroups)
    (csvO : List (List Char) → List (List Char) → Option (List (List (List Char))))
    (content fname : String) : List LogEntry × LogFormat :=
  if pyStrip content = "" then ([], .plain_text)
  else
    let fmt := (detectLogFormat csvO content.data fname.data).1
    let entries :=
      match fmt with
      | .json => parseJsonLogs content
      | .csv => parseCsv content
      | .syslog => parseSyslogLogs syslogM content
      | .custom => parseStructuredLogs content
      | .plain_text => parsePlainTextLogs content
    (entries, fmt)

/-- `FileProcessor.process_file` (file reading abstracted to its `content`):
NOTE it RAISES `LogParsingError("File is empty or contains only whitespace")`
on empty or whitespace-only content (`.error ()`), unlike `process_content`. -/
def processFile (parseCsv : String → List LogEntry)
    (syslogM : List Char → Option SyslogGroups)
    (csvO : List (List Char) → List (List Char) → Option (List (List (List Char))))
    (content fname : String) : Except Unit (List LogEntry) :=
  if pyStrip content = "" then .error ()
  else
    .ok (match (detectLogFormat csvO content.data fname.data).1 with
         | .json => parseJsonLogs content
         | .csv => parseCsv content
         | .syslog => parseSyslogLogs syslogM content
         | .custom => parseStructuredLogs content
         | .plain_text => parsePlainTextLogs content)

/-! ## Claim C2: one entry per non-blank line -/

theorem isBlankL_iff (l : List Char) : isBlankL l = true ↔ ∀ c ∈ l, isPyWs c = true := by
  simp [isBlankL, List.all_eq_true]

theorem pyStripL_eq_nil_iff (l : List Char) : (pyStripL l = []) ↔ isBlankL l = true := by
  unfold pyStripL
  rw [isBlankL_iff]
  constructor
  · intro h c hc
    rw [List.dropWhile_eq_nil_iff] at h
    have hrev : c ∈ l.reverse := List.mem_reverse.mpr hc
    rw [← List.takeWhile_append_dropWhile isPyWs l.reverse, List.mem_append] at hrev
    rcases hrev with h1 | h1
    · exact List.mem_takeWhile_imp h1
    · exact h c (List.mem_reverse.mpr h1)
  · intro h
    have h1 : l.reverse.dropWhile isPyWs = [] :=
      List.dropWhile_eq_nil_iff.mpr (fun x hx => h x (List.mem_reverse.mp hx))
    rw [h1]
    rfl

theorem splitLines_ne_nil (cs : List Char) : splitLines cs ≠ [] := by
  cases cs with
  | nil => simp [splitLines]
  | cons c t =>
    rw [splitLines]
    by_cases hc : c = '\n'
    · simp [hc]
    · rw [if_neg hc]
      cases splitLines t <;> simp

theorem splitLines_newline (t : List Char) : splitLines ('\n' :: t) = [] :: splitLines t := by
  rw [splitLines, if_pos rfl]

theorem splitLines_cons_ne {c : Char} (t : List Char) (hc : c ≠ '\n') (l : List Char)
    (ls : List (List Char)) (h : splitLines t = l :: ls) :
    splitLines (c :: t) = (c :: l) :: ls := by
  rw [splitLines, if_neg hc, h]

/-- Every line of an all-whitespace text is blank. -/
theorem splitLines_all_blank (u : List Char) (h : ∀ c ∈ u, isPyWs c = true) :
    ∀ l ∈ splitLines u, isBlankL l = true := by
  induction u with
  | nil => intro l hl; simp [splitLines] at hl; simp [hl, isBlankL]
  | cons c t ih =>
    intro l hl
    by_cases hc : c = '\n'
    · subst hc
      rw [splitLines_newline] at hl
      rcases List.mem_cons.mp hl with h1 | h1
      · simp [h1, isBlankL]
      · exact ih (fun x hx => h x (List.mem_cons_of_mem _ hx)) l h1
    · obtain ⟨l0, ls, he⟩ : ∃ l0 ls, splitLines t = l0 :: ls := by
        cases hsp : splitLines t with
        | nil => exact absurd hsp (splitLines_ne_nil t)
        | cons a b => exact ⟨a, b, rfl⟩
      rw [splitLines_cons_ne t hc l0 ls he] at hl
      have ih2 := ih (fun x hx => h x (List.mem_cons_of_mem _ hx))
      rcases List.mem_cons.mp hl with h1 | h1
      · subst h1
        rw [isBlankL_iff]
        intro x hx
        rcases List.mem_cons.mp hx with h2 | h2
        · subst h2; exact h x (List.mem_cons_self _ _)
        · have := ih2 l0 (he ▸ List.mem_cons_self _ _)
          exact (isBlankL_iff l0).mp this x h2
      · exact ih2 l (he ▸ List.mem_cons_of_mem _ h1)

/-- Dropping an all-whitespace PREFIX does not change the non-blank line
count. -/
theorem countNB_ws_lead (w : List Char) (hw : ∀ c ∈ w, isPyWs c = true) :
    ∀ rest : List Char, countNB (splitLines (w ++ rest)) = countNB (splitLines rest) := by
  induction w with
  | nil => intro rest; rfl
  | cons c w2 ih =>
    intro rest
    have h211 : ∀ x ∈ w2, isPyWs x = true := fun x hx => hw x (List.mem_cons_of_mem _ hx)
    by_cases hc : c = '\n'
    · subst hc
      rw [List.cons_append, splitLines_newline, countNB, List.countP_cons]
      simp only [isBlankL, List.all_nil, Bool.not_true, if_neg Bool.false_ne_true]
      exact ih h211 rest
    · obtain ⟨l0, ls, he⟩ : ∃ l0 ls, splitLines (w2 ++ rest) = l0 :: ls := by
        cases hsp : splitLines (w2 ++ rest) with
        | nil => exact absurd hsp (splitLines_ne_nil _)
        | cons a b => exact ⟨a, b, rfl⟩
      rw [List.cons_append, splitLines_cons_ne _ hc l0 ls he]
      have hws : isPyWs c = true := hw c (List.mem_cons_self _ _)
      have hbl : isBlankL (c :: l0) = isBlankL l0 := by
        simp [isBlankL, hws]
      rw [countNB, List.countP_cons, hbl]
      have : countNB (l0 :: ls) = countNB (splitLines rest) := he ▸ ih h211 rest
      rw [countNB, List.countP_cons] at this
      rw [← countNB] at this ⊢
      exact this

/-- Dropping an all-whitespace SUFFIX changes neither the blankness of the
first line nor the non-blank line count. -/
theorem countNB_ws_suffix (w : List Char) (hw : ∀ c ∈ w, isPyWs c = true) :
    ∀ rest : List Char,
      isBlankL ((splitLines (rest ++ w)).headD []) = isBlankL ((splitLines rest).headD []) ∧
      countNB (splitLines (rest ++ w)) = countNB (splitLines rest) := by
  intro rest
  induction rest with
  | nil =>
    have hall := splitLines_all_blank w hw
    obtain ⟨l0, ls, he⟩ : ∃ l0 ls, splitLines w = l0 :: ls := by
      cases hsp : splitLines w with
      | nil => exact absurd hsp (splitLines_ne_nil _)
      | cons a b => exact ⟨a, b, rfl⟩
    constructor
    · rw [List.nil_append, he]
      have hb : isBlankL l0 = true := hall l0 (he ▸ List.mem_cons_self _ _)
      simp only [List.headD_cons]
      rw [hb]
      simp [splitLines, isBlankL]
    · have h0 : countNB (splitLines ([] : List Char)) = 0 := rfl
      rw [List.nil_append, h0, countNB, List.countP_eq_zero]
      intro a ha
      simp [hall a ha]
  | cons c t ih =>
    by_cases hc : c = '\n'
    · subst hc
      rw [List.cons_append, splitLines_newline, splitLines_newline]
      refine ⟨rfl, ?_⟩
      rw [countNB, countNB, List.countP_cons, List.countP_cons]
      have h2 := ih.2
      rw [countNB, countNB] at h2
      rw [h2]
    · obtain ⟨l0, ls, he⟩ : ∃ l0 ls, splitLines (t ++ w) = l0 :: ls := by
        cases hsp : splitLines (t ++ w) with
        | nil => exact absurd hsp (splitLines_ne_nil _)
        | cons a b => exact ⟨a, b, rfl⟩
      obtain ⟨l1, ls1, he1⟩ : ∃ l1 ls1, splitLines t = l1 :: ls1 := by
        cases hsp : splitLines t with
        | nil => exact absurd hsp (splitLines_ne_nil _)
        | cons a b => exact ⟨a, b, rfl⟩
      rw [List.cons_append, splitLines_cons_ne _ hc l0 ls he, splitLines_cons_ne _ hc l1 ls1 he1]
      have hh : isBlankL l0 = isBlankL l1 := by
        have h1 := ih.1
        rw [he, he1] at h1
        exact h1
      have hcons : isBlankL (c :: l0) = isBlankL (c :: l1) := by
        simp only [isBlankL, List.all_cons] at hh ⊢
        rw [hh]
      constructor
      · exact hcons
      · have h2 := ih.2
        rw [he, he1, countNB, countNB, List.countP_cons, List.countP_cons, hh] at h2
        have htail : List.countP (fun l => !(isBlankL l)) ls
            = List.countP (fun l => !(isBlankL l)) ls1 := Nat.add_right_cancel h2
        rw [countNB, countNB, List.countP_cons, List.countP_cons, htail, hcons]

/-- Stripping the whole text does not change its non-blank line count. -/
theorem countNB_strip (cs : List Char) :
    countNB (splitLines (pyStripL cs)) = countNB (splitLines cs) := by
  have hmid : countNB (splitLines ((cs.reverse.dropWhile isPyWs).reverse))
      = countNB (splitLines cs) := by
    have hcs : cs = (cs.reverse.dropWhile isPyWs).reverse
        ++ (cs.reverse.takeWhile isPyWs).reverse := by
      calc cs = cs.reverse.reverse := (List.reverse_reverse cs).symm
        _ = (cs.reverse.takeWhile isPyWs ++ cs.reverse.dropWhile isPyWs).reverse := by
              rw [List.takeWhile_append_dropWhile]
        _ = _ := by rw [List.reverse_append]
    conv_rhs => rw [hcs]
    exact (countNB_ws_suffix _
      (fun c hc => List.mem_takeWhile_imp (List.mem_reverse.mp hc)) _).2.symm
  have hlead : countNB (splitLines (pyStripL cs))
      = countNB (splitLines ((cs.reverse.dropWhile isPyWs).reverse)) := by
    unfold pyStripL
    conv_rhs => rw [← List.takeWhile_append_dropWhile isPyWs
      ((cs.reverse.dropWhile isPyWs).reverse)]
    exact (countNB_ws_lead _ (fun c hc => List.mem_takeWhile_imp hc) _).symm
  rw [hlead, hmid]

theorem parseLoop_length (mk : List Char → Nat → LogEntry) :
    ∀ (lines : List (List Char)) (n : Nat), (parseLoop mk lines n).length = countNB lines := by
  intro lines
  induction lines with
  | nil => intro n; rfl
  | cons l rest ih =>
    intro n
    rw [parseLoop, countNB, List.countP_cons]
    by_cases hb : pyStripL l = []
    · rw [if_pos hb]
      have hbl := (pyStripL_eq_nil_iff l).mp hb
      simp only [hbl, Bool.not_true, if_neg Bool.false_ne_true, Nat.add_zero]
      exact ih (n + 1)
    · rw [if_neg hb]
      have hbl : isBlankL l = false := by
        cases hx : isBlankL l with
        | false => rfl
        | true => exact absurd ((pyStripL_eq_nil_iff l).mpr hx) hb
      simp only [hbl, Bool.not_false, List.length_cons, if_true]
      rw [ih (n + 1), countNB]

/-- C2: the plain-text, structured, syslog (for every pattern engine) and JSON
parsers each produce exactly one `LogEntry` per non-blank line of the input:
blank lines yield no entry, no non-blank line is dropped (malformed JSON lines
become fallback entries), and the entry count equals the non-blank-line count. -/
theorem C2_entry_count (content : String) (syslogM : List Char → Option SyslogGroups) :
    (parsePlainTextLogs content).length = nonBlankCount content ∧
    (parseStructuredLogs content).length = nonBlankCount content ∧
    (parseSyslogLogs syslogM content).length = nonBlankCount content ∧
    (parseJsonLogs content).length = nonBlankCount content := by
  have key : ∀ mk, (parseLoop mk (splitLines (pyStripL content.data)) 1).length
      = nonBlankCount content := by
    intro mk
    rw [parseLoop_length, countNB_strip]
    rfl
  exact ⟨key _, key _, key _, key _⟩

/-! ## Claim C5: empty or whitespace-only input -/

/-- C5, counterexample to the claim as stated: of the two entry points it
covers, `process_file` does NOT return the distinguished empty result on
whitespace-only content — it raises `LogParsingError("File is empty or
contains only whitespace")`, modelled as `.error ()` (shown at concrete
oracles; the guard fires before any oracle is consulted). -/
theorem C5_counterexample :
    processFile (fun _ => []) (fun _ => none) (fun _ _ => none) "  \t\n " "app.log"
      = .error () := rfl

/-- C5 (corrected): for every empty or whitespace-only content,
`process_content` returns the distinguished `([], plain_text)` result without
raising, but `process_file` raises `LogParsingError` on the same input. -/
theorem C5_amended (parseCsv : String → List LogEntry)
    (syslogM : List Char → Option SyslogGroups)
    (csvO : List (List Char) → List (List Char) → Option (List (List (List Char))))
    (content fname : String) (h : pyStrip content = "") :
    processContent parseCsv syslogM csvO content fname = ([], .plain_text) ∧
    processFile parseCsv syslogM csvO content fname = .error () := by
  unfold processContent processFile
  rw [if_pos h, if_pos h]
  exact ⟨rfl, rfl⟩

/-- C5 witness: the amended theorem at a concrete whitespace-only input. -/
theorem C5_amended_witness :
    pyStrip " \t " = "" ∧
      processContent (fun _ => []) (fun _ => none) (fun _ _ => none) " \t " "x.log"
        = ([], .plain_text) ∧
      processFile (fun _ => []) (fun _ => none) (fun _ _ => none) " \t " "x.log"
        = .error () :=
  ⟨by decide,
   (C5_amended (fun _ => []) (fun _ => none) (fun _ _ => none) " \t " "x.log" (by decide)).1,
   (C5_amended (fun _ => []) (fun _ => none) (fun _ _ => none) " \t " "x.log" (by decide)).2⟩

/-! ## Claim C7: format detection -/

theorem pyqLtB_iff (a b : PyQ) (ha : 0 < a.d) (hb : 0 < b.d) :
    PyQ.ltB a b = true ↔ a.toRat < b.toRat := by
  unfold PyQ.ltB PyQ.toRat
  have ha2 : (0:ℚ) < (a.d : ℚ) := by exact_mod_cast ha
  have hb2 : (0:ℚ) < (b.d : ℚ) := by exact_mod_cast hb
  rw [div_lt_div_iff₀ ha2 hb2, decide_eq_true_eq]
  constructor
  · intro h; exact_mod_cast h
  · intro h; exact_mod_cast h

theorem pyqLtB_false_iff (a b : PyQ) (ha : 0 < a.d) (hb : 0 < b.d) :
    PyQ.ltB a b = false ↔ b.toRat ≤ a.toRat := by
  rw [← not_lt, ← pyqLtB_iff a b ha hb]
  cases PyQ.ltB a b <;> simp

/-- `ltB ⟨L, L⟩ q` is false whenever `q ≤ 1` (as `q.n ≤ q.d`). -/
theorem ltB_false_of_le (L : Nat) (q : PyQ) (h : q.n ≤ (q.d : Int)) :
    PyQ.ltB ⟨Int.ofNat L, L⟩ q = false := by
  unfold PyQ.ltB
  rw [decide_eq_false_iff_not, not_lt]
  have := mul_le_mul_of_nonneg_right h (Int.ofNat_nonneg L)
  calc q.n * Int.ofNat L ≤ (q.d : Int) * Int.ofNat L := this
    _ = Int.ofNat L * (q.d : Int) := by ring

/-- Value bound for the JSON scorer: denominator positive, value at most 1. -/
theorem scoreJson_bound (lines : List (List Char)) :
    0 < (scoreJsonFormat lines).d ∧
      (scoreJsonFormat lines).n ≤ ((scoreJsonFormat lines).d : Int) := by
  unfold scoreJsonFormat
  by_cases h0 : lines = []
  · rw [if_pos h0]; exact ⟨Nat.one_pos, by norm_num⟩
  · rw [if_neg h0]
    by_cases h1 : (lines.filter (fun l => pyStripL l ≠ [])).length = 0
    · rw [if_pos h1]; exact ⟨Nat.one_pos, by norm_num⟩
    · rw [if_neg h1]
      refine ⟨Nat.pos_of_ne_zero h1, ?_⟩
      exact Int.ofNat_le.mpr (List.length_filter_le _ _)

theorem scoreCsv_bound
    (csvO : List (List Char) → List (List Char) → Option (List (List (List Char))))
    (lines : List (List Char)) :
    0 < (scoreCsvFormat csvO lines).d ∧
      (scoreCsvFormat csvO lines).n ≤ ((scoreCsvFormat csvO lines).d : Int) := by
  unfold scoreCsvFormat
  by_cases h0 : lines.length < 2
  · rw [if_pos h0]; exact ⟨Nat.one_pos, by norm_num⟩
  · rw [if_neg h0]
    cases hcsv : csvO (lines.take 10) (lines.take 5) with
    | none => exact ⟨Nat.one_pos, by norm_num⟩
    | some rows =>
      dsimp only
      by_cases h1 : rows.length < 2
      · rw [if_pos h1]; exact ⟨Nat.one_pos, by norm_num⟩
      · rw [if_neg h1]
        cases rows with
        | nil => exact ⟨Nat.one_pos, by norm_num⟩
        | cons r0 rtail =>
          dsimp only
          by_cases h2 : r0.length < 2
          · rw [if_pos h2]; exact ⟨Nat.one_pos, by norm_num⟩
          · rw [if_neg h2]
            have hrt : 0 < rtail.length := by
              simp only [List.length_cons, not_lt] at h1
              omega
            unfold pyMin
            set y := PyQ.add
              ⟨Int.ofNat (rtail.filter (fun r => r.length = r0.length)).length, rtail.length⟩
              (if (r0.all fun col => isAlphaStr (col.filter fun c => !(c = '_' || c = ' ')))
               then ⟨1, 5⟩ else ⟨0, 1⟩) with hy
            have hyd : 0 < y.d := by
              rw [hy]
              unfold PyQ.add
              by_cases hbon : (r0.all fun col => isAlphaStr (col.filter fun c => !(c = '_' || c = ' '))) = true
              · rw [if_pos hbon]
                simp only [PyQ.add]
                omega
              · rw [if_neg hbon]
                simp only [PyQ.add]
                omega
            by_cases hlt : PyQ.ltB y ⟨1, 1⟩ = true
            · rw [if_pos hlt]
              refine ⟨hyd, ?_⟩
              unfold PyQ.ltB at hlt
              rw [decide_eq_true_eq] at hlt
              simpa using le_of_lt hlt
            · rw [if_neg hlt]
              exact ⟨Nat.one_pos, by norm_num⟩

theorem scoreSyslog_bound (lines : List (List Char)) :
    0 < (scoreSyslogFormat lines).d ∧
      (scoreSyslogFormat lines).n ≤ ((scoreSyslogFormat lines).d : Int) := by
  unfold scoreSyslogFormat
  by_cases h0 : lines = []
  · rw [if_pos h0]; exact ⟨Nat.one_pos, by norm_num⟩
  · rw [if_neg h0]
    have hlen : 0 < lines.length := List.length_pos_of_ne_nil h0
    refine ⟨Nat.lt_min.mpr ⟨hlen, by norm_num⟩, ?_⟩
    have h1 : ((lines.take 20).filter
        (fun l => syslogCue1 l || syslogCue2 l || syslogCue3 l)).length
        ≤ (lines.take 20).length := List.length_filter_le _ _
    have h2 : (lines.take 20).length = min 20 lines.length := List.length_take 20 lines
    rw [h2, Nat.min_comm] at h1
    exact Int.ofNat_le.mpr h1

theorem structStep_bound (acc : PyQ) (l : List Char) (k : Nat)
    (hd : 0 < acc.d) (hn : acc.n ≤ (acc.d : Int) * k) :
    0 < (structStep acc l).d ∧
      (structStep acc l).n ≤ ((structStep acc l).d : Int) * (k + 1) := by
  unfold structStep pyMin
  have hm : ∀ m : PyQ, 0 < m.d → 0 ≤ m.n → m.n ≤ (m.d : Int) →
      0 < (PyQ.add acc m).d ∧ (PyQ.add acc m).n ≤ ((PyQ.add acc m).d : Int) * (k + 1) := by
    intro m hmd hmn hmnd
    unfold PyQ.add
    refine ⟨Nat.mul_pos hd hmd, ?_⟩
    simp only
    push_cast
    have e1 : acc.n * (m.d : Int) ≤ (acc.d : Int) * k * m.d :=
      mul_le_mul_of_nonneg_right hn (by exact_mod_cast Nat.zero_le m.d)
    have e2 : m.n * (acc.d : Int) ≤ (m.d : Int) * acc.d :=
      mul_le_mul_of_nonneg_right hmnd (by exact_mod_cast Nat.zero_le acc.d)
    nlinarith
  by_cases hlt : PyQ.ltB ⟨1, 1⟩ ⟨Int.ofNat (structLineScore l), 4⟩ = true
  · rw [if_pos hlt]
    exact hm ⟨1, 1⟩ Nat.one_pos (by norm_num) (by norm_num)
  · rw [if_neg hlt]
    unfold PyQ.ltB at hlt
    rw [decide_eq_true_eq, not_lt] at hlt
    refine hm _ (by norm_num) (Int.ofNat_nonneg _) ?_
    simpa using hlt

theorem structFold_bound (ls : List (List Char)) :
    ∀ (acc : PyQ) (k : Nat), 0 < acc.d → acc.n ≤ (acc.d : Int) * k →
      0 < (ls.foldl structStep acc).d ∧
        (ls.foldl structStep acc).n ≤ ((ls.foldl structStep acc).d : Int) * (k + ls.length) := by
  induction ls with
  | nil => intro acc k hd hn; simpa using ⟨hd, hn⟩
  | cons l ls ih =>
    intro acc k hd hn
    rw [List.foldl_cons]
    have hstep := structStep_bound acc l k hd hn
    have := ih (structStep acc l) (k + 1) hstep.1 hstep.2
    refine ⟨this.1, ?_⟩
    have h2 := this.2
    have hc : ((k + 1 : Nat) : Int) + (ls.length : Int)
        = (k : Int) + ((l :: ls).length : Int) := by
      simp only [List.length_cons]
      push_cast
      ring
    rw [hc] at h2
    exact h2

theorem scoreStruct_bound (lines : List (List Char)) :
    0 < (scoreStructuredFormat lines).d ∧
      (scoreStructuredFormat lines).n ≤ ((scoreStructuredFormat lines).d : Int) := by
  unfold scoreStructuredFormat
  by_cases h0 : lines = []
  · rw [if_pos h0]; exact ⟨Nat.one_pos, by norm_num⟩
  · rw [if_neg h0]
    have hlen : 0 < lines.length := List.length_pos_of_ne_nil h0
    have hfold := structFold_bound (lines.take 20) ⟨0, 1⟩ 0 Nat.one_pos (by norm_num)
    have h2 : (lines.take 20).length = min lines.length 20 := by
      rw [List.length_take, Nat.min_comm]
    unfold PyQ.div
    dsimp only
    split
    · have h3 := hfold.2
      rw [h2] at h3
      constructor
      · refine Nat.mul_pos hfold.1 ?_
        show 0 < lines.length ⊓ 20
        exact Nat.lt_min.mpr ⟨hlen, by norm_num⟩
      · dsimp only
        have ht : (Int.ofNat (lines.length ⊓ 20)).toNat = lines.length ⊓ 20 := rfl
        rw [ht]
        push_cast
        push_cast at h3
        linarith [h3]
    · next hneg => exact absurd (Int.ofNat_nonneg _) hneg

theorem foldl_best_keep (p : LogFormat × PyQ) :
    ∀ rest : List (LogFormat × PyQ), (∀ q ∈ rest, PyQ.ltB p.2 q.2 = false) →
      rest.foldl (fun b q => if PyQ.ltB b.2 q.2 then q else b) p = p := by
  intro rest
  induction rest with
  | nil => intro _; rfl
  | cons q rest ih =>
    intro h
    rw [List.foldl_cons, if_neg (by simp [h q (List.mem_cons_self _ _)])]
    exact ih (fun x hx => h x (List.mem_cons_of_mem _ hx))

theorem bestScore_first (p : LogFormat × PyQ) (rest : List (LogFormat × PyQ))
    (h : ∀ q ∈ rest, PyQ.ltB p.2 q.2 = false) : bestScore (p :: rest) = p :=
  foldl_best_keep p rest h

theorem foldl_best_mem : ∀ (rest : List (LogFormat × PyQ)) (p : LogFormat × PyQ),
    rest.foldl (fun b q => if PyQ.ltB b.2 q.2 then q else b) p ∈ p :: rest := by
  intro rest
  induction rest with
  | nil => intro p; exact List.mem_cons_self _ _
  | cons q rest ih =>
    intro p
    rw [List.foldl_cons]
    rcases List.mem_cons.mp (ih _) with h | h
    · rw [h]
      by_cases hc : PyQ.ltB p.2 q.2 = true
      · rw [if_pos hc]; exact List.mem_cons_of_mem _ (List.mem_cons_self _ _)
      · rw [if_neg hc]; exact List.mem_cons_self _ _
    · exact List.mem_cons_of_mem _ (List.mem_cons_of_mem _ h)

theorem bestScore_mem (p : LogFormat × PyQ) (rest : List (LogFormat × PyQ)) :
    bestScore (p :: rest) ∈ p :: rest := foldl_best_mem rest p

theorem foldl_best_max : ∀ (rest : List (LogFormat × PyQ)) (p : LogFormat × PyQ),
    (∀ x ∈ p :: rest, 0 < x.2.d) →
    ∀ q ∈ p :: rest,
      q.2.toRat ≤ (rest.foldl (fun b q => if PyQ.ltB b.2 q.2 then q else b) p).2.toRat := by
  intro rest
  induction rest with
  | nil =>
    intro p _ q hq
    rcases List.mem_cons.mp hq with h | h
    · rw [h]; exact le_refl _
    · exact absurd h (List.not_mem_nil q)
  | cons r rest ih =>
    intro p hd q hq
    rw [List.foldl_cons]
    have hdp : 0 < p.2.d := hd p (List.mem_cons_self _ _)
    have hdr : 0 < r.2.d := hd r (List.mem_cons_of_mem _ (List.mem_cons_self _ _))
    have hp2mem : (if PyQ.ltB p.2 r.2 then r else p) ∈ p :: r :: rest := by
      by_cases hc : PyQ.ltB p.2 r.2 = true
      · rw [if_pos hc]; exact List.mem_cons_of_mem _ (List.mem_cons_self _ _)
      · rw [if_neg hc]; exact List.mem_cons_self _ _
    have hd2 : ∀ x ∈ (if PyQ.ltB p.2 r.2 then r else p) :: rest, 0 < x.2.d := by
      intro x hx
      rcases List.mem_cons.mp hx with h | h
      · rw [h]; exact hd _ hp2mem
      · exact hd x (List.mem_cons_of_mem _ (List.mem_cons_of_mem _ h))
    have hple : p.2.toRat ≤ (if PyQ.ltB p.2 r.2 then r else p).2.toRat := by
      by_cases hc : PyQ.ltB p.2 r.2 = true
      · rw [if_pos hc]; exact le_of_lt ((pyqLtB_iff _ _ hdp hdr).mp hc)
      · rw [if_neg hc]
    have hrle : r.2.toRat ≤ (if PyQ.ltB p.2 r.2 then r else p).2.toRat := by
      by_cases hc : PyQ.ltB p.2 r.2 = true
      · rw [if_pos hc]
      · rw [if_neg hc]
        have hf : PyQ.ltB p.2 r.2 = false := by
          cases hx : PyQ.ltB p.2 r.2 with
          | false => rfl
          | true => exact absurd hx hc
        exact (pyqLtB_false_iff _ _ hdp hdr).mp hf
    have hres := ih (if PyQ.ltB p.2 r.2 then r else p) hd2
    rcases List.mem_cons.mp hq with h | h
    · rw [h]; exact le_trans hple (hres _ (List.mem_cons_self _ _))
    · rcases List.mem_cons.mp h with h2 | h2
      · rw [h2]; exact le_trans hrle (hres _ (List.mem_cons_self _ _))
      · exact hres q (List.mem_cons_of_mem _ h2)

theorem bestScore_max (p : LogFormat × PyQ) (rest : List (LogFormat × PyQ))
    (hd : ∀ x ∈ p :: rest, 0 < x.2.d) :
    ∀ q ∈ p :: rest, q.2.toRat ≤ (bestScore (p :: rest)).2.toRat :=
  foldl_best_max rest p hd

/-- Every line of `detect`'s pre-stripped non-blank line list is non-empty and
survives another strip. -/
theorem detectLines_mem (content : List Char) (l : List Char) (h : l ∈ detectLines content) :
    l ≠ [] ∧ pyStripL l ≠ [] := by
  unfold detectLines at h
  have h2 := List.mem_filter.mp h
  obtain ⟨l0, _, he⟩ := List.mem_map.mp h2.1
  have hne : l ≠ [] := by simpa using h2.2
  refine ⟨hne, ?_⟩
  intro hcontra
  have hblank := (pyStripL_eq_nil_iff l).mp hcontra
  have hh : hnwB l = true := by
    rw [← he]
    unfold pyStripL
    exact hnwB_dropWhile _
  cases l with
  | nil => exact hne rfl
  | cons c t =>
    simp only [hnwB] at hh
    have hcw : isPyWs c = true := ((isBlankL_iff _).mp hblank) c (List.mem_cons_self _ _)
    rw [hcw] at hh
    simp at hh

/-- When every non-blank line decodes to a JSON object, the JSON score is
`L/L` for the sample length `L > 0`. -/
theorem scoreJson_all_obj (content : List Char)
    (h3 : 3 ≤ (detectLines content).length)
    (hobj : ∀ l ∈ detectLines content, Json.isObjB (jsonLoads l) = true) :
    scoreJsonFormat (detectSample content)
        = ⟨Int.ofNat (detectSample content).length, (detectSample content).length⟩ ∧
      0 < (detectSample content).length := by
  have hsub : ∀ l ∈ detectSample content, l ∈ detectLines content :=
    fun l hl => List.take_subset _ _ hl
  have hlen : 0 < (detectSample content).length := by
    unfold detectSample
    rw [List.length_take]
    omega
  refine ⟨?_, hlen⟩
  unfold scoreJsonFormat
  have hne : detectSample content ≠ [] := by
    intro hcon
    rw [hcon] at hlen
    simp at hlen
  rw [if_neg hne]
  have hfil : (detectSample content).filter (fun l => pyStripL l ≠ []) = detectSample content := by
    rw [List.filter_eq_self]
    intro a ha
    simpa using (detectLines_mem content a (hsub a ha)).2
  rw [hfil]
  have hfil2 : (detectSample content).filter (fun l => Json.isObjB (jsonLoads l))
      = detectSample content := by
    rw [List.filter_eq_self]
    intro a ha
    exact hobj a (hsub a ha)
  rw [if_neg (by omega : ¬(detectSample content).length = 0), hfil2]

/-- C7: with at least 3 non-blank lines, (i) when every line decodes to a JSON
object the detector returns JSON with confidence ≥ 0.7 (in fact 1); (ii) in
general it picks the first maximum-scoring family in dict order and demotes a
JSON/CSV/Syslog winner scoring below 0.7/0.8/0.6 to plain text at confidence
0.5, otherwise returning the winner with its score, which then meets its
threshold. -/
theorem C7_confirmed :
    (∀ (content fname : List Char)
       (csvO : List (List Char) → List (List Char) → Option (List (List (List Char)))),
       3 ≤ (detectLines content).length →
       (∀ l ∈ detectLines content, Json.isObjB (jsonLoads l) = true) →
       (detectLogFormat csvO content fname).1 = LogFormat.json ∧
         (7 : ℚ)/10 ≤ (detectLogFormat csvO content fname).2.toRat) ∧
    (∀ (content fname : List Char)
       (csvO : List (List Char) → List (List Char) → Option (List (List (List Char)))),
       3 ≤ (detectLines content).length →
       ∀ B, B = bestScore (formatScores csvO (detectSample content)) →
       (∀ q ∈ formatScores csvO (detectSample content), q.2.toRat ≤ B.2.toRat) ∧
       ((detectLogFormat csvO content fname = (LogFormat.plain_text, ⟨1, 2⟩) ∧
           ((B.1 = LogFormat.json ∧ B.2.toRat < 7/10) ∨
            (B.1 = LogFormat.csv ∧ B.2.toRat < 4/5) ∨
            (B.1 = LogFormat.syslog ∧ B.2.toRat < 3/5))) ∨
        (detectLogFormat csvO content fname = B ∧
           (B.1 = LogFormat.json → 7/10 ≤ B.2.toRat) ∧
           (B.1 = LogFormat.csv → 4/5 ≤ B.2.toRat) ∧
           (B.1 = LogFormat.syslog → 3/5 ≤ B.2.toRat)))) := by
  constructor
  · intro content fname csvO h3 hobj
    obtain ⟨hjs, hL⟩ := scoreJson_all_obj content h3 hobj
    have hbest : bestScore (formatScores csvO (detectSample content))
        = (LogFormat.json, ⟨Int.ofNat (detectSample content).length,
                            (detectSample content).length⟩) := by
      unfold formatScores
      rw [hjs]
      refine bestScore_first _ _ ?_
      intro q hq
      simp only [List.mem_cons, List.not_mem_nil, or_false] at hq
      rcases hq with rfl | rfl | rfl | rfl
      · exact ltB_false_of_le _ _ (scoreCsv_bound csvO _).2
      · exact ltB_false_of_le _ _ (scoreSyslog_bound _).2
      · exact ltB_false_of_le _ _ (scoreStruct_bound _).2
      · exact ltB_false_of_le _ _ (by norm_num)
    have hthr : PyQ.ltB ⟨Int.ofNat (detectSample content).length,
        (detectSample content).length⟩ ⟨7, 10⟩ = false := by
      unfold PyQ.ltB
      rw [decide_eq_false_iff_not, not_lt]
      have h0 : 0 < (detectSample content).length := hL
      have he : Int.ofNat (detectSample content).length
          = ((detectSample content).length : Int) := rfl
      dsimp only
      rw [he]
      omega
    unfold detectLogFormat
    rw [if_neg (by omega : ¬(detectLines content).length < 3)]
    dsimp only
    rw [hbest]
    rw [if_neg (by simp only [hthr, Bool.and_false]; exact Bool.false_ne_true)]
    rw [if_neg (by simp)]
    rw [if_neg (by simp)]
    constructor
    · rfl
    · show (7 : ℚ)/10 ≤ PyQ.toRat ⟨Int.ofNat (detectSample content).length,
        (detectSample content).length⟩
      unfold PyQ.toRat
      have hne : ((detectSample content).length : ℚ) ≠ 0 := by
        exact_mod_cast Nat.pos_iff_ne_zero.mp hL
      have he : ((Int.ofNat (detectSample content).length : Int) : ℚ)
          = ((detectSample content).length : ℚ) := by rfl
      rw [he, div_self hne]
      norm_num
  · intro content fname csvO h3 B hB
    have dpos : ∀ q ∈ formatScores csvO (detectSample content), 0 < q.2.d := by
      intro q hq
      unfold formatScores at hq
      simp only [List.mem_cons, List.not_mem_nil, or_false] at hq
      rcases hq with rfl | rfl | rfl | rfl | rfl
      · exact (scoreJson_bound _).1
      · exact (scoreCsv_bound csvO _).1
      · exact (scoreSyslog_bound _).1
      · exact (scoreStruct_bound _).1
      · norm_num
    have hBmem : B ∈ formatScores csvO (detectSample content) := by
      rw [hB]
      unfold formatScores
      exact bestScore_mem _ _
    have hBd : 0 < B.2.d := dpos B hBmem
    have hmax : ∀ q ∈ formatScores csvO (detectSample content), q.2.toRat ≤ B.2.toRat := by
      rw [hB]
      unfold formatScores
      refine bestScore_max _ _ ?_
      unfold formatScores at dpos
      exact dpos
    refine ⟨hmax, ?_⟩
    unfold detectLogFormat
    rw [if_neg (by omega : ¬(detectLines content).length < 3)]
    dsimp only
    rw [← hB]
    by_cases hc1 : (decide (B.1 = LogFormat.json) && PyQ.ltB B.2 ⟨7, 10⟩) = true
    · rw [if_pos hc1]
      rw [Bool.and_eq_true, decide_eq_true_eq] at hc1
      left
      refine ⟨rfl, Or.inl ⟨hc1.1, ?_⟩⟩
      have := (pyqLtB_iff B.2 ⟨7, 10⟩ hBd (by norm_num)).mp hc1.2
      simpa [PyQ.toRat] using this
    · rw [if_neg hc1]
      by_cases hc2 : (decide (B.1 = LogFormat.csv) && PyQ.ltB B.2 ⟨4, 5⟩) = true
      · rw [if_pos hc2]
        rw [Bool.and_eq_true, decide_eq_true_eq] at hc2
        left
        refine ⟨rfl, Or.inr (Or.inl ⟨hc2.1, ?_⟩)⟩
        have := (pyqLtB_iff B.2 ⟨4, 5⟩ hBd (by norm_num)).mp hc2.2
        simpa [PyQ.toRat] using this
      · rw [if_neg hc2]
        by_cases hc3 : (decide (B.1 = LogFormat.syslog) && PyQ.ltB B.2 ⟨3, 5⟩) = true
        · rw [if_pos hc3]
          rw [Bool.and_eq_true, decide_eq_true_eq] at hc3
          left
          refine ⟨rfl, Or.inr (Or.inr ⟨hc3.1, ?_⟩)⟩
          have := (pyqLtB_iff B.2 ⟨3, 5⟩ hBd (by norm_num)).mp hc3.2
          simpa [PyQ.toRat] using this
        · rw [if_neg hc3]
          right
          refine ⟨rfl, ?_, ?_, ?_⟩
          · intro hj
            have hf : PyQ.ltB B.2 ⟨7, 10⟩ = false := by
              cases hx : PyQ.ltB B.2 ⟨7, 10⟩ with
              | false => rfl
              | true =>
                exact absurd (by rw [Bool.and_eq_true, decide_eq_true_eq]; exact ⟨hj, hx⟩) hc1
            have := (pyqLtB_false_iff B.2 ⟨7, 10⟩ hBd (by norm_num)).mp hf
            simpa [PyQ.toRat] using this
          · intro hj
            have hf : PyQ.ltB B.2 ⟨4, 5⟩ = false := by
              cases hx : PyQ.ltB B.2 ⟨4, 5⟩ with
              | false => rfl
              | true =>
                exact absurd (by rw [Bool.and_eq_true, decide_eq_true_eq]; exact ⟨hj, hx⟩) hc2
            have := (pyqLtB_false_iff B.2 ⟨4, 5⟩ hBd (by norm_num)).mp hf
            simpa [PyQ.toRat] using this
          · intro hj
            have hf : PyQ.ltB B.2 ⟨3, 5⟩ = false := by
              cases hx : PyQ.ltB B.2 ⟨3, 5⟩ with
              | false => rfl
              | true =>
                exact absurd (by rw [Bool.and_eq_true, decide_eq_true_eq]; exact ⟨hj, hx⟩) hc3
            have := (pyqLtB_false_iff B.2 ⟨3, 5⟩ hBd (by norm_num)).mp hf
            simpa [PyQ.toRat] using this

/-- Three single-line JSON objects, for the C7 witness. -/
def jsonSample : String := "\x7b\"a\": 1\x7d\n\x7b\"b\": 2\x7d\n\x7b\"c\": 3\x7d"

/-- C7 witness: both parts of the theorem applied at a concrete three-line
JSON document (with a CSV oracle that always fails to sniff). -/
theorem C7_confirmed_witness :
    3 ≤ (detectLines jsonSample.data).length ∧
    (∀ l ∈ detectLines jsonSample.data, Json.isObjB (jsonLoads l) = true) ∧
    (detectLogFormat (fun _ _ => none) jsonSample.data "x.log".data).1 = LogFormat.json ∧
    (7 : ℚ)/10 ≤ (detectLogFormat (fun _ _ => none) jsonSample.data "x.log".data).2.toRat ∧
    (∀ q ∈ formatScores (fun _ _ => none) (detectSample jsonSample.data),
      q.2.toRat ≤ (bestScore (formatScores (fun _ _ => none)
        (detectSample jsonSample.data))).2.toRat) :=
  ⟨by decide, by decide,
   (C7_confirmed.1 jsonSample.data "x.log".data (fun _ _ => none) (by decide) (by decide)).1,
   (C7_confirmed.1 jsonSample.data "x.log".data (fun _ _ => none) (by decide) (by decide)).2,
   (C7_confirmed.2 jsonSample.data "x.log".data (fun _ _ => none) (by decide) _ rfl).1⟩

/-! ## `LogAnalyzer._detect_error_patterns` (claims C1 and C6) -/

/-- `e.level in [LogLevel.ERROR, LogLevel.FATAL, LogLevel.CRITICAL]`. -/
def isErrLevel : Option LogLevel → Bool
  | some .error => true
  | some .fatal => true
  | some .critical => true
  | _ => false

/-- The dict entry produced for one pattern group. `first/last_occurrence` are
total fields here because construction FAILS (`min()` on an empty generator
raises `ValueError`) whenever the group has no timestamped member. -/
structure ErrPattern where
  pattern : List Char
  count : Nat
  examples : List (List Char)
  severity : List Char
  category : List Char
  first_occurrence : PyDateTime
  last_occurrence : PyDateTime
deriving DecidableEq, Repr

/-- `defaultdict(list)` keyed by normalized message: first-insertion order,
append to an existing group. -/
def groupUpsert (g : List (List Char × List LogEntry)) (k : List Char) (e : LogEntry) :
    List (List Char × List LogEntry) :=
  match g with
  | [] => [(k, [e])]
  | (k0, es) :: rest =>
    if k0 = k then (k0, es ++ [e]) :: rest else (k0, es) :: groupUpsert rest k e

def groupByNorm (es : List LogEntry) : List (List Char × List LogEntry) :=
  es.foldl (fun g e => groupUpsert g (normalizeErrorMessageL e.message) e) []

/-- Python `min` on datetimes: first minimum. -/
def dtMinList : List PyDateTime → Option PyDateTime
  | [] => none
  | t :: ts => some (ts.foldl (fun a b => if dtLtB b a then b else a) t)

/-- Python `max` on datetimes: first maximum. -/
def dtMaxList : List PyDateTime → Option PyDateTime
  | [] => none
  | t :: ts => some (ts.foldl (fun a b => if dtLtB a b then b else a) t)

/-- One `patterns.append({...})` step: `.error ()` models the `ValueError`
that `min()`/`max()` raise on a group with no timestamped entry. -/
def buildPattern (k : List Char) (es : List LogEntry) : Except Unit ErrPattern :=
  match dtMinList (es.filterMap (fun e => e.timestamp)),
        dtMaxList (es.filterMap (fun e => e.timestamp)) with
  | some mn, some mx =>
    .ok { pattern := k, count := es.length,
          examples := (es.take 3).map (fun e => e.message),
          severity := if es.length > 10 then "high".data else "medium".data,
          category := "error".data,
          first_occurrence := mn, last_occurrence := mx }
  | _, _ => .error ()

def buildAll : List (List Char × List LogEntry) → Except Unit (List ErrPattern)
  | [] => .ok []
  | (k, es) :: rest =>
    match buildPattern k es with
    | .ok p =>
      match buildAll rest with
      | .ok ps => .ok (p :: ps)
      | .error u => .error u
    | .error u => .error u

/-- Descending-count order for the final stable sort. -/
def countDesc (p q : ErrPattern) : Prop := q.count ≤ p.count

instance instCountDescDec : DecidableRel countDesc := fun _ _ => Nat.decLe _ _

instance instCountDescTotal : IsTotal ErrPattern countDesc :=
  ⟨fun a b => le_total b.count a.count⟩

instance instCountDescTrans : IsTrans ErrPattern countDesc :=
  ⟨fun _ _ _ h1 h2 => le_trans h2 h1⟩

/-- `LogAnalyzer._detect_error_patterns`, with the `ValueError` of
`min()`/`max()` on timestampless groups surfaced as `.error ()`. -/
def detectErrorPatterns (entries : List LogEntry) : Except Unit (List ErrPattern) :=
  let errs := entries.filter (fun e => isErrLevel e.level)
  if errs.isEmpty then .ok []
  else
    match buildAll ((groupByNorm errs).filter (fun g => 2 ≤ g.2.length)) with
    | .ok ps => .ok ((ps.insertionSort countDesc).take 10)
    | .error u => .error u

/-- A timestampless ERROR entry with the given message. -/
def plainErrEntry (msg : List Char) : LogEntry :=
  { timestamp := none, level := some .error, service := none,
    message := msg, raw_line := msg, line_number := 1, metadata := [] }

/-- C1: the claimed no-raise property FAILS. Two timestampless ERROR entries
share a normalized message, so the group reaches
`min(e.timestamp for e in matching_entries if e.timestamp)` with an empty
generator and `analyze` propagates a `ValueError` instead of returning a
`PatternMatch` with absent occurrence timestamps. -/
theorem C1_bug :
    detectErrorPatterns [plainErrEntry "database timeout".data,
                         plainErrEntry "database timeout".data] = .error () := rfl

/-! ## Claim C6: the clustering rules -/

/-- C6, counterexample to the claim as stated over EVERY entry sequence: a
group of 2 timestampless ERROR entries makes the clustering raise instead of
reporting. -/
theorem C6_counterexample :
    detectErrorPatterns [plainErrEntry "connection reset".data,
                         plainErrEntry "connection reset".data] = .error () := rfl

theorem buildAll_ok_mem (gs : List (List Char × List LogEntry)) (ps : List ErrPattern)
    (h : buildAll gs = .ok ps) : ∀ p ∈ ps, ∃ g ∈ gs, buildPattern g.1 g.2 = .ok p := by
  induction gs generalizing ps with
  | nil =>
    simp only [buildAll, Except.ok.injEq] at h
    subst h
    intro p hp
    exact absurd hp (List.not_mem_nil p)
  | cons g rest ih =>
    obtain ⟨k, es⟩ := g
    simp only [buildAll] at h
    cases hbp : buildPattern k es with
    | error u => rw [hbp] at h; exact absurd h (by simp)
    | ok q =>
      rw [hbp] at h
      cases hba : buildAll rest with
      | error u => rw [hba] at h; exact absurd h (by simp)
      | ok qs =>
        rw [hba] at h
        simp only [Except.ok.injEq] at h
        subst h
        intro p hp
        rcases List.mem_cons.mp hp with h1 | h1
        · exact ⟨(k, es), List.mem_cons_self _ _, h1 ▸ hbp⟩
        · obtain ⟨g2, hg2, hb2⟩ := ih qs hba p h1
          exact ⟨g2, List.mem_cons_of_mem _ hg2, hb2⟩

theorem detectErrorPatterns_ok_props (entries : List LogEntry) (ps : List ErrPattern)
    (h : detectErrorPatterns entries = .ok ps) :
    ps.length ≤ 10 ∧ List.Sorted countDesc ps ∧
      ∀ p ∈ ps, 2 ≤ p.count ∧ p.category = "error".data ∧
        p.severity = (if 10 < p.count then "high".data else "medium".data) := by
  unfold detectErrorPatterns at h
  by_cases he : (entries.filter (fun e => isErrLevel e.level)).isEmpty = true
  · rw [if_pos he] at h
    simp only [Except.ok.injEq] at h
    subst h
    exact ⟨by norm_num, List.sorted_nil, fun p hp => absurd hp (List.not_mem_nil p)⟩
  · rw [if_neg he] at h
    cases hba : buildAll ((groupByNorm (entries.filter (fun e => isErrLevel e.level))).filter
        (fun g => 2 ≤ g.2.length)) with
    | error u => rw [hba] at h; exact absurd h (by simp)
    | ok qs =>
      rw [hba] at h
      simp only [Except.ok.injEq] at h
      subst h
      refine ⟨List.length_take_le 10 _, ?_, ?_⟩
      · exact List.Pairwise.sublist (List.take_sublist _ _)
          (List.sorted_insertionSort countDesc qs)
      · intro p hp
        have hp2 : p ∈ qs :=
          (List.perm_insertionSort countDesc qs).mem_iff.mp (List.mem_of_mem_take hp)
        obtain ⟨g, hg, hbpg⟩ := buildAll_ok_mem _ _ hba p hp2
        have hglen : 2 ≤ g.2.length := by simpa using (List.mem_filter.mp hg).2
        unfold buildPattern at hbpg
        cases hmn : dtMinList (g.2.filterMap fun e => e.timestamp) with
        | none => rw [hmn] at hbpg; exact absurd hbpg (by simp)
        | some mn =>
          cases hmx : dtMaxList (g.2.filterMap fun e => e.timestamp) with
          | none => rw [hmn, hmx] at hbpg; exact absurd hbpg (by simp)
          | some mx =>
            rw [hmn, hmx] at hbpg
            simp only [Except.ok.injEq] at hbpg
            subst hbpg
            refine ⟨hglen, rfl, ?_⟩
            by_cases hc : 10 < g.2.length
            · simp only [gt_iff_lt, hc, if_true, if_pos hc]
            · simp only [gt_iff_lt, hc, if_false, if_neg hc]

theorem buildAll_ok_of_ts (gs : List (List Char × List LogEntry))
    (h : ∀ g ∈ gs, ∃ e ∈ g.2, e.timestamp.isSome = true) :
    ∃ ps, buildAll gs = .ok ps := by
  induction gs with
  | nil => exact ⟨[], rfl⟩
  | cons g rest ih =>
    obtain ⟨k, es⟩ := g
    obtain ⟨e, he, hts⟩ := h (k, es) (List.mem_cons_self _ _)
    obtain ⟨ps, hps⟩ := ih (fun g2 hg2 => h g2 (List.mem_cons_of_mem _ hg2))
    have hbp : ∃ p, buildPattern k es = .ok p := by
      unfold buildPattern
      cases htss2 : es.filterMap (fun e => e.timestamp) with
      | nil =>
        obtain ⟨t, ht⟩ := Option.isSome_iff_exists.mp hts
        have hmem : t ∈ es.filterMap (fun e => e.timestamp) :=
          List.mem_filterMap.mpr ⟨e, he, ht⟩
        rw [htss2] at hmem
        exact absurd hmem (List.not_mem_nil t)
      | cons t ts => exact ⟨_, rfl⟩
    obtain ⟨p, hp⟩ := hbp
    refine ⟨p :: ps, ?_⟩
    simp only [buildAll]
    rw [hp, hps]

/-- The scenario timestamps (hour varies). -/
def scenTs (h : Nat) : PyDateTime := ⟨2024, 3, 15, h, 0, 0, 0, none⟩

def scenErr (msg : List Char) (h n : Nat) : LogEntry :=
  { timestamp := some (scenTs h), level := some .error, service := none,
    message := msg, raw_line := msg, line_number := n, metadata := [] }

def scenInfo (msg : List Char) (n : Nat) : LogEntry :=
  { timestamp := some (scenTs 9), level := some .info, service := none,
    message := msg, raw_line := msg, line_number := n, metadata := [] }

/-- 12 entries, of which 3 ERROR entries differ only in a long numeric id and
a UUID and so share one normalized message shape. -/
def scenario12 : List LogEntry :=
  [scenInfo "Server started".data 1,
   scenErr "Failed to process order 123456 for user 550e8400-e29b-41d4-a716-446655440000".data 10 2,
   scenInfo "Heartbeat ok".data 3,
   scenInfo "Cache warmed".data 4,
   scenErr "Failed to process order 987654 for user 6ba7b810-9dad-11d1-80b4-00c04fd430c8".data 11 5,
   scenInfo "Request served".data 6,
   scenInfo "Request served again".data 7,
   scenInfo "Metrics flushed".data 8,
   scenErr "Failed to process order 555000 for user 6ba7b811-9dad-11d1-80b4-00c04fd430c8".data 12 9,
   scenInfo "Session opened".data 10,
   scenInfo "Session closed".data 11,
   scenInfo "Shutdown scheduled".data 12]

/-- The single pattern the scenario yields. -/
def scenPattern : ErrPattern :=
  { pattern := "Failed to process order ID for user UUID".data,
    count := 3,
    examples :=
      ["Failed to process order 123456 for user 550e8400-e29b-41d4-a716-446655440000".data,
       "Failed to process order 987654 for user 6ba7b810-9dad-11d1-80b4-00c04fd430c8".data,
       "Failed to process order 555000 for user 6ba7b811-9dad-11d1-80b4-00c04fd430c8".data],
    severity := "medium".data, category := "error".data,
    first_occurrence := scenTs 10, last_occurrence := scenTs 12 }

/-- C6 (corrected): the clustering rules hold whenever every reported group
has a timestamped member (otherwise the clustering raises, see the
counterexample): only ERROR/FATAL/CRITICAL entries enter, groups need ≥ 2
members, severity is "high" exactly above count 10, at most the top 10 groups
are returned in descending count order; and the 12-entry scenario yields
exactly one pattern with count 3 and severity "medium". -/
theorem C6_amended :
    (∀ entries : List LogEntry,
      (∀ g ∈ (groupByNorm (entries.filter (fun e => isErrLevel e.level))).filter
          (fun g => 2 ≤ g.2.length), ∃ e ∈ g.2, e.timestamp.isSome = true) →
      ∃ ps, detectErrorPatterns entries = .ok ps ∧ ps.length ≤ 10 ∧
        List.Sorted countDesc ps ∧
        ∀ p ∈ ps, 2 ≤ p.count ∧ p.category = "error".data ∧
          p.severity = (if 10 < p.count then "high".data else "medium".data)) ∧
    detectErrorPatterns scenario12 = .ok [scenPattern] := by
  constructor
  · intro entries H
    by_cases he : (entries.filter (fun e => isErrLevel e.level)).isEmpty = true
    · refine ⟨[], ?_, by norm_num, List.sorted_nil,
        fun p hp => absurd hp (List.not_mem_nil p)⟩
      unfold detectErrorPatterns
      rw [if_pos he]
    · obtain ⟨qs, hqs⟩ := buildAll_ok_of_ts _ H
      have hdet : detectErrorPatterns entries
          = .ok ((qs.insertionSort countDesc).take 10) := by
        unfold detectErrorPatterns
        rw [if_neg he, hqs]
      obtain ⟨h1, h2, h3⟩ := detectErrorPatterns_ok_props entries _ hdet
      exact ⟨_, hdet, h1, h2, h3⟩
  · rfl

/-- C6 witness: the amended theorem applied at the 12-entry scenario, whose
single ≥2 group contains timestamped members. -/
theorem C6_amended_witness :
    (∀ g ∈ (groupByNorm (scenario12.filter (fun e => isErrLevel e.level))).filter
        (fun g => 2 ≤ g.2.length), ∃ e ∈ g.2, e.timestamp.isSome = true) ∧
    (∃ ps, detectErrorPatterns scenario12 = .ok ps ∧ ps.length ≤ 10 ∧
      List.Sorted countDesc ps ∧
      ∀ p ∈ ps, 2 ≤ p.count ∧ p.category = "error".data ∧
        p.severity = (if 10 < p.count then "high".data else "medium".data)) :=
  ⟨by decide, C6_amended.1 scenario12 (by decide)⟩

/-! ## `LogAnalyzer._detect_anomalies` (claim C9) -/

/-- One anomaly record; the human-readable `description` (float-formatted by
the source) carries no analysed property and is omitted. -/
structure Anomaly where
  atype : List Char
  timestamp : PyDateTime
  severity : List Char
  affected : Nat
deriving DecidableEq, Repr

def dtLe (a b : PyDateTime) : Prop := dtLeB a b = true

instance instDtLeDec : DecidableRel dtLe := fun _ _ => instDecidableEqBool _ _

/-- `sorted([e for e in entries if e.timestamp], key=lambda x: x.timestamp)`,
kept as the timestamp list (only the timestamps are read downstream). -/
def sortedTsOf (entries : List LogEntry) : List PyDateTime :=
  (entries.filterMap (fun e => e.timestamp)).insertionSort dtLe

/-- Consecutive `total_seconds()` differences, exact (microseconds over 1e6). -/
def gapsOf : List PyDateTime → List PyQ
  | a :: b :: rest => ⟨epochUs b - epochUs a, 1000000⟩ :: gapsOf (b :: rest)
  | _ => []

/-- `sum(time_gaps) / len(time_gaps)`. -/
def meanGap (gaps : List PyQ) : PyQ :=
  PyQ.div (gaps.foldl PyQ.add ⟨0, 1⟩) ⟨Int.ofNat gaps.length, 1⟩

/-- The flagging loop: gap `i` is reported with `timestamped_entries[i]`'s
timestamp when it exceeds the threshold and 300 seconds. -/
def timeGapAux (thr : PyQ) : List PyQ → List PyDateTime → List Anomaly
  | g :: gs, t :: ts =>
    if PyQ.ltB thr g && PyQ.ltB ⟨300, 1⟩ g then
      { atype := "time_gap".data, timestamp := t, severity := "medium".data, affected := 0 }
        :: timeGapAux thr gs ts
    else timeGapAux thr gs ts
  | _, _ => []

/-- `LogAnalyzer._detect_time_anomalies`. -/
def detectTimeAnomalies (entries : List LogEntry) : List Anomaly :=
  if (sortedTsOf entries).length < 10 then []
  else
    match gapsOf (sortedTsOf entries) with
    | [] => []
    | g :: gs =>
      timeGapAux (PyQ.mul (meanGap (g :: gs)) ⟨10, 1⟩) (g :: gs) (sortedTsOf entries)

/-- `timestamp.replace(minute=0, second=0, microsecond=0)`. -/
def hourKey (t : PyDateTime) : PyDateTime :=
  { t with minute := 0, second := 0, usec := 0 }

/-- `defaultdict(int)` bump, insertion-ordered. -/
def bumpCount (m : List (PyDateTime × Nat)) (k : PyDateTime) : List (PyDateTime × Nat) :=
  match m with
  | [] => [(k, 1)]
  | (k0, n) :: rest => if k0 = k then (k0, n + 1) :: rest else (k0, n) :: bumpCount rest k

def hourlyCounts (entries : List LogEntry) : List (PyDateTime × Nat) :=
  entries.foldl (fun m e =>
    match e.timestamp with
    | some t => bumpCount m (hourKey t)
    | none => m) []

def countsAvg (m : List (PyDateTime × Nat)) : PyQ :=
  PyQ.div ⟨Int.ofNat (m.foldl (fun a p => a + p.2) 0), 1⟩ ⟨Int.ofNat m.length, 1⟩

/-- `LogAnalyzer._detect_volume_anomalies`. -/
def detectVolumeAnomalies (entries : List LogEntry) : List Anomaly :=
  if (hourlyCounts entries).length < 3 then []
  else
    (hourlyCounts entries).filterMap (fun p =>
      if PyQ.ltB (PyQ.mul (countsAvg (hourlyCounts entries)) ⟨3, 1⟩) ⟨Int.ofNat p.2, 1⟩
          && decide (100 < p.2) then
        some { atype := "volume_spike".data, timestamp := p.1,
               severity :=
                 if PyQ.ltB (PyQ.mul (countsAvg (hourlyCounts entries)) ⟨5, 1⟩)
                     ⟨Int.ofNat p.2, 1⟩
                 then "medium".data else "low".data,
               affected := p.2 }
      else none)

/-- `timestamp.replace(minute=(minute // 10) * 10, second=0, microsecond=0)`. -/
def tenMinKey (t : PyDateTime) : PyDateTime :=
  { t with minute := (t.minute / 10) * 10, second := 0, usec := 0 }

def errorIntervalCounts (entries : List LogEntry) : List (PyDateTime × Nat) :=
  (entries.filter (fun e => isErrLevel e.level && e.timestamp.isSome)).foldl
    (fun m e =>
      match e.timestamp with
      | some t => bumpCount m (tenMinKey t)
      | none => m) []

/-- `LogAnalyzer._detect_error_spikes`. -/
def detectErrorSpikes (entries : List LogEntry) : List Anomaly :=
  if (entries.filter (fun e => isErrLevel e.level && e.timestamp.isSome)).length < 10 then []
  else if (errorIntervalCounts entries).length < 3 then []
  else
    (errorIntervalCounts entries).filterMap (fun p =>
      if PyQ.ltB (PyQ.mul (countsAvg (errorIntervalCounts entries)) ⟨3, 1⟩) ⟨Int.ofNat p.2, 1⟩
          && decide (10 < p.2) then
        some { atype := "error_spike".data, timestamp := p.1,
               severity :=
                 if PyQ.ltB (PyQ.mul (countsAvg (errorIntervalCounts entries)) ⟨5, 1⟩)
                     ⟨Int.ofNat p.2, 1⟩
                 then "high".data else "medium".data,
               affected := p.2 }
      else none)

/-- `LogAnalyzer._detect_anomalies`. -/
def detectAnomalies (entries : List LogEntry) : List Anomaly :=
  ((if 100 < entries.length then detectTimeAnomalies entries else [])
      ++ detectVolumeAnomalies entries ++ detectErrorSpikes entries).take 10

/-! ## Claim C9: anomaly guards -/

theorem timeGapAux_mem (thr : PyQ) :
    ∀ (gaps : List PyQ) (ts : List PyDateTime) (r : Anomaly), r ∈ timeGapAux thr gaps ts →
      r.atype = "time_gap".data ∧
        ∃ g ∈ gaps, PyQ.ltB thr g = true ∧ PyQ.ltB ⟨300, 1⟩ g = true := by
  intro gaps
  induction gaps with
  | nil =>
    intro ts r hr
    rw [show timeGapAux thr [] ts = [] from by cases ts <;> rfl] at hr
    exact absurd hr (List.not_mem_nil r)
  | cons g gs ih =>
    intro ts r hr
    cases ts with
    | nil => exact absurd hr (List.not_mem_nil r)
    | cons t ts2 =>
      rw [timeGapAux] at hr
      by_cases hc : (PyQ.ltB thr g && PyQ.ltB ⟨300, 1⟩ g) = true
      · rw [if_pos hc] at hr
        rw [Bool.and_eq_true] at hc
        rcases List.mem_cons.mp hr with h1 | h1
        · subst h1
          exact ⟨rfl, g, List.mem_cons_self _ _, hc.1, hc.2⟩
        · obtain ⟨ha, g2, hg2, hl⟩ := ih ts2 r h1
          exact ⟨ha, g2, List.mem_cons_of_mem _ hg2, hl⟩
      · rw [if_neg hc] at hr
        obtain ⟨ha, g2, hg2, hl⟩ := ih ts2 r hr
        exact ⟨ha, g2, List.mem_cons_of_mem _ hg2, hl⟩

theorem detectTime_mem (entries : List LogEntry) (r : Anomaly)
    (hr : r ∈ detectTimeAnomalies entries) :
    r.atype = "time_gap".data ∧
      ∃ g ∈ gapsOf (sortedTsOf entries),
        PyQ.ltB (PyQ.mul (meanGap (gapsOf (sortedTsOf entries))) ⟨10, 1⟩) g = true ∧
          PyQ.ltB ⟨300, 1⟩ g = true := by
  unfold detectTimeAnomalies at hr
  by_cases h1 : (sortedTsOf entries).length < 10
  · rw [if_pos h1] at hr
    exact absurd hr (List.not_mem_nil r)
  · rw [if_neg h1] at hr
    cases hg : gapsOf (sortedTsOf entries) with
    | nil => rw [hg] at hr; exact absurd hr (List.not_mem_nil r)
    | cons g gs =>
      rw [hg] at hr
      obtain ⟨ha, g2, hg2, hl⟩ := timeGapAux_mem _ _ _ r hr
      exact ⟨ha, g2, hg ▸ hg2, hl⟩

theorem volume_atype (entries : List LogEntry) :
    ∀ r ∈ detectVolumeAnomalies entries, r.atype = "volume_spike".data := by
  intro r hr
  unfold detectVolumeAnomalies at hr
  by_cases hc : (hourlyCounts entries).length < 3
  · rw [if_pos hc] at hr
    exact absurd hr (List.not_mem_nil r)
  · rw [if_neg hc] at hr
    obtain ⟨p, _, hp⟩ := List.mem_filterMap.mp hr
    split at hp
    · simp only [Option.some.injEq] at hp
      rw [← hp]
    · exact absurd hp (by simp)

theorem errspike_atype (entries : List LogEntry) :
    ∀ r ∈ detectErrorSpikes entries, r.atype = "error_spike".data := by
  intro r hr
  unfold detectErrorSpikes at hr
  by_cases hc : (entries.filter (fun e => isErrLevel e.level && e.timestamp.isSome)).length < 10
  · rw [if_pos hc] at hr
    exact absurd hr (List.not_mem_nil r)
  · rw [if_neg hc] at hr
    by_cases hc2 : (errorIntervalCounts entries).length < 3
    · rw [if_pos hc2] at hr
      exact absurd hr (List.not_mem_nil r)
    · rw [if_neg hc2] at hr
      obtain ⟨p, _, hp⟩ := List.mem_filterMap.mp hr
      split at hp
      · simp only [Option.some.injEq] at hp
        rw [← hp]
      · exact absurd hp (by simp)

theorem gapsOf_d : ∀ (l : List PyDateTime), ∀ g ∈ gapsOf l, g.d = 1000000 := by
  intro l
  induction l with
  | nil => intro g hg; exact absurd hg (List.not_mem_nil g)
  | cons a rest ih =>
    intro g hg
    cases rest with
    | nil => exact absurd hg (List.not_mem_nil g)
    | cons b rest2 =>
      rw [gapsOf] at hg
      rcases List.mem_cons.mp hg with h1 | h1
      · rw [h1]
      · exact ih g h1

theorem foldl_add_dpos (l : List PyQ) :
    ∀ q : PyQ, 0 < q.d → (∀ x ∈ l, 0 < x.d) → 0 < (l.foldl PyQ.add q).d := by
  induction l with
  | nil => intro q hq _; exact hq
  | cons x l ih =>
    intro q hq hall
    rw [List.foldl_cons]
    exact ih _ (Nat.mul_pos hq (hall x (List.mem_cons_self _ _)))
      (fun y hy => hall y (List.mem_cons_of_mem _ hy))

/-- `(a * ⟨10,1⟩).toRat = a.toRat * 10` (unconditionally: ℚ division by zero
is zero on both sides). -/
theorem pyqToRat_mul (a b : PyQ) : (PyQ.mul a b).toRat = a.toRat * b.toRat := by
  unfold PyQ.mul PyQ.toRat
  push_cast
  rw [div_mul_div_comm]

/-- C9: no time-gap anomalies under 10 timestamped entries, and none at all
unless the total count exceeds 100; no volume anomalies under 3 hourly
buckets; every flagged gap exceeds 10× the mean gap and is at least 300
seconds; at most 10 anomalies overall. -/
theorem C9_confirmed (entries : List LogEntry) :
    ((entries.filterMap (fun e => e.timestamp)).length < 10 →
      ∀ r ∈ detectAnomalies entries, r.atype ≠ "time_gap".data) ∧
    (entries.length ≤ 100 →
      ∀ r ∈ detectAnomalies entries, r.atype ≠ "time_gap".data) ∧
    ((hourlyCounts entries).length < 3 →
      ∀ r ∈ detectAnomalies entries, r.atype ≠ "volume_spike".data) ∧
    (∀ r ∈ detectTimeAnomalies entries,
      ∃ g ∈ gapsOf (sortedTsOf entries),
        (meanGap (gapsOf (sortedTsOf entries))).toRat * 10 < g.toRat ∧
          (300 : ℚ) ≤ g.toRat) ∧
    (detectAnomalies entries).length ≤ 10 := by
  have hsortlen : (sortedTsOf entries).length
      = (entries.filterMap (fun e => e.timestamp)).length := by
    unfold sortedTsOf
    exact (List.perm_insertionSort _ _).length_eq
  refine ⟨?_, ?_, ?_, ?_, List.length_take_le 10 _⟩
  · intro hts r hr
    rcases List.mem_append.mp (List.mem_of_mem_take hr) with h | h
    · rcases List.mem_append.mp h with h2 | h2
      · by_cases hl : 100 < entries.length
        · rw [if_pos hl] at h2
          unfold detectTimeAnomalies at h2
          rw [if_pos (by omega : (sortedTsOf entries).length < 10)] at h2
          exact absurd h2 (List.not_mem_nil r)
        · rw [if_neg hl] at h2
          exact absurd h2 (List.not_mem_nil r)
      · rw [volume_atype entries r h2]
        decide
    · rw [errspike_atype entries r h]
      decide
  · intro hlen r hr
    rcases List.mem_append.mp (List.mem_of_mem_take hr) with h | h
    · rcases List.mem_append.mp h with h2 | h2
      · rw [if_neg (by omega : ¬100 < entries.length)] at h2
        exact absurd h2 (List.not_mem_nil r)
      · rw [volume_atype entries r h2]
        decide
    · rw [errspike_atype entries r h]
      decide
  · intro hhc r hr
    rcases List.mem_append.mp (List.mem_of_mem_take hr) with h | h
    · rcases List.mem_append.mp h with h2 | h2
      · by_cases hl : 100 < entries.length
        · rw [if_pos hl] at h2
          rw [(detectTime_mem entries r h2).1]
          decide
        · rw [if_neg hl] at h2
          exact absurd h2 (List.not_mem_nil r)
      · unfold detectVolumeAnomalies at h2
        rw [if_pos hhc] at h2
        exact absurd h2 (List.not_mem_nil r)
    · rw [errspike_atype entries r h]
      decide
  · intro r hr
    obtain ⟨_, g, hg, hl1, hl2⟩ := detectTime_mem entries r hr
    have hgd : g.d = 1000000 := gapsOf_d _ g hg
    have hgdpos : 0 < g.d := by omega
    have hthrd : 0 < (PyQ.mul (meanGap (gapsOf (sortedTsOf entries))) ⟨10, 1⟩).d := by
      unfold PyQ.mul meanGap PyQ.div
      have hglen : 0 < (gapsOf (sortedTsOf entries)).length := by
        cases hcg : gapsOf (sortedTsOf entries) with
        | nil => rw [hcg] at hg; exact absurd hg (List.not_mem_nil g)
        | cons a b => simp
      have hsum : 0 < ((gapsOf (sortedTsOf entries)).foldl PyQ.add ⟨0, 1⟩).d :=
        foldl_add_dpos _ _ Nat.one_pos
          (fun x hx => by rw [gapsOf_d _ x hx]; omega)
      dsimp only
      split
      · dsimp only
        show 0 < ((gapsOf (sortedTsOf entries)).foldl PyQ.add ⟨0, 1⟩).d
            * (gapsOf (sortedTsOf entries)).length * 1
        exact Nat.mul_pos (Nat.mul_pos hsum hglen) Nat.one_pos
      · next hneg => exact absurd (Int.ofNat_nonneg _) hneg
    refine ⟨g, hg, ?_, ?_⟩
    · have h1 := (pyqLtB_iff _ _ hthrd hgdpos).mp hl1
      rw [pyqToRat_mul] at h1
      have h2 : (PyQ.toRat ⟨10, 1⟩) = (10 : ℚ) := by
        unfold PyQ.toRat
        norm_num
      rw [h2] at h1
      exact h1
    · have h1 := (pyqLtB_iff _ _ (by norm_num) hgdpos).mp hl2
      have h2 : (PyQ.toRat ⟨300, 1⟩) = (300 : ℚ) := by
        unfold PyQ.toRat
        norm_num
      rw [h2] at h1
      exact le_of_lt h1

/-- C9 witness: the theorem applied at the empty entry list, every guard
hypothesis discharged by evaluation. -/
theorem C9_confirmed_witness :
    (([] : List LogEntry).filterMap (fun e => e.timestamp)).length < 10 ∧
    (hourlyCounts ([] : List LogEntry)).length < 3 ∧
    (∀ r ∈ detectAnomalies ([] : List LogEntry), r.atype ≠ "time_gap".data) ∧
    (∀ r ∈ detectAnomalies ([] : List LogEntry), r.atype ≠ "volume_spike".data) ∧
    (detectAnomalies ([] : List LogEntry)).length ≤ 10 :=
  ⟨by decide, by decide, (C9_confirmed []).1 (by decide),
   (C9_confirmed []).2.2.1 (by decide), (C9_confirmed []).2.2.2.2⟩

/-! ## `LogAnalyzer.get_timeline_data` (claim C10) -/

/-- `_parse_interval`: the interval map with default 60. -/
def parseInterval (interval : List Char) : Nat :=
  if interval = "1m".data then 1
  else if interval = "5m".data then 5
  else if interval = "15m".data then 15
  else if interval = "30m".data then 30
  else if interval = "1h".data then 60
  else if interval = "2h".data then 120
  else if interval = "6h".data then 360
  else if interval = "12h".data then 720
  else if interval = "1d".data then 1440
  else 60

/-- `_round_timestamp`: floor the minute-of-day to the interval. -/
def roundTimestamp (t : PyDateTime) (im : Nat) : PyDateTime :=
  { t with hour := ((t.hour * 60 + t.minute) / im * im) / 60,
           minute := ((t.hour * 60 + t.minute) / im * im) % 60,
           second := 0, usec := 0 }

/-- Decimal digits of a natural number (fuel-based, kernel-reducible). -/
def natDigitsAux : Nat → Nat → List Char
  | 0, _ => []
  | fuel + 1, n => if n = 0 then [] else natDigitsAux fuel (n / 10) ++ [Char.ofNat (48 + n % 10)]

def natToStr (n : Nat) : List Char := if n = 0 then ['0'] else natDigitsAux (n + 1) n

/-- Zero-pad to width `w`. -/
def padZ (w n : Nat) : List Char :=
  List.replicate (w - (natToStr n).length) '0' ++ natToStr n

/-- `datetime.isoformat()`: microseconds only when non-zero, the fixed-offset
suffix only for aware values. -/
def isoformat (t : PyDateTime) : List Char :=
  padZ 4 t.year.toNat ++ '-' :: padZ 2 t.month ++ '-' :: padZ 2 t.day ++
    'T' :: padZ 2 t.hour ++ ':' :: padZ 2 t.minute ++ ':' :: padZ 2 t.second ++
    (if t.usec ≠ 0 then '.' :: padZ 6 t.usec else []) ++
    (match t.tzMin with
     | none => []
     | some m =>
       (if m < 0 then '-' else '+') ::
         (padZ 2 (m.natAbs / 60) ++ ':' :: padZ 2 (m.natAbs % 60)))

/-- `e.level in [WARN, WARNING]`. -/
def isWarnLevel : Option LogLevel → Bool
  | some .warn => true
  | some .warning => true
  | _ => false

/-- One timeline bucket, keyed by the ISO string of the rounded timestamp. -/
structure TLBucket where
  key : List Char
  error : Nat
  warn : Nat
  info : Nat
  other : Nat
  total : Nat
deriving DecidableEq, Repr

/-- The zero record a `defaultdict` entry starts from. -/
def emptyBucket (k : List Char) : TLBucket := ⟨k, 0, 0, 0, 0, 0⟩

/-- The `if/elif/elif/else` counting step plus the unconditional total. -/
def bumpBucket (b : TLBucket) (lv : Option LogLevel) : TLBucket :=
  if isErrLevel lv then { b with error := b.error + 1, total := b.total + 1 }
  else if isWarnLevel lv then { b with warn := b.warn + 1, total := b.total + 1 }
  else if lv = some .info then { b with info := b.info + 1, total := b.total + 1 }
  else { b with other := b.other + 1, total := b.total + 1 }

/-- `defaultdict` upsert, insertion-ordered. -/
def tlUpsert (m : List TLBucket) (k : List Char) (lv : Option LogLevel) : List TLBucket :=
  match m with
  | [] => [bumpBucket (emptyBucket k) lv]
  | b :: rest => if b.key = k then bumpBucket b lv :: rest else b :: tlUpsert rest k lv

def tlStep (im : Nat) (m : List TLBucket) (e : LogEntry) : List TLBucket :=
  match e.timestamp with
  | some t => tlUpsert m (isoformat (roundTimestamp t im)) e.level
  | none => m

def tlFold (entries : List LogEntry) (im : Nat) : List TLBucket :=
  entries.foldl (tlStep im) []

/-- Python string `<` (code-point lexicographic). -/
def strLtB : List Char → List Char → Bool
  | [], [] => false
  | [], _ :: _ => true
  | _ :: _, [] => false
  | a :: as2, b :: bs =>
    if a.toNat < b.toNat then true
    else if b.toNat < a.toNat then false
    else strLtB as2 bs

/-- The key order of the final `sorted(timeline_data, key=...)`. -/
def keyLe (a b : TLBucket) : Prop := strLtB b.key a.key = false

instance instKeyLeDec : DecidableRel keyLe := fun _ _ => instDecidableEqBool _ _

/-- `LogAnalyzer.get_timeline_data` on an entry list (file reading and the
parser feed it in the source). -/
def getTimelineData (entries : List LogEntry) (interval : List Char) : List TLBucket :=
  let ts := entries.filter (fun e => e.timestamp.isSome)
  if ts.isEmpty then []
  else (tlFold ts (parseInterval interval)).insertionSort keyLe

/-! ## Claim C10: timeline invariants -/

theorem strLtB_asymm : ∀ a b : List Char, strLtB a b = true → strLtB b a = false := by
  intro a
  induction a with
  | nil =>
    intro b h
    cases b with
    | nil => exact absurd h (by rw [strLtB]; exact Bool.false_ne_true)
    | cons c bs => rfl
  | cons x as2 ih =>
    intro b h
    cases b with
    | nil => exact absurd h (by rw [strLtB]; exact Bool.false_ne_true)
    | cons y bs =>
      rw [strLtB] at h ⊢
      by_cases h1 : x.toNat < y.toNat
      · rw [if_neg (by omega), if_pos h1]
      · rw [if_neg h1] at h
        by_cases h2 : y.toNat < x.toNat
        · rw [if_pos h2] at h
          exact absurd h Bool.false_ne_true
        · rw [if_neg h2] at h
          rw [if_neg h2, if_neg h1]
          exact ih bs h

theorem strLtB_eq_of_both_false : ∀ a b : List Char,
    strLtB a b = false → strLtB b a = false → a = b := by
  intro a
  induction a with
  | nil =>
    intro b h1 _
    cases b with
    | nil => rfl
    | cons c bs => exact absurd (by rw [strLtB] : strLtB [] (c :: bs) = true) (by rw [h1]; exact Bool.false_ne_true)
  | cons x as2 ih =>
    intro b h1 h2
    cases b with
    | nil => exact absurd (by rw [strLtB] : strLtB [] (x :: as2) = true) (by rw [h2]; exact Bool.false_ne_true)
    | cons y bs =>
      rw [strLtB] at h1 h2
      by_cases hxy : x.toNat < y.toNat
      · rw [if_pos hxy] at h1
        exact absurd h1 (Bool.false_ne_true ∘ Eq.symm)
      · rw [if_neg hxy] at h1
        by_cases hyx : y.toNat < x.toNat
        · rw [if_pos hyx] at h2
          exact absurd h2 (Bool.false_ne_true ∘ Eq.symm)
        · rw [if_neg hyx] at h1
          rw [if_neg hyx, if_neg hxy] at h2
          have hx : x = y := by
            have ht : x.toNat = y.toNat := by omega
            rw [← Char.ofNat_toNat x, ht, Char.ofNat_toNat]
          rw [hx, ih bs h1 h2]

theorem strLtB_trans : ∀ a b c : List Char,
    strLtB a b = true → strLtB b c = true → strLtB a c = true := by
  intro a
  induction a with
  | nil =>
    intro b c hab hbc
    cases c with
    | nil =>
      cases b with
      | nil => exact hab
      | cons y bs => exact absurd hbc (by rw [strLtB]; exact Bool.false_ne_true)
    | cons z cs => rw [strLtB]
  | cons x as2 ih =>
    intro b c hab hbc
    cases b with
    | nil => exact absurd hab (by rw [strLtB]; exact Bool.false_ne_true)
    | cons y bs =>
      cases c with
      | nil => exact absurd hbc (by rw [strLtB]; exact Bool.false_ne_true)
      | cons z cs =>
        rw [strLtB] at hab hbc ⊢
        by_cases hxy : x.toNat < y.toNat
        · by_cases hyz : y.toNat < z.toNat
          · rw [if_pos (by omega)]
          · rw [if_neg hyz] at hbc
            by_cases hzy : z.toNat < y.toNat
            · rw [if_pos hzy] at hbc
              exact absurd hbc Bool.false_ne_true
            · rw [if_pos (by omega)]
        · rw [if_neg hxy] at hab
          by_cases hyx : y.toNat < x.toNat
          · rw [if_pos hyx] at hab
            exact absurd hab Bool.false_ne_true
          · rw [if_neg hyx] at hab
            by_cases hyz : y.toNat < z.toNat
            · rw [if_pos (by omega)]
            · rw [if_neg hyz] at hbc
              by_cases hzy : z.toNat < y.toNat
              · rw [if_pos hzy] at hbc
                exact absurd hbc Bool.false_ne_true
              · rw [if_neg hzy] at hbc
                rw [if_neg (by omega), if_neg (by omega)]
                exact ih bs cs hab hbc

instance instKeyLeTotal : IsTotal TLBucket keyLe := by
  refine ⟨fun a b => ?_⟩
  unfold keyLe
  by_cases h : strLtB b.key a.key = true
  · right
    exact strLtB_asymm _ _ h
  · left
    cases hx : strLtB b.key a.key with
    | false => rfl
    | true => exact absurd hx h

instance instKeyLeTrans : IsTrans TLBucket keyLe := by
  refine ⟨fun a b c h1 h2 => ?_⟩
  unfold keyLe at *
  cases hca : strLtB c.key a.key with
  | false => rfl
  | true =>
    cases hbc : strLtB b.key c.key with
    | true =>
      have := strLtB_trans _ _ _ hbc hca
      rw [this] at h1
      exact absurd h1 (Bool.false_ne_true ∘ Eq.symm)
    | false =>
      have hbceq : c.key = b.key := strLtB_eq_of_both_false _ _ h2 hbc
      rw [hbceq] at hca
      rw [hca] at h1
      exact absurd h1 (Bool.false_ne_true ∘ Eq.symm)

def bucketOk (b : TLBucket) : Prop := b.total = b.error + b.warn + b.info + b.other

theorem bumpBucket_ok (b : TLBucket) (lv : Option LogLevel) (h : bucketOk b) :
    bucketOk (bumpBucket b lv) := by
  unfold bucketOk at *
  unfold bumpBucket
  by_cases h1 : isErrLevel lv = true
  · rw [if_pos h1]; dsimp only; omega
  · rw [if_neg h1]
    by_cases h2 : isWarnLevel lv = true
    · rw [if_pos h2]; dsimp only; omega
    · rw [if_neg h2]
      by_cases h3 : lv = some .info
      · rw [if_pos h3]; dsimp only; omega
      · rw [if_neg h3]; dsimp only; omega

theorem bumpBucket_total (b : TLBucket) (lv : Option LogLevel) :
    (bumpBucket b lv).total = b.total + 1 := by
  unfold bumpBucket
  by_cases h1 : isErrLevel lv = true
  · rw [if_pos h1]
  · rw [if_neg h1]
    by_cases h2 : isWarnLevel lv = true
    · rw [if_pos h2]
    · rw [if_neg h2]
      by_cases h3 : lv = some .info
      · rw [if_pos h3]
      · rw [if_neg h3]

theorem tlUpsert_ok (k : List Char) (lv : Option LogLevel) :
    ∀ m : List TLBucket, (∀ b ∈ m, bucketOk b) → ∀ b ∈ tlUpsert m k lv, bucketOk b := by
  intro m
  induction m with
  | nil =>
    intro _ b hb
    rw [tlUpsert] at hb
    rcases List.mem_cons.mp hb with h1 | h1
    · subst h1
      exact bumpBucket_ok _ _ (by unfold bucketOk emptyBucket; rfl)
    · exact absurd h1 (List.not_mem_nil b)
  | cons b0 rest ih =>
    intro hall b hb
    rw [tlUpsert] at hb
    by_cases hk : b0.key = k
    · rw [if_pos hk] at hb
      rcases List.mem_cons.mp hb with h1 | h1
      · subst h1
        exact bumpBucket_ok _ _ (hall b0 (List.mem_cons_self _ _))
      · exact hall b (List.mem_cons_of_mem _ h1)
    · rw [if_neg hk] at hb
      rcases List.mem_cons.mp hb with h1 | h1
      · subst h1
        exact hall b (List.mem_cons_self _ _)
      · exact ih (fun x hx => hall x (List.mem_cons_of_mem _ hx)) b h1

theorem tlUpsert_sum (k : List Char) (lv : Option LogLevel) :
    ∀ m : List TLBucket,
      ((tlUpsert m k lv).map TLBucket.total).sum = ((m.map TLBucket.total).sum) + 1 := by
  intro m
  induction m with
  | nil =>
    rw [tlUpsert]
    simp [bumpBucket_total, emptyBucket]
  | cons b0 rest ih =>
    rw [tlUpsert]
    by_cases hk : b0.key = k
    · rw [if_pos hk]
      simp only [List.map_cons, List.sum_cons, bumpBucket_total]
      omega
    · rw [if_neg hk]
      simp only [List.map_cons, List.sum_cons, ih]
      omega

theorem tlFoldl_ok (im : Nat) :
    ∀ (es : List LogEntry) (m : List TLBucket), (∀ b ∈ m, bucketOk b) →
      ∀ b ∈ es.foldl (tlStep im) m, bucketOk b := by
  intro es
  induction es with
  | nil => intro m h b hb; exact h b hb
  | cons e rest ih =>
    intro m h b hb
    rw [List.foldl_cons] at hb
    refine ih (tlStep im m e) ?_ b hb
    unfold tlStep
    cases e.timestamp with
    | none => exact h
    | some t => exact tlUpsert_ok _ _ m h

theorem tlFoldl_sum (im : Nat) :
    ∀ (es : List LogEntry) (m : List TLBucket),
      ((es.foldl (tlStep im) m).map TLBucket.total).sum
        = (m.map TLBucket.total).sum + (es.filter (fun e => e.timestamp.isSome)).length := by
  intro es
  induction es with
  | nil => intro m; simp
  | cons e rest ih =>
    intro m
    rw [List.foldl_cons, ih, List.filter_cons]
    unfold tlStep
    cases hts : e.timestamp with
    | none => simp [hts]
    | some t => simp [hts, tlUpsert_sum]; omega
      

/-- C10: every bucket's total equals the sum of its four level counters; the
totals sum to the number of timestamped entries (each timestamped entry is
counted in exactly one bucket); the records are in ascending order of their
ISO-formatted key. -/
theorem C10_confirmed (entries : List LogEntry) (interval : List Char) :
    (∀ b ∈ getTimelineData entries interval,
        b.total = b.error + b.warn + b.info + b.other) ∧
    ((getTimelineData entries interval).map TLBucket.total).sum
        = (entries.filter (fun e => e.timestamp.isSome)).length ∧
    List.Sorted keyLe (getTimelineData entries interval) := by
  unfold getTimelineData
  by_cases he : (entries.filter (fun e => e.timestamp.isSome)).isEmpty = true
  · rw [if_pos he]
    refine ⟨fun b hb => absurd hb (List.not_mem_nil b), ?_, List.sorted_nil⟩
    have h0 : entries.filter (fun e => e.timestamp.isSome) = [] := List.isEmpty_iff.mp he
    rw [h0]
    rfl
  · rw [if_neg he]
    refine ⟨?_, ?_, List.sorted_insertionSort keyLe _⟩
    · intro b hb
      have hb2 : b ∈ tlFold (entries.filter fun e => e.timestamp.isSome)
          (parseInterval interval) :=
        (List.perm_insertionSort keyLe _).mem_iff.mp hb
      exact tlFoldl_ok _ _ [] (fun x hx => absurd hx (List.not_mem_nil x)) b hb2
    · rw [List.Perm.sum_eq (List.Perm.map TLBucket.total (List.perm_insertionSort keyLe _))]
      unfold tlFold
      rw [tlFoldl_sum]
      simp [List.filter_filter]

def c10Entry (h : Nat) (lv : Option LogLevel) : LogEntry :=
  { timestamp := some ⟨2024, 5, 1, h, 30, 0, 0, none⟩, level := lv, service := none,
    message := "m".data, raw_line := "m".data, line_number := 1, metadata := [] }

/-- C10 witness: the theorem applied at a concrete two-entry list, with the
bucket sum evaluated. -/
theorem C10_confirmed_witness :
    ((getTimelineData [c10Entry 1 (some .error), c10Entry 2 (some .info)] "1h".data).map
        TLBucket.total).sum = 2 ∧
    List.Sorted keyLe
      (getTimelineData [c10Entry 1 (some .error), c10Entry 2 (some .info)] "1h".data) :=
  ⟨(C10_confirmed [c10Entry 1 (some .error), c10Entry 2 (some .info)] "1h".data).2.1.trans
     (by decide),
   (C10_confirmed [c10Entry 1 (some .error), c10Entry 2 (some .info)] "1h".data).2.2⟩
